import Mathlib

/-!
# nnForge: sparse_convolution_layer

A shallow embedding of `nnforge/sparse_convolution_layer.cpp`.

* `unsigned int` values are natural numbers below `2^32`; every arithmetic
  operation the source performs on them is reduced modulo `2^32`
  (`u32_add`, `u32_sub`, `u32_mul`).
* `int` values are integers; `static_cast<int>` of an `unsigned int` is the
  two's complement value (`static_cast_int`), so a loop
  `for (int i = 0; i < static_cast<int>(n); ++i)` runs `int_loop_iterations n`
  times.
* `std::vector<unsigned int>` is `List Nat`, `std::vector<int>` is `List Int`,
  `std::set<int>` is a strictly ascending `List Int`; an element read by
  `operator[]` is `List.getD`.
* A stream is the list of its bytes; `std::istream` carries its fail state and
  its exception mask (`istream`, `istream_read`).
* The random generator is the sequence `generator : Nat → Nat` of its outputs
  together with the number of outputs consumed; the normal distribution of
  `randomize_weights` is the sequence `samples : Nat → Int` of its values.
* `float` values are held exactly: the cost estimates are whole numbers
  rounded to 24 significant bits (`float_round`); the values of
  `randomize_weights` are whole multiples of 2^-149 (`FLOAT_ONE` is 1.0),
  rounded to nearest, ties to even (`float_round_units`).
* A `throw` is `Except.error` carrying the throw site; so is an `operator[]`
  with an index outside the vector (`Exn.subscript_out_of_range`).
* An `int` increment is reduced to 32 bits, two's complement (`i32_wrap`);
  an `int` compared with a `size_t` is converted first, so a negative `int` is
  above every size (the scan index of `randomize_custom_data`, `scan_slots`).
-/

namespace nnforge

/-! ## Machine arithmetic -/

/-- The modulus of `unsigned int` arithmetic. -/
def U32_MOD : Nat := 4294967296

/-- Addition of two `unsigned int` values. -/
def u32_add (a b : Nat) : Nat := (a + b) % U32_MOD

/-- Subtraction of two `unsigned int` values. -/
def u32_sub (a b : Nat) : Nat := (a + U32_MOD - b % U32_MOD) % U32_MOD

/-- Multiplication of two `unsigned int` values. -/
def u32_mul (a b : Nat) : Nat := (a * b) % U32_MOD

/-- The value `static_cast<int>(x)` of an `unsigned int` (two's complement). -/
def static_cast_int (x : Nat) : Int :=
  if x % U32_MOD < 2147483648 then ((x % U32_MOD : Nat) : Int)
  else ((x % U32_MOD : Nat) : Int) - 4294967296

/-- The value of an `int` expression whose exact result is `x`: the low 32
bits, read as two's complement. -/
def i32_wrap (x : Int) : Int := (x + 2147483648) % 4294967296 - 2147483648

/-- The conversion `static_cast<unsigned int>` of an `int`. -/
def static_cast_unsigned (x : Int) : Nat := (x % 4294967296).toNat

/-! ## Exceptions -/

/-- The throw sites of the translated functions, named after their messages.
`invalid_left_padding_dimension_count` and
`invalid_right_padding_dimension_count` are `std::runtime_error`,
`stream_failure` is the `std::ios_base::failure` of a stream whose exception
mask is set, `subscript_out_of_range` stands for an out-of-range `operator[]`;
all the others are `neural_network_exception`. -/
inductive Exn where
  | window_sizes_empty
  | window_dimension_zero
  | connection_count_smaller_than_input
  | connection_count_smaller_than_output
  | connection_count_larger_than_dense
  | invalid_left_padding_dimension_count
  | invalid_right_padding_dimension_count
  | left_padding_too_large
  | right_padding_too_large
  | feature_map_count_mismatch
  | dimension_count_mismatch
  | too_small_total_dimension
  | output_borders_dimension_count_mismatch
  | internal_error_sparse_connections
  | stream_failure
  | subscript_out_of_range
  deriving DecidableEq, Repr

/-- The error taxonomy of the specification. -/
inductive ErrorKind where
  | ConfigMismatch
  | GeometryError
  | ValidationError
  | InternalInconsistency
  | CorruptStream
  | UndefinedBehaviour
  deriving DecidableEq, Repr

/-- The specification's kind of each throw site. -/
def error_kind : Exn → ErrorKind
  | .window_sizes_empty => .ValidationError
  | .window_dimension_zero => .ValidationError
  | .connection_count_smaller_than_input => .ValidationError
  | .connection_count_smaller_than_output => .ValidationError
  | .connection_count_larger_than_dense => .ValidationError
  | .invalid_left_padding_dimension_count => .ValidationError
  | .invalid_right_padding_dimension_count => .ValidationError
  | .left_padding_too_large => .ValidationError
  | .right_padding_too_large => .ValidationError
  | .feature_map_count_mismatch => .ConfigMismatch
  | .dimension_count_mismatch => .ConfigMismatch
  | .too_small_total_dimension => .GeometryError
  | .output_borders_dimension_count_mismatch => .ConfigMismatch
  | .internal_error_sparse_connections => .InternalInconsistency
  | .stream_failure => .CorruptStream
  | .subscript_out_of_range => .UndefinedBehaviour

/-- Equality of results is decidable, so that the functions below can be
evaluated at concrete inputs. -/
instance instDecidableEqExcept {ε α : Type} [DecidableEq ε] [DecidableEq α] :
    DecidableEq (Except ε α)
  | .ok a, .ok b =>
    if h : a = b then isTrue (by rw [h]) else isFalse (fun h2 => h (Except.ok.inj h2))
  | .error a, .error b =>
    if h : a = b then isTrue (by rw [h]) else isFalse (fun h2 => h (Except.error.inj h2))
  | .ok _, .error _ => isFalse (fun h => Except.noConfusion h)
  | .error _, .ok _ => isFalse (fun h => Except.noConfusion h)

/-! ## Data model -/

/-- The data members of `sparse_convolution_layer`. -/
structure sparse_convolution_layer where
  window_sizes : List Nat
  input_feature_map_count : Nat
  output_feature_map_count : Nat
  feature_map_connection_count : Nat
  left_zero_padding : List Nat
  right_zero_padding : List Nat
  deriving DecidableEq, Repr

/-- The data members of `layer_configuration_specific`. -/
structure layer_configuration_specific where
  feature_map_count : Nat
  dimension_sizes : List Nat
  deriving DecidableEq, Repr

/-- Every scalar member and every vector element is an `unsigned int`, and the
dimension count fits the `unsigned int` loop counters and the
`unsigned int dimension_count` of `write`. -/
def layer_is_u32 (d : sparse_convolution_layer) : Prop :=
  d.input_feature_map_count < U32_MOD ∧
  d.output_feature_map_count < U32_MOD ∧
  d.feature_map_connection_count < U32_MOD ∧
  d.window_sizes.length < U32_MOD ∧
  (∀ w ∈ d.window_sizes, w < U32_MOD) ∧
  (∀ p ∈ d.left_zero_padding, p < U32_MOD) ∧
  (∀ p ∈ d.right_zero_padding, p < U32_MOD)

instance (d : sparse_convolution_layer) : Decidable (layer_is_u32 d) := by
  unfold layer_is_u32; infer_instance

/-! ## Construction and validation -/

/-- The loop `for i: if (padding[i] >= window_sizes[i]) throw` of
`check_consistency`, run when `padding.size() == window_sizes.size()`. -/
def padding_too_large : List Nat → List Nat → Bool
  | p :: ps, w :: ws => decide (p ≥ w) || padding_too_large ps ws
  | _, _ => false

/-- The function `sparse_convolution_layer::check_consistency`: the members
after the call, or the exception thrown. -/
def check_consistency (d : sparse_convolution_layer) :
    Except Exn sparse_convolution_layer :=
  if d.window_sizes.length = 0 then
    .error .window_sizes_empty
  else if d.window_sizes.any (fun w => decide (w = 0)) then
    .error .window_dimension_zero
  else if d.feature_map_connection_count < d.input_feature_map_count then
    .error .connection_count_smaller_than_input
  else if d.feature_map_connection_count < d.output_feature_map_count then
    .error .connection_count_smaller_than_output
  else if d.feature_map_connection_count >
      u32_mul d.input_feature_map_count d.output_feature_map_count then
    .error .connection_count_larger_than_dense
  else if d.left_zero_padding.length ≠ 0 ∧
      d.left_zero_padding.length ≠ d.window_sizes.length then
    .error .invalid_left_padding_dimension_count
  else if d.right_zero_padding.length ≠ 0 ∧
      d.right_zero_padding.length ≠ d.window_sizes.length then
    .error .invalid_right_padding_dimension_count
  else if ¬ d.left_zero_padding.isEmpty ∧
      padding_too_large d.left_zero_padding d.window_sizes then
    .error .left_padding_too_large
  else
    let left :=
      if d.left_zero_padding.isEmpty then List.replicate d.window_sizes.length 0
      else d.left_zero_padding
    if ¬ d.right_zero_padding.isEmpty ∧
        padding_too_large d.right_zero_padding d.window_sizes then
      .error .right_padding_too_large
    else
      let right :=
        if d.right_zero_padding.isEmpty then List.replicate d.window_sizes.length 0
        else d.right_zero_padding
      .ok { d with left_zero_padding := left, right_zero_padding := right }

/-- The first constructor of `sparse_convolution_layer`: member
initialisation followed by `check_consistency`. -/
def construct (window_sizes : List Nat)
    (input_feature_map_count output_feature_map_count
      feature_map_connection_count : Nat)
    (left_zero_padding right_zero_padding : List Nat) :
    Except Exn sparse_convolution_layer :=
  check_consistency
    { window_sizes := window_sizes
      input_feature_map_count := input_feature_map_count
      output_feature_map_count := output_feature_map_count
      feature_map_connection_count := feature_map_connection_count
      left_zero_padding := left_zero_padding
      right_zero_padding := right_zero_padding }

/-! ## Geometry -/

/-- The loop of `get_output_layer_configuration_specific` from index `i` on,
with `n` iterations left; `sizes` holds the input dimension sizes. -/
def output_dimension_sizes (d : sparse_convolution_layer) (sizes : List Nat) :
    Nat → Nat → Except Exn (List Nat)
  | _, 0 => .ok []
  | i, n + 1 =>
    let total_input_dimension_size :=
      u32_add (u32_add (sizes.getD i 0) (d.left_zero_padding.getD i 0))
        (d.right_zero_padding.getD i 0)
    if total_input_dimension_size < d.window_sizes.getD i 0 then
      .error .too_small_total_dimension
    else
      match output_dimension_sizes d sizes (i + 1) n with
      | .error e => .error e
      | .ok rest =>
        .ok (u32_sub (u32_add total_input_dimension_size 1)
              (d.window_sizes.getD i 0) :: rest)

/-- The function
`sparse_convolution_layer::get_output_layer_configuration_specific`. -/
def get_output_layer_configuration_specific (d : sparse_convolution_layer)
    (input_configuration_specific : layer_configuration_specific) :
    Except Exn layer_configuration_specific :=
  if input_configuration_specific.feature_map_count ≠ d.input_feature_map_count then
    .error .feature_map_count_mismatch
  else if input_configuration_specific.dimension_sizes.length ≠ d.window_sizes.length then
    .error .dimension_count_mismatch
  else
    match output_dimension_sizes d input_configuration_specific.dimension_sizes 0
        d.window_sizes.length with
    | .error e => .error e
    | .ok dims =>
      .ok { feature_map_count := d.output_feature_map_count, dimension_sizes := dims }

/-- A validated descriptor: `check_consistency` accepts it and leaves it as
it is (this is the state every successful construction ends in, see
`check_consistency_validated`). -/
def validated (d : sparse_convolution_layer) : Prop :=
  check_consistency d = .ok d

instance (d : sparse_convolution_layer) : Decidable (validated d) := by
  unfold validated; infer_instance

/-- What a successful `check_consistency` establishes. -/
structure consistent (d : sparse_convolution_layer) : Prop where
  window_ne : d.window_sizes ≠ []
  window_pos : ∀ w ∈ d.window_sizes, w ≠ 0
  conn_ge_in : d.input_feature_map_count ≤ d.feature_map_connection_count
  conn_ge_out : d.output_feature_map_count ≤ d.feature_map_connection_count
  conn_le_dense : d.feature_map_connection_count ≤
    u32_mul d.input_feature_map_count d.output_feature_map_count
  left_len : d.left_zero_padding.length = d.window_sizes.length
  right_len : d.right_zero_padding.length = d.window_sizes.length
  left_lt : ∀ i, i < d.window_sizes.length →
    d.left_zero_padding.getD i 0 < d.window_sizes.getD i 0
  right_lt : ∀ i, i < d.window_sizes.length →
    d.right_zero_padding.getD i 0 < d.window_sizes.getD i 0

/-- The padded size of dimension `i` as the code computes it. -/
def total_input_dimension_size (d : sparse_convolution_layer) (sizes : List Nat)
    (i : Nat) : Nat :=
  (sizes.getD i 0 + d.left_zero_padding.getD i 0 + d.right_zero_padding.getD i 0) % U32_MOD

/-! ## Serialization -/

/-- The constant `sparse_convolution_layer::layer_guid`, byte by byte. -/
def layer_guid : List Nat :=
  [0x22, 0x8c, 0x72, 0xef, 0xb2, 0x60, 0x49, 0x3c, 0xae, 0xfd, 0x24, 0xa1, 0x3d, 0x45, 0x56, 0x96]

/-- The constant `sparse_convolution_layer::layer_guid_v1`, byte by byte. -/
def layer_guid_v1 : List Nat :=
  [0x35, 0x9b, 0x36, 0x1c, 0x61, 0xe7, 0x4e, 0x52, 0x89, 0xe6, 0xe7, 0x22, 0xb4, 0x33, 0xf9, 0x5c]

/-- The object representation of an `unsigned int`: four bytes, least
significant first (the platform-native order of the little-endian targets). -/
def u32_to_bytes (x : Nat) : List Nat :=
  [x % 256, x / 256 % 256, x / 65536 % 256, x / 16777216 % 256]

/-- The `unsigned int` whose object representation starts the given bytes. -/
def bytes_to_u32 (b : List Nat) : Nat :=
  b.getD 0 0 + 256 * b.getD 1 0 + 65536 * b.getD 2 0 + 16777216 * b.getD 3 0

/-- The contiguous storage of a `std::vector<unsigned int>`. -/
def vector_to_bytes : List Nat → List Nat
  | [] => []
  | x :: xs => u32_to_bytes x ++ vector_to_bytes xs

/-- The `n` elements of a `std::vector<unsigned int>` whose storage holds the
given bytes. -/
def bytes_to_vector : Nat → List Nat → List Nat
  | 0, _ => []
  | n + 1, b => bytes_to_u32 (b.take 4) :: bytes_to_vector n (b.drop 4)

/-- The call `v.resize(n, fill)` of `std::vector`: the first `n` elements are
kept, missing ones are appended as `fill`. -/
def vector_resize (v : List Nat) (n : Nat) (fill : Nat) : List Nat :=
  v.take n ++ List.replicate (n - v.length) fill

/-- The function `sparse_convolution_layer::write`: the bytes appended to the
stream.  `dimension_count` elements are taken from the storage of each
vector. -/
def write (d : sparse_convolution_layer) : List Nat :=
  let dimension_count := d.window_sizes.length % U32_MOD
  u32_to_bytes d.input_feature_map_count ++
  (u32_to_bytes d.output_feature_map_count ++
  (u32_to_bytes d.feature_map_connection_count ++
  (u32_to_bytes dimension_count ++
  (vector_to_bytes (d.window_sizes.take dimension_count) ++
  (vector_to_bytes (d.left_zero_padding.take dimension_count) ++
   vector_to_bytes (d.right_zero_padding.take dimension_count))))))

/-- The state of a `std::istream`: the characters not yet extracted, whether
`failbit`/`eofbit` is set, and whether `exceptions()` contains them (the
caller of `read` chooses the mask; it is empty by default). -/
structure istream where
  bytes : List Nat
  failed : Bool
  exception_mask : Bool
  deriving DecidableEq, Repr

/-- The call `stream.read(buffer, count)` of `std::istream`: `count`
characters are extracted into the front of `buffer`; when fewer are available
the available ones are stored, `failbit | eofbit` is set and, if the exception
mask contains them, `std::ios_base::failure` is thrown; on a stream that has
already failed nothing is extracted. -/
def istream_read (s : istream) (buffer : List Nat) (count : Nat) :
    Except Exn (istream × List Nat) :=
  if s.failed then
    if s.exception_mask then .error .stream_failure else .ok (s, buffer)
  else if count ≤ s.bytes.length then
    .ok ({ s with bytes := s.bytes.drop count },
      s.bytes.take count ++ buffer.drop count)
  else if s.exception_mask then
    .error .stream_failure
  else
    .ok ({ s with bytes := [], failed := true },
      s.bytes ++ buffer.drop s.bytes.length)

/-- The function `sparse_convolution_layer::read`.  `dimension_count_init` is
the indeterminate value the local `dimension_count` holds before it is read. -/
def read (d : sparse_convolution_layer) (s : istream) (layer_read_guid : List Nat)
    (dimension_count_init : Nat) : Except Exn (sparse_convolution_layer × istream) :=
  match istream_read s (u32_to_bytes d.input_feature_map_count) 4 with
  | .error e => .error e
  | .ok (s1, b1) =>
  match istream_read s1 (u32_to_bytes d.output_feature_map_count) 4 with
  | .error e => .error e
  | .ok (s2, b2) =>
  match istream_read s2 (u32_to_bytes d.feature_map_connection_count) 4 with
  | .error e => .error e
  | .ok (s3, b3) =>
  match istream_read s3 (u32_to_bytes dimension_count_init) 4 with
  | .error e => .error e
  | .ok (s4, b4) =>
  let dimension_count := bytes_to_u32 b4
  let window_sizes := vector_resize d.window_sizes dimension_count 0
  match istream_read s4 (vector_to_bytes window_sizes) (4 * dimension_count) with
  | .error e => .error e
  | .ok (s5, b5) =>
  let left_zero_padding := vector_resize d.left_zero_padding dimension_count 0
  let right_zero_padding := vector_resize d.right_zero_padding dimension_count 0
  if layer_read_guid ≠ layer_guid_v1 then
    match istream_read s5 (vector_to_bytes left_zero_padding) (4 * dimension_count) with
    | .error e => .error e
    | .ok (s6, b6) =>
    match istream_read s6 (vector_to_bytes right_zero_padding) (4 * dimension_count) with
    | .error e => .error e
    | .ok (s7, b7) =>
      .ok ({ window_sizes := bytes_to_vector dimension_count b5
             input_feature_map_count := bytes_to_u32 b1
             output_feature_map_count := bytes_to_u32 b2
             feature_map_connection_count := bytes_to_u32 b3
             left_zero_padding := bytes_to_vector dimension_count b6
             right_zero_padding := bytes_to_vector dimension_count b7 }, s7)
  else
    .ok ({ window_sizes := bytes_to_vector dimension_count b5
           input_feature_map_count := bytes_to_u32 b1
           output_feature_map_count := bytes_to_u32 b2
           feature_map_connection_count := bytes_to_u32 b3
           left_zero_padding := left_zero_padding
           right_zero_padding := right_zero_padding }, s5)

/-! ## Connectivity generation -/

/-- The two vectors of `layer_data_custom` that `randomize_custom_data`
fills: `data_custom[0]` (column indices) and `data_custom[1]` (row
offsets). -/
structure layer_data_custom where
  columns : List Int
  row_offsets : List Int
  deriving DecidableEq, Repr

/-- Modelled from the spec: the distribution type
`nnforge_uniform_int_distribution<int>` is declared outside the given sources.
A call `in_fm_dist(generator)` of a distribution over `[lo, hi]` consumes one
generator output `raw` and returns a value of `[lo, hi]`; every value of the
range is returned for some output. -/
def uniform_int_distribution (lo hi raw : Nat) : Nat :=
  lo + raw % (hi - lo + 1)

/-- The call `s.insert(x)` of `std::set<int>`, the set being the strictly
ascending list of its elements. -/
def set_insert (x : Int) : List Int → List Int
  | [] => [x]
  | y :: ys =>
    if x < y then x :: y :: ys
    else if x = y then y :: ys
    else y :: set_insert x ys

/-- The call `std::set_difference(pool.begin(), pool.end(), present.begin(),
present.end(), v.begin())`: the elements of the `std::set<unsigned int>` that
are not in the `std::set<int>`, in ascending order, stored as `int`. -/
def set_difference (pool : List Nat) (present : List Int) : List Int :=
  (pool.filter (fun x => decide (Int.ofNat x ∉ present))).map Int.ofNat

/-- The loop that fills `output_feature_map_id_list`: `n` entries are left
to write, `i` is the value written next. -/
def fill_output_feature_map_id_list (output_feature_map_count : Nat) :
    Nat → Nat → List Int
  | 0, _ => []
  | n + 1, i =>
    (i : Int) :: fill_output_feature_map_id_list output_feature_map_count n
      (if i + 1 = output_feature_map_count then 0 else i + 1)

/-- The local state of the placement loop of `randomize_custom_data`. -/
structure connection_state where
  out_fm_in_fm_present_list : List (List Int)
  output_feature_map_id_list : List Int
  input_feature_map_id_set : List Nat
  start_feature_map_index : Nat
  generator_position : Nat
  deriving DecidableEq, Repr

/-- The inner `for` loop of `randomize_custom_data`, run over the slots from
`current_feature_map_index` on: the value of the `int`
`current_feature_map_index` when the loop is left.  The loop is left by
`break` at the first slot that is not `-1` and whose output feature map has a
candidate input; by its condition when the index has reached `size()`; and by
its condition when `++current_feature_map_index` has wrapped to a negative
value, which the comparison with the `size_t` value `size()` converts to a
number above every size. -/
def scan_slots (present : List (List Int)) (pool : List Nat) :
    List Int → Int → Int
  | [], current_feature_map_index => current_feature_map_index
  | slot :: rest, current_feature_map_index =>
    if slot ≠ -1 ∧ (set_difference pool (present.getD slot.toNat [])).length ≠ 0 then
      current_feature_map_index
    else if i32_wrap (current_feature_map_index + 1) < 0 then
      i32_wrap (current_feature_map_index + 1)
    else scan_slots present pool rest (i32_wrap (current_feature_map_index + 1))

/-- The loop `while (output_feature_map_id_list[start_feature_map_index] == -1)
++start_feature_map_index`, run over the slots from `start_feature_map_index`
on; `none` when it runs past the last slot. -/
def advance_start : List Int → Nat → Option Nat
  | [], _ => none
  | slot :: rest, start_feature_map_index =>
    if slot = -1 then advance_start rest (start_feature_map_index + 1)
    else some start_feature_map_index

/-- One iteration of the placement loop of `randomize_custom_data`;
`generator n` is the `n`-th output of the random generator.  The scan index
is an `int`: `int current_feature_map_index = start_feature_map_index` is
negative for a cursor of 2^31 or more, and then, as after a wrapped `++`, the
loop is not run any further, the index differs from `size()` and
`output_feature_map_id_list[current_feature_map_index] = -1` subscripts out of
range.  An index below `size()` after the loop means that the loop was left by
`break`. -/
def place_connection (d : sparse_convolution_layer) (generator : Nat → Nat)
    (st : connection_state) : Except Exn connection_state :=
  let pool :=
    if st.input_feature_map_id_set.isEmpty then List.range d.input_feature_map_count
    else st.input_feature_map_id_set
  if 2147483648 ≤ st.start_feature_map_index then .error .subscript_out_of_range
  else
    let current_feature_map_index :=
      scan_slots st.out_fm_in_fm_present_list pool
        (st.output_feature_map_id_list.drop st.start_feature_map_index)
        (st.start_feature_map_index : Int)
    if current_feature_map_index = (st.output_feature_map_id_list.length : Int) then
      .error .internal_error_sparse_connections
    else if current_feature_map_index < 0 ∨
        (st.output_feature_map_id_list.length : Int) < current_feature_map_index then
      .error .subscript_out_of_range
    else
      let output_feature_map_id :=
        (st.output_feature_map_id_list.getD current_feature_map_index.toNat 0).toNat
      let in_fm_present_set := st.out_fm_in_fm_present_list.getD output_feature_map_id []
      let v := set_difference pool in_fm_present_set
      let count := v.length
      let input_feature_map_index :=
        if count > 1 then
          uniform_int_distribution 0 (count - 1) (generator st.generator_position)
        else 0
      let input_feature_map_id := v.getD input_feature_map_index 0
      let slots := st.output_feature_map_id_list.set current_feature_map_index.toNat (-1)
      match advance_start (slots.drop st.start_feature_map_index)
          st.start_feature_map_index with
      | none => .error .subscript_out_of_range
      | some start =>
        .ok { out_fm_in_fm_present_list :=
                st.out_fm_in_fm_present_list.set output_feature_map_id
                  (set_insert input_feature_map_id in_fm_present_set)
              output_feature_map_id_list := slots
              input_feature_map_id_set := pool.erase input_feature_map_id.toNat
              start_feature_map_index := start
              generator_position :=
                if count > 1 then st.generator_position + 1 else st.generator_position }

/-- The placement loop of `randomize_custom_data`, `n` iterations. -/
def place_connections (d : sparse_convolution_layer) (generator : Nat → Nat) :
    Nat → connection_state → Except Exn connection_state
  | 0, st => .ok st
  | n + 1, st =>
    match place_connection d generator st with
    | .error e => .error e
    | .ok st1 => place_connections d generator n st1

/-- The call `std::copy(src.begin(), src.end(), dst.begin() + pos)`. -/
def copy_into : List Int → Nat → List Int → List Int
  | dst, _, [] => dst
  | dst, pos, x :: xs => copy_into (dst.set pos x) (pos + 1) xs

/-- The loop that emits the CSR form, run over the sets of the output
feature maps from `output_feature_map_id` on: the vectors and the final
`current_column_offset`. -/
def emit_rows : List (List Int) → Nat → Nat → layer_data_custom → layer_data_custom × Nat
  | [], _, current_column_offset, data_custom => (data_custom, current_column_offset)
  | input_feature_map_set :: rest, output_feature_map_id, current_column_offset, data_custom =>
    emit_rows rest (output_feature_map_id + 1)
      (current_column_offset + input_feature_map_set.length)
      { columns := copy_into data_custom.columns current_column_offset input_feature_map_set
        row_offsets :=
          data_custom.row_offsets.set output_feature_map_id (current_column_offset : Int) }

/-- The number of iterations of a loop `for (int i = 0; i <
static_cast<int>(count); ++i)`. -/
def int_loop_iterations (count : Nat) : Nat := (static_cast_int count).toNat

/-- The state in which the placement loop of `randomize_custom_data`
starts. -/
def initial_connection_state (d : sparse_convolution_layer) (generator_position : Nat) :
    connection_state :=
  { out_fm_in_fm_present_list := List.replicate d.output_feature_map_count []
    output_feature_map_id_list :=
      fill_output_feature_map_id_list d.output_feature_map_count
        (u32_add d.feature_map_connection_count d.output_feature_map_count) 0
    input_feature_map_id_set := []
    start_feature_map_index := 0
    generator_position := generator_position }

/-- The function `sparse_convolution_layer::randomize_custom_data`: the
vectors of `data_custom` after the call and the number of generator outputs
consumed so far, or the exception thrown.  Both `for` loops compare an `int`
counter with `static_cast<int>` of the count. -/
def randomize_custom_data (d : sparse_convolution_layer) (data_custom : layer_data_custom)
    (generator : Nat → Nat) (generator_position : Nat) :
    Except Exn (layer_data_custom × Nat) :=
  match place_connections d generator (int_loop_iterations d.feature_map_connection_count)
      (initial_connection_state d generator_position) with
  | .error e => .error e
  | .ok st =>
    let emitted := emit_rows
      (st.out_fm_in_fm_present_list.take (int_loop_iterations d.output_feature_map_count))
      0 0 data_custom
    .ok ({ columns := emitted.1.columns
           row_offsets :=
             emitted.1.row_offsets.set d.output_feature_map_count (emitted.2 : Int) },
         st.generator_position)

/-- The number of edges recorded in the first `k` sets. -/
def edge_count (present : List (List Int)) (k : Nat) : Nat :=
  ((present.take k).map List.length).sum

/-- What every iteration of the placement loop preserves; `i` iterations
have been completed. -/
structure placement_invariant (d : sparse_convolution_layer) (st : connection_state)
    (i : Nat) : Prop where
  present_length : st.out_fm_in_fm_present_list.length = d.output_feature_map_count
  edges : (st.out_fm_in_fm_present_list.map List.length).sum = i
  ascending : ∀ s ∈ st.out_fm_in_fm_present_list, s.Pairwise (· < ·)
  inputs : ∀ s ∈ st.out_fm_in_fm_present_list, ∀ x ∈ s,
    0 ≤ x ∧ x < (d.input_feature_map_count : Int)
  slots : ∀ x ∈ st.output_feature_map_id_list,
    x = -1 ∨ (0 ≤ x ∧ x < (d.output_feature_map_count : Int))
  pool : ∀ x ∈ st.input_feature_map_id_set, x < d.input_feature_map_count

/-- The row offsets of consecutive sets, the first one starting at
`current_column_offset`. -/
def running_offsets : List (List Int) → Nat → List Int
  | [], _ => []
  | s :: rest, current_column_offset =>
    (current_column_offset : Int) :: running_offsets rest (current_column_offset + s.length)

/-- The slice `columns[row_offsets[k] .. row_offsets[k+1])` of a CSR form. -/
def csr_slice (data_custom : layer_data_custom) (k : Nat) : List Int :=
  (data_custom.columns.drop (data_custom.row_offsets.getD k 0).toNat).take
    ((data_custom.row_offsets.getD (k + 1) 0).toNat - (data_custom.row_offsets.getD k 0).toNat)

/-! ## Input regions -/

/-- The function `sparse_convolution_layer::get_input_rectangle_borders`; the
borders are pairs `(first, second)` of `unsigned int`. -/
def get_input_rectangle_borders (d : sparse_convolution_layer)
    (output_rectangle_borders : List (Nat × Nat)) : Except Exn (List (Nat × Nat)) :=
  if output_rectangle_borders.length ≠ d.window_sizes.length then
    .error .output_borders_dimension_count_mismatch
  else
    .ok ((List.range d.window_sizes.length).map (fun i =>
      (static_cast_unsigned (max 0 (i32_wrap
          (static_cast_int (output_rectangle_borders.getD i (0, 0)).1 -
            static_cast_int (d.left_zero_padding.getD i 0)))),
       u32_sub (u32_sub (u32_add (output_rectangle_borders.getD i (0, 0)).2
          (d.window_sizes.getD i 0)) 1) (d.left_zero_padding.getD i 0))))

/-! ## Data sizes and cost estimates -/

/-- The function `sparse_convolution_layer::get_data_config`: the sizes of the
weight and bias arrays. -/
def get_data_config (d : sparse_convolution_layer) : List Nat :=
  let weight_count := d.window_sizes.foldl u32_mul d.feature_map_connection_count
  [weight_count, d.output_feature_map_count]

/-- The function `sparse_convolution_layer::get_data_custom_config`: the sizes
of the column index and row offset arrays. -/
def get_data_custom_config (d : sparse_convolution_layer) : List Nat :=
  [d.feature_map_connection_count, u32_add d.output_feature_map_count 1]

/-- Modelled from the spec: `get_neuron_count_per_feature_map` of
`layer_configuration_specific` (its body is not part of the sources at hand)
is the product of the dimension sizes, held in an `unsigned int`. -/
def get_neuron_count_per_feature_map (c : layer_configuration_specific) : Nat :=
  c.dimension_sizes.foldl u32_mul 1

/-- The number of halvings that bring `n` below 2^24 (at most `fuel` of
them). -/
def float_exponent : Nat → Nat → Nat
  | 0, _ => 0
  | fuel + 1, n => if n < 16777216 then 0 else float_exponent fuel (n / 2) + 1

/-- The `float` (24 significant bits, round to nearest, ties to even) that a
non-negative integer below 2^64 is converted or rounded to.  The values of
type `float` that occur in the cost estimates are all integers, so they are
held as `Nat`. -/
def float_round (n : Nat) : Nat :=
  let e := float_exponent 64 n
  let q := n / 2 ^ e
  let r := n % 2 ^ e
  if 2 * r < 2 ^ e then q * 2 ^ e
  else if 2 ^ e < 2 * r then (q + 1) * 2 ^ e
  else if q % 2 = 0 then q * 2 ^ e
  else (q + 1) * 2 ^ e

/-- The product of two `float` values that hold integers. -/
def float_mul (a b : Nat) : Nat := float_round (a * b)

/-- The function `sparse_convolution_layer::get_forward_flops`. -/
def get_forward_flops (d : sparse_convolution_layer)
    (input_configuration_specific : layer_configuration_specific) : Except Exn Nat :=
  match get_output_layer_configuration_specific d input_configuration_specific with
  | .error e => .error e
  | .ok c =>
    let neuron_count := get_neuron_count_per_feature_map c
    let per_item_flops :=
      u32_sub (d.window_sizes.foldl u32_mul (u32_mul d.feature_map_connection_count 2)) 1
    .ok (float_mul (float_round neuron_count) (float_round per_item_flops))

/-- The function `sparse_convolution_layer::get_backward_flops`. -/
def get_backward_flops (d : sparse_convolution_layer)
    (input_configuration_specific : layer_configuration_specific) : Except Exn Nat :=
  match get_output_layer_configuration_specific d input_configuration_specific with
  | .error e => .error e
  | .ok c =>
    let neuron_count := get_neuron_count_per_feature_map c
    let per_item_flops :=
      d.window_sizes.foldl u32_mul (u32_mul d.feature_map_connection_count 2)
    .ok (float_mul (float_round neuron_count) (float_round per_item_flops))

/-- The function `sparse_convolution_layer::get_weights_update_flops`. -/
def get_weights_update_flops (d : sparse_convolution_layer)
    (input_configuration_specific : layer_configuration_specific) : Except Exn Nat :=
  match get_output_layer_configuration_specific d input_configuration_specific with
  | .error e => .error e
  | .ok c =>
    let neuron_count := get_neuron_count_per_feature_map c
    let per_item_flops :=
      d.window_sizes.foldl u32_mul (u32_mul d.feature_map_connection_count 2)
    .ok (float_mul (float_round neuron_count) (float_round per_item_flops))

/-- The forward cost as the specification states it:
`output_neuron_count * (feature_map_connection_count * window_volume * 2 - 1)`
over the integers, the neuron count being the product of the output dimension
sizes. -/
def spec_forward_flops (d : sparse_convolution_layer) (c : layer_configuration_specific) :
    Int :=
  (c.dimension_sizes.prod : Int) *
    ((d.feature_map_connection_count : Int) * (d.window_sizes.prod : Int) * 2 - 1)

/-- The backward and weight update cost as the specification states it:
`output_neuron_count * feature_map_connection_count * window_volume * 2`. -/
def spec_backward_flops (d : sparse_convolution_layer) (c : layer_configuration_specific) :
    Nat :=
  c.dimension_sizes.prod * d.feature_map_connection_count * d.window_sizes.prod * 2

/-- The words of the serialized form as the specification lists them. -/
def spec_serialized_words (d : sparse_convolution_layer) : List Nat :=
  [d.input_feature_map_count, d.output_feature_map_count, d.feature_map_connection_count,
    d.window_sizes.length] ++ d.window_sizes ++ d.left_zero_padding ++ d.right_zero_padding

/-! ## Connectivity generation: what the placement loop maintains -/

/-- The content of `input_feature_map_id_set` once the refill at the head of
an iteration has run: all the inputs when the set was empty. -/
def refilled_pool (d : sparse_convolution_layer) (st : connection_state) : List Nat :=
  if st.input_feature_map_id_set.isEmpty then List.range d.input_feature_map_count
  else st.input_feature_map_id_set

/-- The output feature map whose slot the scan of the next iteration leaves
the loop at by `break`, if it does. -/
def scan_output (d : sparse_convolution_layer) (st : connection_state) : Option Nat :=
  if 2147483648 ≤ st.start_feature_map_index then none
  else
    let current_feature_map_index :=
      scan_slots st.out_fm_in_fm_present_list (refilled_pool d st)
        (st.output_feature_map_id_list.drop st.start_feature_map_index)
        (st.start_feature_map_index : Int)
    if 0 ≤ current_feature_map_index ∧
        current_feature_map_index < (st.output_feature_map_id_list.length : Int) then
      some (st.output_feature_map_id_list.getD current_feature_map_index.toNat 0).toNat
    else none

/-- The scan in the words of the specification: from the cursor on, the first
unconsumed slot whose output feature map has a candidate input, a pool input
that is not connected to it yet; the position of that slot in the sequence, a
natural number, if there is such a slot. -/
def spec_scan_slots (present : List (List Int)) (pool : List Nat) :
    List Int → Nat → Option Nat
  | [], _ => none
  | slot :: rest, position =>
    if slot = -1 then spec_scan_slots present pool rest (position + 1)
    else if (set_difference pool (present.getD slot.toNat [])).length = 0 then
      spec_scan_slots present pool rest (position + 1)
    else some position

/-- The number of output feature maps the input `x` is connected to. -/
def input_degree (present : List (List Int)) (x : Nat) : Nat :=
  present.countP (fun s => decide ((x : Int) ∈ s))

/-- The greedy rule of the specification, first condition: the output `o` has
an unconsumed slot left and a pool input that is not yet connected to it. -/
def spec_can_take_edge (present : List (List Int)) (pool : List Nat) (slots : List Int)
    (o : Nat) : Bool :=
  slots.contains (o : Int) && pool.any (fun x => decide ((x : Int) ∉ present.getD o []))

/-- The greedy rule of the specification, the choice: among the outputs of the
list (in ascending order) that can take an edge, one with the fewest edges so
far, the lowest index in case of a tie. -/
def spec_greedy_choice (present : List (List Int)) (can_take_edge : Nat → Bool) :
    List Nat → Option Nat
  | [] => none
  | o :: rest =>
    if can_take_edge o then
      match spec_greedy_choice present can_take_edge rest with
      | none => some o
      | some b =>
        if (present.getD b []).length < (present.getD o []).length then some b else some o
    else spec_greedy_choice present can_take_edge rest

/-- The output feature map the greedy rule of the specification gives the next
edge to, if any can take one. -/
def spec_greedy_output (d : sparse_convolution_layer) (st : connection_state) : Option Nat :=
  spec_greedy_choice st.out_fm_in_fm_present_list
    (spec_can_take_edge st.out_fm_in_fm_present_list (refilled_pool d st)
      st.output_feature_map_id_list)
    (List.range d.output_feature_map_count)

/-- What every iteration of the placement loop preserves about the slots, the
cursor and the pool; `i` iterations have been completed.  Slot `j` belongs to
the output feature map `j % output_feature_map_count`, the consumed slots of
an output are the first ones of it, the cursor has passed consumed slots only,
and the pool holds the inputs that are one connection short in the running
round. -/
structure scan_invariant (d : sparse_convolution_layer) (st : connection_state)
    (i : Nat) : Prop where
  present_length : st.out_fm_in_fm_present_list.length = d.output_feature_map_count
  slots_length : st.output_feature_map_id_list.length =
    u32_add d.feature_map_connection_count d.output_feature_map_count
  slots_eq : ∀ j, j < st.output_feature_map_id_list.length →
    st.output_feature_map_id_list.getD j 0 =
      if j / d.output_feature_map_count <
          (st.out_fm_in_fm_present_list.getD (j % d.output_feature_map_count) []).length
      then -1 else ((j % d.output_feature_map_count : Nat) : Int)
  consumed_before_start : ∀ j, j < st.start_feature_map_index →
    st.output_feature_map_id_list.getD j 0 = -1
  start_le : st.start_feature_map_index ≤ st.output_feature_map_id_list.length
  start_unconsumed : st.start_feature_map_index < st.output_feature_map_id_list.length →
    st.output_feature_map_id_list.getD st.start_feature_map_index 0 ≠ -1
  start_ge : min i d.output_feature_map_count ≤ st.start_feature_map_index
  pool_nodup : (refilled_pool d st).Nodup
  pool_lt : ∀ x ∈ refilled_pool d st, x < d.input_feature_map_count
  round : ∃ r, i + (refilled_pool d st).length = (r + 1) * d.input_feature_map_count ∧
    ∀ x, x < d.input_feature_map_count →
      input_degree st.out_fm_in_fm_present_list x =
        if x ∈ refilled_pool d st then r else r + 1

/-- The generator outputs of a run that ends in the internal error. -/
def stuck_generator (n : Nat) : Nat :=
  ([9, 8, 5, 3, 3, 3, 4, 3, 0, 1, 3, 7, 0, 3, 0, 1, 0, 2, 2, 0, 3, 3, 1, 0, 0, 1, 3, 0, 1, 0] :
    List Nat).getD n 0

/-! ## Weight initialization -/

/-- The value 1.0 of type `float`.  Every finite `float` is a whole multiple of
2^-149; the values of type `float` in `randomize_weights` are held as the
number of these units. -/
def FLOAT_ONE : Nat := 2 ^ 149

/-- Rounding to `float` (24 significant bits, round to nearest, ties to even)
of a non-negative real `t`, given in units by `q2 = floor(2 * t)` and by
`sticky`, which tells whether `2 * t` is not a whole number. -/
def float_round_units (q2 : Nat) (sticky : Bool) : Nat :=
  let e := float_exponent 400 (q2 / 2)
  let m := q2 / 2 ^ (e + 1)
  let r := q2 % 2 ^ (e + 1)
  if r < 2 ^ e then m * 2 ^ e
  else if 2 ^ e < r ∨ sticky = true then (m + 1) * 2 ^ e
  else if m % 2 = 0 then m * 2 ^ e
  else (m + 1) * 2 ^ e

/-- The bits of the integer square root from bit `k - 1` down, added to
`acc`. -/
def isqrt_loop (n : Nat) : Nat → Nat → Nat
  | 0, acc => acc
  | k + 1, acc =>
    if (acc + 2 ^ k) * (acc + 2 ^ k) ≤ n then isqrt_loop n k (acc + 2 ^ k)
    else isqrt_loop n k acc

/-- The integer square root of a number below 2^512. -/
def isqrt (n : Nat) : Nat := isqrt_loop n 256 0

/-- The conversion `static_cast<float>` of an `unsigned int`. -/
def float_of_unsigned (n : Nat) : Nat := float_round n * FLOAT_ONE

/-- The call `sqrtf(x)` for a finite `x >= 0` (correctly rounded). -/
def sqrtf (x : Nat) : Nat :=
  let n := 4 * x * FLOAT_ONE
  float_round_units (isqrt n) (decide (isqrt n * isqrt n ≠ n))

/-- The quotient `a / b` of two finite `float` values, `a > 0` and `b >= 0`;
`none` is positive infinity, the quotient by zero. -/
def float_div (a b : Nat) : Option Nat :=
  if b = 0 then none
  else some (float_round_units (2 * a * FLOAT_ONE / b) (decide (2 * a * FLOAT_ONE % b ≠ 0)))

/-- The product `a * b` of a finite `float` value `a > 0` and a `float` value
`b >= 0` that may be positive infinity. -/
def float_times (a : Nat) (b : Option Nat) : Option Nat :=
  b.map (fun b => float_round_units (2 * a * b / FLOAT_ONE) (decide (2 * a * b % FLOAT_ONE ≠ 0)))

/-- The `max_abs_value` of `randomize_weights` for a block of
`input_neuron_count` weights:
`3.0F * (1.0F / sqrtf(static_cast<float>(input_neuron_count)))`. -/
def max_abs_value (input_neuron_count : Nat) : Option Nat :=
  let standard_deviation := float_div FLOAT_ONE (sqrtf (float_of_unsigned input_neuron_count))
  float_times (3 * FLOAT_ONE) standard_deviation

/-- The test `fabs(val) > max_abs_value` for a finite `val`. -/
def exceeds (val : Int) (max_abs_value : Option Nat) : Bool :=
  match max_abs_value with
  | none => false
  | some m => decide (m < val.natAbs)

/-- The two arrays of `layer_data`: `data[0]` holds the weights and `data[1]`
the biases. -/
structure layer_data where
  weights : List Int
  biases : List Int
  deriving DecidableEq, Repr

/-- The statements `float val = nd(generator); while (fabs(val) >
max_abs_value) val = nd(generator);`.  `samples n` is the `n`-th value the
distribution returns, `position` the number of values drawn so far; the result
is the value kept and the new position, or `none` when `fuel` draws did not
give a value in range. -/
def draw_weight (samples : Nat → Int) (max_abs_value : Option Nat) :
    Nat → Nat → Option (Int × Nat)
  | 0, _ => none
  | fuel + 1, position =>
    if exceeds (samples position) max_abs_value then
      draw_weight samples max_abs_value fuel (position + 1)
    else some (samples position, position + 1)

/-- The inner loop of `randomize_weights`, `n` iterations left: the weights,
`current_weight_index` and the position in the samples after it. -/
def fill_block (samples : Nat → Int) (max_abs_value : Option Nat) (fuel : Nat) :
    Nat → List Int → Nat → Nat → Option (List Int × Nat × Nat)
  | 0, weights, current_weight_index, position =>
    some (weights, current_weight_index, position)
  | n + 1, weights, current_weight_index, position =>
    match draw_weight samples max_abs_value fuel position with
    | none => none
    | some (val, position1) =>
      fill_block samples max_abs_value fuel n (weights.set current_weight_index val)
        (u32_add current_weight_index 1) position1

/-- The `input_neuron_count` of the output feature map `output_feature_map_id`
in `randomize_weights`: the product, in `unsigned int`, of the window sizes and
of `data_custom[1][output_feature_map_id + 1] -
data_custom[1][output_feature_map_id]`. -/
def input_neuron_count (d : sparse_convolution_layer) (row_offsets : List Int)
    (output_feature_map_id : Nat) : Nat :=
  let input_neuron_count_per_feature_map := d.window_sizes.foldl u32_mul 1
  let current_input_feature_map_count :=
    static_cast_unsigned (i32_wrap (row_offsets.getD (output_feature_map_id + 1) 0 -
      row_offsets.getD output_feature_map_id 0))
  u32_mul input_neuron_count_per_feature_map current_input_feature_map_count

/-- The outer loop of `randomize_weights` from `output_feature_map_id` on, `n`
iterations left. -/
def fill_blocks (d : sparse_convolution_layer) (row_offsets : List Int)
    (samples : Nat → Int) (fuel : Nat) :
    Nat → Nat → List Int → Nat → Nat → Option (List Int × Nat × Nat)
  | 0, _, weights, current_weight_index, position =>
    some (weights, current_weight_index, position)
  | n + 1, output_feature_map_id, weights, current_weight_index, position =>
    let current_input_feature_map_count :=
      static_cast_unsigned (i32_wrap (row_offsets.getD (output_feature_map_id + 1) 0 -
        row_offsets.getD output_feature_map_id 0))
    if current_input_feature_map_count > 0 then
      match fill_block samples
          (max_abs_value (input_neuron_count d row_offsets output_feature_map_id)) fuel
          (input_neuron_count d row_offsets output_feature_map_id) weights
          current_weight_index position with
      | none => none
      | some (weights1, current_weight_index1, position1) =>
        fill_blocks d row_offsets samples fuel n (output_feature_map_id + 1) weights1
          current_weight_index1 position1
    else
      fill_blocks d row_offsets samples fuel n (output_feature_map_id + 1) weights
        current_weight_index position

/-- The function `sparse_convolution_layer::randomize_weights`: the data after
the call and the number of samples drawn so far; `none` when some weight was
not found within `fuel` draws (the call completes when some `fuel` gives a
result). -/
def randomize_weights (d : sparse_convolution_layer) (data : layer_data)
    (data_custom : layer_data_custom) (samples : Nat → Int) (position fuel : Nat) :
    Option (layer_data × Nat) :=
  match fill_blocks d data_custom.row_offsets samples fuel d.output_feature_map_count 0
      data.weights 0 position with
  | none => none
  | some (weights, _, position1) =>
    some ({ weights := weights, biases := List.replicate data.biases.length 0 }, position1)

/-- The index of the first weight of the block of output feature map `k`: the
sum of the `input_neuron_count` of the output feature maps from
`output_feature_map_id` up to `output_feature_map_id + k - 1`, after
`current_weight_index`. -/
def block_start (d : sparse_convolution_layer) (row_offsets : List Int) :
    Nat → Nat → Nat
  | _, 0 => 0
  | output_feature_map_id, k + 1 =>
    input_neuron_count d row_offsets output_feature_map_id +
      block_start d row_offsets (output_feature_map_id + 1) k

/-- The bound of the specification for a weight `w` of a block with fan-in
`fan_in`: `|w| <= 3 * (1 / sqrt(fan_in))` over the reals, stated without the
root as `w^2 * fan_in <= 9` (`w` in units of 2^-149). -/
def spec_within_three_sigma (w : Int) (fan_in : Nat) : Prop :=
  w.natAbs ^ 2 * fan_in ≤ 9 * FLOAT_ONE ^ 2

instance (w : Int) (fan_in : Nat) : Decidable (spec_within_three_sigma w fan_in) := by
  unfold spec_within_three_sigma; infer_instance

/-- The number of output feature maps, among the first
`output_feature_map_count`, whose slice of the CSR form holds the input
feature map `x`. -/
def connected_output_count (data_custom : layer_data_custom)
    (output_feature_map_count x : Nat) : Nat :=
  ((List.range output_feature_map_count).filter
    (fun k => decide ((x : Int) ∈ csr_slice data_custom k))).length

/-! ## Weight initialization: the assignments -/

/-- The generator outputs of a run whose scan index passes `INT_MAX`: with
1080000000 inputs, every third draw of the first round picks the highest
input of the pool, every other draw the lowest candidate. -/
def overflow_generator (n : Nat) : Nat :=
  if n % 3 = 0 then 1079999999 - n else 0

/-- A state of the placement loop by its content: `n` iterations have been
completed, the output feature map `k` has `e k` edges and is connected to the
inputs `x` with `φ k x`, and the pool at the head of the next iteration, after
the refill, is `pool`. -/
structure state_content (d : sparse_convolution_layer) (st : connection_state) (n : Nat)
    (e : Nat → Nat) (φ : Nat → Nat → Prop) (pool : List Nat) : Prop where
  invariant : scan_invariant d st n
  edges : ∀ k, k < d.output_feature_map_count →
    (st.out_fm_in_fm_present_list.getD k []).length = e k
  connected : ∀ k, k < d.output_feature_map_count → ∀ x : Nat,
    ((x : Int) ∈ st.out_fm_in_fm_present_list.getD k [] ↔ φ k x)
  pool_eq : refilled_pool d st = pool

/-- The numbers of edges of three output feature maps. -/
def overflow_edges (e0 e1 e2 : Nat) : Nat → Nat
  | 0 => e0
  | 1 => e1
  | _ => e2

/-- The inputs that the three output feature maps are connected to in the run
of `overflow_generator` for 1080000000 inputs.  Output 0: the inputs from `h0`
on and the multiples of 3 below `z0`.  Output 1: the even inputs below `ev`
and the inputs below `b1` and `b5` of residue 1 and 5 modulo 6.  Output 2: the
odd inputs below `od` and the inputs below `b2` and `b4` of residue 2 and 4
modulo 6. -/
def overflow_inputs (h0 z0 ev b1 b5 od b2 b4 : Nat) : Nat → Nat → Prop
  | 0, y => (h0 ≤ y ∧ y < 1080000000) ∨ (y % 3 = 0 ∧ y < z0)
  | 1, y => (y % 2 = 0 ∧ y < ev) ∨ (y % 6 = 1 ∧ y < b1) ∨ (y % 6 = 5 ∧ y < b5)
  | _, y => (y % 2 = 1 ∧ y < od) ∨ (y % 6 = 2 ∧ y < b2) ∨ (y % 6 = 4 ∧ y < b4)

/-! # Theorems -/

/-! ## Lemmas: validation -/

theorem padding_too_large_eq_false (ps ws : List Nat) (hl : ps.length = ws.length) :
    padding_too_large ps ws = false ↔ ∀ i, i < ws.length → ps.getD i 0 < ws.getD i 0 := by
  induction ps generalizing ws with
  | nil =>
    cases ws with
    | nil => simp [padding_too_large]
    | cons w ws => simp at hl
  | cons p ps ih =>
    cases ws with
    | nil => simp at hl
    | cons w ws =>
      simp only [List.length_cons, Nat.add_right_cancel_iff] at hl
      simp only [padding_too_large, Bool.or_eq_false_iff, decide_eq_false_iff_not, ih ws hl,
        List.length_cons]
      constructor
      · rintro ⟨h1, h2⟩ i hi
        cases i with
        | zero => simpa using h1
        | succ j => simpa using h2 j (by omega)
      · intro h
        refine ⟨by simpa using h 0 (by omega), fun j hj => ?_⟩
        simpa using h (j + 1) (by omega)

theorem padding_too_large_replicate_zero (ws : List Nat) (hw : ∀ w ∈ ws, w ≠ 0) :
    padding_too_large (List.replicate ws.length 0) ws = false := by
  induction ws with
  | nil => simp [padding_too_large]
  | cons w ws ih =>
    have h1 : w ≠ 0 := hw w (by simp)
    have h2 := ih (fun x hx => hw x (by simp [hx]))
    simp [List.replicate_succ, padding_too_large, h2]
    omega

theorem check_consistency_ok (d0 d : sparse_convolution_layer)
    (h : check_consistency d0 = .ok d) :
    consistent d ∧
    d.window_sizes = d0.window_sizes ∧
    d.input_feature_map_count = d0.input_feature_map_count ∧
    d.output_feature_map_count = d0.output_feature_map_count ∧
    d.feature_map_connection_count = d0.feature_map_connection_count ∧
    d.left_zero_padding =
      (if d0.left_zero_padding = [] then List.replicate d0.window_sizes.length 0
       else d0.left_zero_padding) ∧
    d.right_zero_padding =
      (if d0.right_zero_padding = [] then List.replicate d0.window_sizes.length 0
       else d0.right_zero_padding) := by
  unfold check_consistency at h
  by_cases h1 : d0.window_sizes.length = 0
  · rw [if_pos h1] at h; exact Except.noConfusion h
  rw [if_neg h1] at h
  by_cases h2 : d0.window_sizes.any (fun w => decide (w = 0)) = true
  · rw [if_pos h2] at h; exact Except.noConfusion h
  rw [if_neg h2] at h
  by_cases h3 : d0.feature_map_connection_count < d0.input_feature_map_count
  · rw [if_pos h3] at h; exact Except.noConfusion h
  rw [if_neg h3] at h
  by_cases h4 : d0.feature_map_connection_count < d0.output_feature_map_count
  · rw [if_pos h4] at h; exact Except.noConfusion h
  rw [if_neg h4] at h
  by_cases h5 : d0.feature_map_connection_count >
      u32_mul d0.input_feature_map_count d0.output_feature_map_count
  · rw [if_pos h5] at h; exact Except.noConfusion h
  rw [if_neg h5] at h
  by_cases h6 : d0.left_zero_padding.length ≠ 0 ∧
      d0.left_zero_padding.length ≠ d0.window_sizes.length
  · rw [if_pos h6] at h; exact Except.noConfusion h
  rw [if_neg h6] at h
  by_cases h7 : d0.right_zero_padding.length ≠ 0 ∧
      d0.right_zero_padding.length ≠ d0.window_sizes.length
  · rw [if_pos h7] at h; exact Except.noConfusion h
  rw [if_neg h7] at h
  by_cases h8 : ¬ d0.left_zero_padding.isEmpty ∧
      padding_too_large d0.left_zero_padding d0.window_sizes
  · rw [if_pos h8] at h; exact Except.noConfusion h
  rw [if_neg h8] at h
  by_cases h9 : ¬ d0.right_zero_padding.isEmpty ∧
      padding_too_large d0.right_zero_padding d0.window_sizes
  · simp only [if_pos h9] at h; exact Except.noConfusion h
  simp only [if_neg h9, Except.ok.injEq] at h
  subst h
  simp only [List.isEmpty_iff, List.any_eq_true, decide_eq_true_eq, not_exists, not_and,
    not_lt, gt_iff_lt, ne_eq, not_not, Bool.not_eq_true, Classical.not_imp,
    List.length_eq_zero] at h1 h2 h3 h4 h5 h6 h7 h8 h9
  simp only [List.isEmpty_iff]
  have hw : ∀ w ∈ d0.window_sizes, w ≠ 0 := fun w hw h0 => h2 w hw h0
  have hne : d0.window_sizes ≠ [] := h1
  refine ⟨⟨hne, hw, h3, h4, h5, ?_, ?_, ?_, ?_⟩, ?_⟩
  rotate_right
  · simp
  · by_cases hl : d0.left_zero_padding = []
    · simp [hl]
    · simp only [hl, if_false]
      exact h6 (by simpa using hl)
  · by_cases hr : d0.right_zero_padding = []
    · simp [hr]
    · simp only [hr, if_false]
      exact h7 (by simpa using hr)
  · by_cases hl : d0.left_zero_padding = []
    · simp only [hl, if_true]
      exact (padding_too_large_eq_false _ _ (by simp)).1
        (padding_too_large_replicate_zero _ hw)
    · simp only [hl, if_false]
      exact (padding_too_large_eq_false _ _ (h6 (by simpa using hl))).1 (h8 hl)
  · by_cases hr : d0.right_zero_padding = []
    · simp only [hr, if_true]
      exact (padding_too_large_eq_false _ _ (by simp)).1
        (padding_too_large_replicate_zero _ hw)
    · simp only [hr, if_false]
      exact (padding_too_large_eq_false _ _ (h7 (by simpa using hr))).1 (h9 hr)

theorem check_consistency_validated (d0 d : sparse_convolution_layer)
    (h : check_consistency d0 = .ok d) : validated d := by
  obtain ⟨hc, -⟩ := check_consistency_ok d0 d h
  have hl : d.left_zero_padding ≠ [] := fun h0 =>
    hc.window_ne (List.length_eq_zero.1 (by rw [← hc.left_len, h0]; rfl))
  have hr : d.right_zero_padding ≠ [] := fun h0 =>
    hc.window_ne (List.length_eq_zero.1 (by rw [← hc.right_len, h0]; rfl))
  have hpl := (padding_too_large_eq_false _ _ hc.left_len).2 hc.left_lt
  have hpr := (padding_too_large_eq_false _ _ hc.right_len).2 hc.right_lt
  have hne := hc.window_ne
  have hany : ¬ (d.window_sizes.any (fun w => decide (w = 0)) = true) := by
    simp only [List.any_eq_true, decide_eq_true_eq, not_exists, not_and]
    exact hc.window_pos
  unfold validated check_consistency
  rw [if_neg (by simpa using hne), if_neg hany, if_neg (by have := hc.conn_ge_in; omega),
    if_neg (by have := hc.conn_ge_out; omega),
    if_neg (by have := hc.conn_le_dense; omega),
    if_neg (by simp [hc.left_len]), if_neg (by simp [hc.right_len]),
    if_neg (by simp [hpl])]
  simp [hpr, hl, hr]

theorem validated_consistent (d : sparse_convolution_layer) (h : validated d) :
    consistent d :=
  (check_consistency_ok d d h).1

/-! ## Lemmas: geometry -/

theorem u32_add_add (a b c : Nat) : u32_add (u32_add a b) c = (a + b + c) % U32_MOD := by
  unfold u32_add U32_MOD
  omega

theorem u32_sub_succ (t w : Nat) (ht : t < U32_MOD) (hw : w ≠ 0) (hwt : w ≤ t) :
    u32_sub (u32_add t 1) w = t - w + 1 := by
  unfold u32_sub u32_add U32_MOD at *
  omega

theorem output_dimension_sizes_ok (d : sparse_convolution_layer) (sizes : List Nat)
    (n i : Nat) (dims : List Nat)
    (h : output_dimension_sizes d sizes i n = .ok dims) :
    dims.length = n ∧ ∀ j, j < n →
      d.window_sizes.getD (i + j) 0 ≤ total_input_dimension_size d sizes (i + j) ∧
      dims.getD j 0 = u32_sub (u32_add (total_input_dimension_size d sizes (i + j)) 1)
        (d.window_sizes.getD (i + j) 0) := by
  induction n generalizing i dims with
  | zero =>
    simp only [output_dimension_sizes, Except.ok.injEq] at h
    subst h
    simp
  | succ n ih =>
    simp only [output_dimension_sizes, u32_add_add] at h
    split_ifs at h with h1
    cases hrec : output_dimension_sizes d sizes (i + 1) n with
    | error e => rw [hrec] at h; exact Except.noConfusion h
    | ok rest =>
      rw [hrec] at h
      simp only [Except.ok.injEq] at h
      subst h
      obtain ⟨hlen, hrest⟩ := ih (i + 1) rest hrec
      refine ⟨by simp [hlen], fun j hj => ?_⟩
      cases j with
      | zero =>
        simp only [Nat.add_zero, List.getD_cons_zero, total_input_dimension_size]
        exact ⟨by omega, trivial⟩
      | succ k =>
        have := hrest k (by omega)
        simpa [Nat.add_assoc, Nat.add_comm 1 k] using this

theorem output_dimension_sizes_error (d : sparse_convolution_layer) (sizes : List Nat)
    (n i : Nat) (e : Exn)
    (h : output_dimension_sizes d sizes i n = .error e) :
    e = .too_small_total_dimension ∧ ∃ j, j < n ∧
      total_input_dimension_size d sizes (i + j) < d.window_sizes.getD (i + j) 0 := by
  induction n generalizing i with
  | zero => simp [output_dimension_sizes] at h
  | succ n ih =>
    simp only [output_dimension_sizes, u32_add_add] at h
    split_ifs at h with h1
    · simp only [Except.error.injEq] at h
      exact ⟨h.symm, 0, by omega, by simpa [total_input_dimension_size] using h1⟩
    · cases hrec : output_dimension_sizes d sizes (i + 1) n with
      | ok rest => rw [hrec] at h; exact Except.noConfusion h
      | error e2 =>
        rw [hrec] at h
        simp only [Except.error.injEq] at h
        subst h
        obtain ⟨he, j, hj, hlt⟩ := ih (i + 1) hrec
        exact ⟨he, j + 1, by omega, by simpa [Nat.add_assoc, Nat.add_comm 1 j] using hlt⟩

theorem get_output_layer_configuration_specific_error_iff (d : sparse_convolution_layer)
    (inp : layer_configuration_specific) :
    (∃ e, get_output_layer_configuration_specific d inp = .error e) ↔
      (inp.feature_map_count ≠ d.input_feature_map_count ∨
       inp.dimension_sizes.length ≠ d.window_sizes.length ∨
       ∃ i, i < d.window_sizes.length ∧
        total_input_dimension_size d inp.dimension_sizes i < d.window_sizes.getD i 0) := by
  unfold get_output_layer_configuration_specific
  by_cases h1 : inp.feature_map_count ≠ d.input_feature_map_count
  · simp [h1]
  rw [if_neg h1]
  by_cases h2 : inp.dimension_sizes.length ≠ d.window_sizes.length
  · simp [h2]
  rw [if_neg h2]
  cases hrec : output_dimension_sizes d inp.dimension_sizes 0 d.window_sizes.length with
  | error e =>
    obtain ⟨-, j, hj, hlt⟩ := output_dimension_sizes_error _ _ _ _ _ hrec
    simp only [Nat.zero_add] at hlt
    simp only [Except.error.injEq, exists_eq', true_iff]
    exact Or.inr (Or.inr ⟨j, hj, hlt⟩)
  | ok dims =>
    obtain ⟨-, hall⟩ := output_dimension_sizes_ok _ _ _ _ _ hrec
    constructor
    · rintro ⟨e, he⟩
      exact Except.noConfusion he
    · rintro (h | h | ⟨i, hi, hlt⟩)
      · exact absurd h h1
      · exact absurd h h2
      · have := (hall i hi).1
        simp only [Nat.zero_add] at this
        omega

/-! ## Theorems: geometry (C1, C2) -/

/-- C1, as stated, fails: for the validated descriptor with window 3 and
paddings 2 and 2, the input size 4294967295 is accepted and yields the output
size 1, whereas `input + left + right - window + 1` is 4294967297. -/
theorem output_size_wraps_at_large_input :
    validated ⟨[3], 1, 1, 1, [2], [2]⟩ ∧
    get_output_layer_configuration_specific ⟨[3], 1, 1, 1, [2], [2]⟩ ⟨1, [4294967295]⟩ =
      .ok ⟨1, [1]⟩ ∧
    (1 : Nat) ≠ 4294967295 + 2 + 2 - 3 + 1 := by
  decide

/-- C1, amended: for every validated descriptor and every input shape for
which `get_output_layer_configuration_specific` succeeds, the result has
`feature_map_count = output_feature_map_count` and exactly D dimension sizes,
with `output_size[i] = t - window_sizes[i] + 1 >= 1`, where `t` is the padded
size `input_size[i] + left_zero_padding[i] + right_zero_padding[i]` reduced
modulo 2^32 and `window_sizes[i] <= t`; whenever the padded size is below 2^32
this is `input_size[i] + left_zero_padding[i] + right_zero_padding[i] -
window_sizes[i] + 1`.  The 5x5x4 scenario gives 3x3x2. -/
theorem output_shape_of_success (d : sparse_convolution_layer)
    (inp res : layer_configuration_specific)
    (hd : validated d)
    (h : get_output_layer_configuration_specific d inp = .ok res) :
    res.feature_map_count = d.output_feature_map_count ∧
    res.dimension_sizes.length = d.window_sizes.length ∧
    (∀ i, i < d.window_sizes.length →
      d.window_sizes.getD i 0 ≤
        (inp.dimension_sizes.getD i 0 + d.left_zero_padding.getD i 0 +
          d.right_zero_padding.getD i 0) % U32_MOD ∧
      res.dimension_sizes.getD i 0 =
        (inp.dimension_sizes.getD i 0 + d.left_zero_padding.getD i 0 +
          d.right_zero_padding.getD i 0) % U32_MOD - d.window_sizes.getD i 0 + 1 ∧
      1 ≤ res.dimension_sizes.getD i 0 ∧
      (inp.dimension_sizes.getD i 0 + d.left_zero_padding.getD i 0 +
          d.right_zero_padding.getD i 0 < U32_MOD →
        res.dimension_sizes.getD i 0 =
          inp.dimension_sizes.getD i 0 + d.left_zero_padding.getD i 0 +
            d.right_zero_padding.getD i 0 - d.window_sizes.getD i 0 + 1)) ∧
    get_output_layer_configuration_specific ⟨[3, 3], 4, 2, 6, [0, 0], [0, 0]⟩ ⟨4, [5, 5]⟩ =
      .ok ⟨2, [3, 3]⟩ := by
  have hc := validated_consistent d hd
  unfold get_output_layer_configuration_specific at h
  split_ifs at h with h1 h2
  cases hrec : output_dimension_sizes d inp.dimension_sizes 0 d.window_sizes.length with
  | error e => rw [hrec] at h; exact Except.noConfusion h
  | ok dims =>
    rw [hrec] at h
    simp only [Except.ok.injEq] at h
    subst h
    obtain ⟨hlen, hall⟩ := output_dimension_sizes_ok _ _ _ _ _ hrec
    refine ⟨rfl, hlen, fun i hi => ?_, by decide⟩
    obtain ⟨hle, hval⟩ := hall i hi
    simp only [Nat.zero_add] at hle hval
    have hwpos : d.window_sizes.getD i 0 ≠ 0 := by
      rw [List.getD_eq_getElem _ _ hi]
      exact hc.window_pos _ (List.getElem_mem _)
    have hmod : total_input_dimension_size d inp.dimension_sizes i < U32_MOD :=
      Nat.mod_lt _ (by decide)
    rw [u32_sub_succ _ _ hmod hwpos hle] at hval
    unfold total_input_dimension_size at hle hval
    refine ⟨hle, hval, by rw [hval]; exact Nat.le_add_left 1 _, fun hno => ?_⟩
    rw [hval, Nat.mod_eq_of_lt hno]

/-- C1, amended, at the scenario of the specification: the descriptor is
validated, the call succeeds, and the result has the feature map count, the
dimension count and the first dimension size the theorem states. -/
theorem output_shape_of_success_witness :
    validated ⟨[3, 3], 4, 2, 6, [0, 0], [0, 0]⟩ ∧
    get_output_layer_configuration_specific ⟨[3, 3], 4, 2, 6, [0, 0], [0, 0]⟩ ⟨4, [5, 5]⟩ =
      .ok ⟨2, [3, 3]⟩ ∧
    (⟨2, [3, 3]⟩ : layer_configuration_specific).feature_map_count = 2 ∧
    (⟨2, [3, 3]⟩ : layer_configuration_specific).dimension_sizes.length = 2 ∧
    (⟨2, [3, 3]⟩ : layer_configuration_specific).dimension_sizes.getD 0 0 =
      (5 + 0 + 0) % U32_MOD - 3 + 1 :=
  ⟨by decide, by decide,
   (output_shape_of_success ⟨[3, 3], 4, 2, 6, [0, 0], [0, 0]⟩ ⟨4, [5, 5]⟩ ⟨2, [3, 3]⟩
      (by decide) (by decide)).1,
   (output_shape_of_success ⟨[3, 3], 4, 2, 6, [0, 0], [0, 0]⟩ ⟨4, [5, 5]⟩ ⟨2, [3, 3]⟩
      (by decide) (by decide)).2.1,
   ((output_shape_of_success ⟨[3, 3], 4, 2, 6, [0, 0], [0, 0]⟩ ⟨4, [5, 5]⟩ ⟨2, [3, 3]⟩
      (by decide) (by decide)).2.2.1 0 (by decide)).2.1⟩

/-- C2, as stated, fails: for the validated descriptor with window 2 and
left padding 1, the input size 4294967295 has
`input + left + right = 4294967296 >= 2`, the feature map and dimension counts
match, and yet the call fails with the too-small-dimension error. -/
theorem padded_size_wrap_rejects_large_input :
    validated ⟨[2], 1, 1, 1, [1], [0]⟩ ∧
    (⟨1, [4294967295]⟩ : layer_configuration_specific).feature_map_count = 1 ∧
    (⟨1, [4294967295]⟩ : layer_configuration_specific).dimension_sizes.length = 1 ∧
    ¬ (4294967295 + 1 + 0 < 2) ∧
    get_output_layer_configuration_specific ⟨[2], 1, 1, 1, [1], [0]⟩ ⟨1, [4294967295]⟩ =
      .error .too_small_total_dimension := by
  decide

/-- C2, amended: for every validated descriptor and every input shape,
`get_output_layer_configuration_specific` fails if and only if the input
feature map count differs from `input_feature_map_count`, or the dimension
count differs from D, or for some dimension i the padded size
`input_size[i] + left_zero_padding[i] + right_zero_padding[i]`, reduced modulo
2^32, is below `window_sizes[i]`; the first two failures are ConfigMismatch,
the last is GeometryError, in every other case a shape is returned; and when
no padded size reaches 2^32 the reduction can be dropped. -/
theorem output_shape_failure_iff (d : sparse_convolution_layer)
    (inp : layer_configuration_specific) (_hd : validated d) :
    ((∃ e, get_output_layer_configuration_specific d inp = .error e) ↔
      (inp.feature_map_count ≠ d.input_feature_map_count ∨
       inp.dimension_sizes.length ≠ d.window_sizes.length ∨
       ∃ i, i < d.window_sizes.length ∧
        (inp.dimension_sizes.getD i 0 + d.left_zero_padding.getD i 0 +
          d.right_zero_padding.getD i 0) % U32_MOD < d.window_sizes.getD i 0)) ∧
    (inp.feature_map_count ≠ d.input_feature_map_count ∨
       inp.dimension_sizes.length ≠ d.window_sizes.length →
      ∃ e, get_output_layer_configuration_specific d inp = .error e ∧
        error_kind e = .ConfigMismatch) ∧
    (inp.feature_map_count = d.input_feature_map_count →
      inp.dimension_sizes.length = d.window_sizes.length →
      (∃ i, i < d.window_sizes.length ∧
        (inp.dimension_sizes.getD i 0 + d.left_zero_padding.getD i 0 +
          d.right_zero_padding.getD i 0) % U32_MOD < d.window_sizes.getD i 0) →
      ∃ e, get_output_layer_configuration_specific d inp = .error e ∧
        error_kind e = .GeometryError) ∧
    (inp.feature_map_count = d.input_feature_map_count →
      inp.dimension_sizes.length = d.window_sizes.length →
      (∀ i, i < d.window_sizes.length →
        d.window_sizes.getD i 0 ≤
          (inp.dimension_sizes.getD i 0 + d.left_zero_padding.getD i 0 +
            d.right_zero_padding.getD i 0) % U32_MOD) →
      ∃ res, get_output_layer_configuration_specific d inp = .ok res) ∧
    ((∀ i, i < d.window_sizes.length →
        inp.dimension_sizes.getD i 0 + d.left_zero_padding.getD i 0 +
          d.right_zero_padding.getD i 0 < U32_MOD) →
      ((∃ e, get_output_layer_configuration_specific d inp = .error e) ↔
        (inp.feature_map_count ≠ d.input_feature_map_count ∨
         inp.dimension_sizes.length ≠ d.window_sizes.length ∨
         ∃ i, i < d.window_sizes.length ∧
          inp.dimension_sizes.getD i 0 + d.left_zero_padding.getD i 0 +
            d.right_zero_padding.getD i 0 < d.window_sizes.getD i 0))) := by
  have hiff := get_output_layer_configuration_specific_error_iff d inp
  unfold total_input_dimension_size at hiff
  refine ⟨hiff, ?_, ?_, ?_, ?_⟩
  · intro hmis
    unfold get_output_layer_configuration_specific
    by_cases h1 : inp.feature_map_count ≠ d.input_feature_map_count
    · exact ⟨.feature_map_count_mismatch, by rw [if_pos h1], rfl⟩
    · have h2 : inp.dimension_sizes.length ≠ d.window_sizes.length := by tauto
      exact ⟨.dimension_count_mismatch, by rw [if_neg h1, if_pos h2], rfl⟩
  · intro h1 h2 hex
    obtain ⟨e, he⟩ := hiff.2 (Or.inr (Or.inr hex))
    refine ⟨e, he, ?_⟩
    unfold get_output_layer_configuration_specific at he
    rw [if_neg (by simpa using h1), if_neg (by simpa using h2)] at he
    cases hrec : output_dimension_sizes d inp.dimension_sizes 0 d.window_sizes.length with
    | ok dims => rw [hrec] at he; exact Except.noConfusion he
    | error e2 =>
      rw [hrec] at he
      simp only [Except.error.injEq] at he
      subst he
      rw [(output_dimension_sizes_error _ _ _ _ _ hrec).1]
      rfl
  · intro h1 h2 hall
    cases hres : get_output_layer_configuration_specific d inp with
    | ok res => exact ⟨res, rfl⟩
    | error e =>
      rcases hiff.1 ⟨e, hres⟩ with h | h | ⟨i, hi, hlt⟩
      · exact absurd h1 h
      · exact absurd h2 h
      · exact absurd (hall i hi) (by omega)
  · intro hno
    rw [hiff]
    constructor
    · rintro (h | h | ⟨i, hi, hlt⟩)
      · exact Or.inl h
      · exact Or.inr (Or.inl h)
      · refine Or.inr (Or.inr ⟨i, hi, ?_⟩)
        rwa [Nat.mod_eq_of_lt (hno i hi)] at hlt
    · rintro (h | h | ⟨i, hi, hlt⟩)
      · exact Or.inl h
      · exact Or.inr (Or.inl h)
      · refine Or.inr (Or.inr ⟨i, hi, ?_⟩)
        rwa [Nat.mod_eq_of_lt (hno i hi)]

/-- C2, amended, at the scenario of the specification with an input of size
5x2: the descriptor is validated, the counts match, the second padded size 2
is below the window size 3, and the call fails with a GeometryError. -/
theorem output_shape_failure_iff_witness :
    validated ⟨[3, 3], 4, 2, 6, [0, 0], [0, 0]⟩ ∧
    (∃ i, i < 2 ∧ (([5, 2] : List Nat).getD i 0 + ([0, 0] : List Nat).getD i 0 +
      ([0, 0] : List Nat).getD i 0) % U32_MOD < ([3, 3] : List Nat).getD i 0) ∧
    ∃ e, get_output_layer_configuration_specific ⟨[3, 3], 4, 2, 6, [0, 0], [0, 0]⟩
        ⟨4, [5, 2]⟩ = .error e ∧ error_kind e = .GeometryError :=
  ⟨by decide, ⟨1, by decide, by decide⟩,
   (output_shape_failure_iff ⟨[3, 3], 4, 2, 6, [0, 0], [0, 0]⟩ ⟨4, [5, 2]⟩
      (by decide)).2.2.1 rfl rfl ⟨1, by decide, by decide⟩⟩

/-! ## Theorems: construction (C3, C4) -/

theorem padding_too_large_eq_true (ps ws : List Nat) (hl : ps.length = ws.length) :
    padding_too_large ps ws = true ↔ ∃ i, i < ws.length ∧ ps.getD i 0 ≥ ws.getD i 0 := by
  rw [← Bool.not_eq_false, padding_too_large_eq_false ps ws hl]
  simp only [not_forall, not_lt, exists_prop, ge_iff_le]

theorem check_consistency_error_iff (d : sparse_convolution_layer)
    (hl : d.left_zero_padding.length = d.window_sizes.length)
    (hr : d.right_zero_padding.length = d.window_sizes.length) :
    (∃ e, check_consistency d = .error e ∧ error_kind e = .ValidationError) ↔
      (d.window_sizes = [] ∨ (∃ w ∈ d.window_sizes, w = 0) ∨
       d.feature_map_connection_count <
         max d.input_feature_map_count d.output_feature_map_count ∨
       d.feature_map_connection_count >
         (d.input_feature_map_count * d.output_feature_map_count) % U32_MOD ∨
       (∃ i, i < d.window_sizes.length ∧
         d.left_zero_padding.getD i 0 ≥ d.window_sizes.getD i 0) ∨
       (∃ i, i < d.window_sizes.length ∧
         d.right_zero_padding.getD i 0 ≥ d.window_sizes.getD i 0)) := by
  unfold check_consistency
  by_cases h1 : d.window_sizes.length = 0
  · rw [if_pos h1]
    exact ⟨fun _ => Or.inl (List.length_eq_zero.1 h1), fun _ => ⟨_, rfl, rfl⟩⟩
  rw [if_neg h1]
  have hne : d.window_sizes ≠ [] := fun h0 => h1 (by rw [h0]; rfl)
  by_cases h2 : d.window_sizes.any (fun w => decide (w = 0)) = true
  · rw [if_pos h2]
    refine ⟨fun _ => Or.inr (Or.inl ?_), fun _ => ⟨_, rfl, rfl⟩⟩
    simpa using h2
  rw [if_neg h2]
  have hnz : ¬ ∃ w ∈ d.window_sizes, w = 0 := by simpa using h2
  by_cases h3 : d.feature_map_connection_count < d.input_feature_map_count
  · rw [if_pos h3]
    exact ⟨fun _ => Or.inr (Or.inr (Or.inl (lt_max_of_lt_left h3))), fun _ => ⟨_, rfl, rfl⟩⟩
  rw [if_neg h3]
  by_cases h4 : d.feature_map_connection_count < d.output_feature_map_count
  · rw [if_pos h4]
    exact ⟨fun _ => Or.inr (Or.inr (Or.inl (lt_max_of_lt_right h4))), fun _ => ⟨_, rfl, rfl⟩⟩
  rw [if_neg h4]
  have hmax : ¬ d.feature_map_connection_count <
      max d.input_feature_map_count d.output_feature_map_count := by
    simp only [lt_max_iff, not_or]
    exact ⟨h3, h4⟩
  by_cases h5 : d.feature_map_connection_count >
      u32_mul d.input_feature_map_count d.output_feature_map_count
  · rw [if_pos h5]
    exact ⟨fun _ => Or.inr (Or.inr (Or.inr (Or.inl h5))), fun _ => ⟨_, rfl, rfl⟩⟩
  rw [if_neg h5]
  rw [if_neg (by simp [hl]), if_neg (by simp [hr])]
  have hle : d.left_zero_padding ≠ [] := fun h0 => h1 (by rw [← hl, h0]; rfl)
  have hre : d.right_zero_padding ≠ [] := fun h0 => h1 (by rw [← hr, h0]; rfl)
  by_cases h8 : padding_too_large d.left_zero_padding d.window_sizes = true
  · rw [if_pos ⟨by simpa using hle, h8⟩]
    exact ⟨fun _ => Or.inr (Or.inr (Or.inr (Or.inr (Or.inl
      ((padding_too_large_eq_true _ _ hl).1 h8))))), fun _ => ⟨_, rfl, rfl⟩⟩
  rw [if_neg (fun h => h8 h.2)]
  by_cases h9 : padding_too_large d.right_zero_padding d.window_sizes = true
  · simp only [if_pos (show ¬ d.right_zero_padding.isEmpty = true ∧ _ from
      ⟨by simpa using hre, h9⟩)]
    exact ⟨fun _ => Or.inr (Or.inr (Or.inr (Or.inr (Or.inr
      ((padding_too_large_eq_true _ _ hr).1 h9))))), fun _ => ⟨_, rfl, rfl⟩⟩
  simp only [if_neg (fun h : ¬ d.right_zero_padding.isEmpty = true ∧ _ => h9 h.2)]
  constructor
  · rintro ⟨e, he, -⟩
    exact Except.noConfusion he
  · rintro (h | h | h | h | h | h)
    · exact absurd h hne
    · exact absurd h hnz
    · exact absurd h hmax
    · exact absurd h h5
    · exact absurd ((padding_too_large_eq_true _ _ hl).2 h) h8
    · exact absurd ((padding_too_large_eq_true _ _ hr).2 h) h9

/-- C3, as stated, fails: with 65536 input and 65536 output feature maps the
connection count 65536 lies in `[max(in, out), in * out]`, the window size is
non-zero and the paddings are below it, and yet construction fails with the
larger-than-dense validation error. -/
theorem dense_bound_wraps_at_65536 :
    construct [1] 65536 65536 65536 [0] [0] = .error .connection_count_larger_than_dense ∧
    error_kind .connection_count_larger_than_dense = .ValidationError ∧
    ¬ (([1] : List Nat) = [] ∨ (∃ w ∈ ([1] : List Nat), w = 0) ∨
       65536 < max 65536 65536 ∨ 65536 > 65536 * 65536 ∨
       (∃ i, i < ([1] : List Nat).length ∧
         ([0] : List Nat).getD i 0 ≥ ([1] : List Nat).getD i 0) ∨
       (∃ i, i < ([1] : List Nat).length ∧
         ([0] : List Nat).getD i 0 ≥ ([1] : List Nat).getD i 0)) := by
  decide

/-- C3, amended: for every choice of parameters whose two padding lists each
have length D = |window_sizes|, construction fails with a validation error if
and only if `window_sizes` is empty, or some `window_sizes[i]` is 0, or
`feature_map_connection_count < max(input_feature_map_count,
output_feature_map_count)`, or `feature_map_connection_count` exceeds the
product `input_feature_map_count * output_feature_map_count` reduced modulo
2^32 (the exact product whenever it is below 2^32), or some
`left_zero_padding[i] >= window_sizes[i]`, or some
`right_zero_padding[i] >= window_sizes[i]`; in particular
`left_zero_padding[i] == window_sizes[i]` is rejected. -/
theorem construct_fails_iff (window_sizes : List Nat)
    (input_feature_map_count output_feature_map_count feature_map_connection_count : Nat)
    (left_zero_padding right_zero_padding : List Nat)
    (hl : left_zero_padding.length = window_sizes.length)
    (hr : right_zero_padding.length = window_sizes.length) :
    ((∃ e, construct window_sizes input_feature_map_count output_feature_map_count
          feature_map_connection_count left_zero_padding right_zero_padding = .error e ∧
        error_kind e = .ValidationError) ↔
      (window_sizes = [] ∨ (∃ w ∈ window_sizes, w = 0) ∨
       feature_map_connection_count <
         max input_feature_map_count output_feature_map_count ∨
       feature_map_connection_count >
         (input_feature_map_count * output_feature_map_count) % U32_MOD ∨
       (∃ i, i < window_sizes.length ∧
         left_zero_padding.getD i 0 ≥ window_sizes.getD i 0) ∨
       (∃ i, i < window_sizes.length ∧
         right_zero_padding.getD i 0 ≥ window_sizes.getD i 0))) ∧
    (input_feature_map_count * output_feature_map_count < U32_MOD →
      ((∃ e, construct window_sizes input_feature_map_count output_feature_map_count
            feature_map_connection_count left_zero_padding right_zero_padding = .error e ∧
          error_kind e = .ValidationError) ↔
        (window_sizes = [] ∨ (∃ w ∈ window_sizes, w = 0) ∨
         feature_map_connection_count <
           max input_feature_map_count output_feature_map_count ∨
         feature_map_connection_count >
           input_feature_map_count * output_feature_map_count ∨
         (∃ i, i < window_sizes.length ∧
           left_zero_padding.getD i 0 ≥ window_sizes.getD i 0) ∨
         (∃ i, i < window_sizes.length ∧
           right_zero_padding.getD i 0 ≥ window_sizes.getD i 0)))) ∧
    ((∃ i, i < window_sizes.length ∧
        left_zero_padding.getD i 0 = window_sizes.getD i 0) →
      ∃ e, construct window_sizes input_feature_map_count output_feature_map_count
          feature_map_connection_count left_zero_padding right_zero_padding = .error e ∧
        error_kind e = .ValidationError) := by
  have hiff := check_consistency_error_iff
    { window_sizes := window_sizes
      input_feature_map_count := input_feature_map_count
      output_feature_map_count := output_feature_map_count
      feature_map_connection_count := feature_map_connection_count
      left_zero_padding := left_zero_padding
      right_zero_padding := right_zero_padding } hl hr
  refine ⟨hiff, fun hno => ?_, ?_⟩
  · have hiff2 := hiff
    simp only [Nat.mod_eq_of_lt hno] at hiff2
    exact hiff2
  · rintro ⟨i, hi, heq⟩
    exact hiff.2 (Or.inr (Or.inr (Or.inr (Or.inr (Or.inl ⟨i, hi, by simp only [heq]; exact le_refl _⟩)))))

/-- C3, amended, at parameters whose left padding equals the window size:
both padding lists have length D and construction fails with a validation
error. -/
theorem construct_fails_iff_witness :
    ([3] : List Nat).length = ([3] : List Nat).length ∧
    ([0] : List Nat).length = ([3] : List Nat).length ∧
    (∃ i, i < ([3] : List Nat).length ∧
      ([3] : List Nat).getD i 0 = ([3] : List Nat).getD i 0) ∧
    ∃ e, construct [3] 1 1 1 [3] [0] = .error e ∧ error_kind e = .ValidationError :=
  ⟨rfl, rfl, ⟨0, by decide, rfl⟩,
   (construct_fails_iff [3] 1 1 1 [3] [0] rfl rfl).2.2 ⟨0, by decide, by decide⟩⟩

/-- C4: every descriptor whose construction succeeds keeps the counts and the
window sizes it was given and satisfies the descriptor invariant:
`window_sizes` is non-empty and every element is at least 1; both padding lists
have length D (a list passed empty has become D zeros, a non-empty one is
kept), every padding element is below `window_sizes[i]`; and
`max(input_feature_map_count, output_feature_map_count) <=
feature_map_connection_count <= input_feature_map_count *
output_feature_map_count` over the natural numbers. -/
theorem construct_establishes_invariant (window_sizes : List Nat)
    (input_feature_map_count output_feature_map_count feature_map_connection_count : Nat)
    (left_zero_padding right_zero_padding : List Nat) (d : sparse_convolution_layer)
    (h : construct window_sizes input_feature_map_count output_feature_map_count
      feature_map_connection_count left_zero_padding right_zero_padding = .ok d) :
    d.window_sizes = window_sizes ∧
    d.input_feature_map_count = input_feature_map_count ∧
    d.output_feature_map_count = output_feature_map_count ∧
    d.feature_map_connection_count = feature_map_connection_count ∧
    d.window_sizes ≠ [] ∧
    (∀ w ∈ d.window_sizes, 1 ≤ w) ∧
    d.left_zero_padding.length = d.window_sizes.length ∧
    d.right_zero_padding.length = d.window_sizes.length ∧
    (left_zero_padding = [] →
      d.left_zero_padding = List.replicate d.window_sizes.length 0) ∧
    (right_zero_padding = [] →
      d.right_zero_padding = List.replicate d.window_sizes.length 0) ∧
    (left_zero_padding ≠ [] → d.left_zero_padding = left_zero_padding) ∧
    (right_zero_padding ≠ [] → d.right_zero_padding = right_zero_padding) ∧
    (∀ i, i < d.window_sizes.length →
      d.left_zero_padding.getD i 0 < d.window_sizes.getD i 0) ∧
    (∀ i, i < d.window_sizes.length →
      d.right_zero_padding.getD i 0 < d.window_sizes.getD i 0) ∧
    max d.input_feature_map_count d.output_feature_map_count ≤
      d.feature_map_connection_count ∧
    d.feature_map_connection_count ≤
      d.input_feature_map_count * d.output_feature_map_count := by
  obtain ⟨hc, hw, hi, ho, hcn, hleft, hright⟩ := check_consistency_ok _ d h
  simp only at hw hi ho hcn hleft hright
  refine ⟨hw, hi, ho, hcn, hc.window_ne, fun w hmem => Nat.pos_of_ne_zero (hc.window_pos w hmem),
    hc.left_len, hc.right_len, fun h0 => ?_, fun h0 => ?_, fun h0 => ?_, fun h0 => ?_,
    hc.left_lt, hc.right_lt, max_le hc.conn_ge_in hc.conn_ge_out,
    le_trans hc.conn_le_dense (Nat.mod_le _ _)⟩
  · rw [hleft, if_pos h0, hw]
  · rw [hright, if_pos h0, hw]
  · rw [hleft, if_neg h0]
  · rw [hright, if_neg h0]

/-- C4 at the scenario of the specification, constructed without padding:
construction succeeds and the descriptor has paddings of length D, all zero,
and a connection count within the bounds. -/
theorem construct_establishes_invariant_witness :
    construct [3, 3] 4 2 6 [] [] = .ok ⟨[3, 3], 4, 2, 6, [0, 0], [0, 0]⟩ ∧
    (⟨[3, 3], 4, 2, 6, [0, 0], [0, 0]⟩ : sparse_convolution_layer).left_zero_padding.length =
      (⟨[3, 3], 4, 2, 6, [0, 0], [0, 0]⟩ : sparse_convolution_layer).window_sizes.length ∧
    (⟨[3, 3], 4, 2, 6, [0, 0], [0, 0]⟩ : sparse_convolution_layer).feature_map_connection_count ≤
      (⟨[3, 3], 4, 2, 6, [0, 0], [0, 0]⟩ : sparse_convolution_layer).input_feature_map_count *
      (⟨[3, 3], 4, 2, 6, [0, 0], [0, 0]⟩ : sparse_convolution_layer).output_feature_map_count :=
  ⟨by decide,
   (construct_establishes_invariant [3, 3] 4 2 6 [] [] ⟨[3, 3], 4, 2, 6, [0, 0], [0, 0]⟩
      (by decide)).2.2.2.2.2.2.1,
   (construct_establishes_invariant [3, 3] 4 2 6 [] [] ⟨[3, 3], 4, 2, 6, [0, 0], [0, 0]⟩
      (by decide)).2.2.2.2.2.2.2.2.2.2.2.2.2.2.2⟩

/-! ## Lemmas: serialization -/

theorem u32_to_bytes_length (x : Nat) : (u32_to_bytes x).length = 4 := rfl

theorem bytes_to_u32_append (x : Nat) (hx : x < U32_MOD) (rest : List Nat) :
    bytes_to_u32 (u32_to_bytes x ++ rest) = x := by
  unfold U32_MOD at hx
  simp only [bytes_to_u32, u32_to_bytes, List.cons_append, List.getD_cons_zero,
    List.getD_cons_succ]
  omega

theorem vector_to_bytes_length (xs : List Nat) :
    (vector_to_bytes xs).length = 4 * xs.length := by
  induction xs with
  | nil => rfl
  | cons x xs ih =>
    simp only [vector_to_bytes, List.length_append, u32_to_bytes_length, ih, List.length_cons]
    omega

theorem bytes_to_vector_append (xs : List Nat) (hx : ∀ x ∈ xs, x < U32_MOD)
    (rest : List Nat) :
    bytes_to_vector xs.length (vector_to_bytes xs ++ rest) = xs := by
  induction xs with
  | nil => rfl
  | cons x xs ih =>
    have h1 : (u32_to_bytes x ++ (vector_to_bytes xs ++ rest)).take 4 = u32_to_bytes x := by
      simp [u32_to_bytes]
    have h2 : (u32_to_bytes x ++ (vector_to_bytes xs ++ rest)).drop 4 =
        vector_to_bytes xs ++ rest := by
      simp [u32_to_bytes]
    simp only [vector_to_bytes, List.length_cons, bytes_to_vector, List.append_assoc, h1, h2]
    rw [ih (fun y hy => hx y (List.mem_cons_of_mem _ hy))]
    have := bytes_to_u32_append x (hx x (List.mem_cons_self _ _)) []
    rw [List.append_nil] at this
    rw [this]

theorem vector_resize_length (v : List Nat) (n fill : Nat) :
    (vector_resize v n fill).length = n := by
  simp only [vector_resize, List.length_append, List.length_take, List.length_replicate]
  omega

theorem istream_read_prefix (bs rest buffer : List Nat) (m : Bool) (n : Nat)
    (hn : bs.length = n) :
    istream_read ⟨bs ++ rest, false, m⟩ buffer n =
      .ok (⟨rest, false, m⟩, bs ++ buffer.drop n) := by
  subst hn
  simp [istream_read]

theorem istream_read_u32 (x : Nat) (rest buffer : List Nat) (m : Bool) :
    istream_read ⟨u32_to_bytes x ++ rest, false, m⟩ buffer 4 =
      .ok (⟨rest, false, m⟩, u32_to_bytes x ++ buffer.drop 4) :=
  istream_read_prefix (u32_to_bytes x) rest buffer m 4 rfl

theorem istream_read_vector (xs rest buffer : List Nat) (m : Bool) (n : Nat)
    (hn : xs.length = n) :
    istream_read ⟨vector_to_bytes xs ++ rest, false, m⟩ buffer (4 * n) =
      .ok (⟨rest, false, m⟩, vector_to_bytes xs ++ buffer.drop (4 * n)) :=
  istream_read_prefix (vector_to_bytes xs) rest buffer m (4 * n)
    (by rw [vector_to_bytes_length, hn])

/-- Reading a stream that starts with the four counts and the window sizes,
under the legacy tag. -/
theorem read_legacy_prefix (r : sparse_convolution_layer) (a b c : Nat) (ws rest : List Nat)
    (m : Bool) (init : Nat)
    (ha : a < U32_MOD) (hb : b < U32_MOD) (hc : c < U32_MOD)
    (hD : ws.length < U32_MOD) (hws : ∀ w ∈ ws, w < U32_MOD) :
    read r ⟨u32_to_bytes a ++ (u32_to_bytes b ++ (u32_to_bytes c ++
        (u32_to_bytes ws.length ++ (vector_to_bytes ws ++ rest)))), false, m⟩
      layer_guid_v1 init =
    .ok ({ window_sizes := ws
           input_feature_map_count := a
           output_feature_map_count := b
           feature_map_connection_count := c
           left_zero_padding := vector_resize r.left_zero_padding ws.length 0
           right_zero_padding := vector_resize r.right_zero_padding ws.length 0 },
         ⟨rest, false, m⟩) := by
  have hdrop : ∀ x : Nat, (u32_to_bytes x).drop 4 = [] := fun _ => rfl
  have hu : ∀ x, x < U32_MOD → bytes_to_u32 (u32_to_bytes x) = x := fun x hx => by
    have := bytes_to_u32_append x hx []
    rwa [List.append_nil] at this
  unfold read
  rw [istream_read_u32]
  simp only [hdrop, List.append_nil]
  rw [istream_read_u32]
  simp only [hdrop, List.append_nil]
  rw [istream_read_u32]
  simp only [hdrop, List.append_nil]
  rw [istream_read_u32]
  simp only [hdrop, List.append_nil, hu _ ha, hu _ hb, hu _ hc, hu _ hD]
  rw [istream_read_vector _ _ _ _ _ rfl]
  have hd2 : (vector_to_bytes (vector_resize r.window_sizes ws.length 0)).drop
      (4 * ws.length) = [] := by
    apply List.drop_eq_nil_of_le
    rw [vector_to_bytes_length, vector_resize_length]
  have hv := bytes_to_vector_append ws hws []
  rw [List.append_nil] at hv
  simp only [hd2, List.append_nil, hv, ne_eq, not_true_eq_false, if_false]

/-- Reading a stream that starts with the four counts, the window sizes and
the two padding arrays, under a tag other than the legacy one. -/
theorem read_current_prefix (r : sparse_convolution_layer) (a b c : Nat)
    (ws ls rs rest : List Nat) (m : Bool) (init : Nat) (guid : List Nat)
    (hg : guid ≠ layer_guid_v1)
    (ha : a < U32_MOD) (hb : b < U32_MOD) (hc : c < U32_MOD)
    (hD : ws.length < U32_MOD) (hws : ∀ w ∈ ws, w < U32_MOD)
    (hll : ls.length = ws.length) (hls : ∀ w ∈ ls, w < U32_MOD)
    (hrl : rs.length = ws.length) (hrs : ∀ w ∈ rs, w < U32_MOD) :
    read r ⟨u32_to_bytes a ++ (u32_to_bytes b ++ (u32_to_bytes c ++
        (u32_to_bytes ws.length ++ (vector_to_bytes ws ++
          (vector_to_bytes ls ++ (vector_to_bytes rs ++ rest)))))), false, m⟩
      guid init =
    .ok ({ window_sizes := ws
           input_feature_map_count := a
           output_feature_map_count := b
           feature_map_connection_count := c
           left_zero_padding := ls
           right_zero_padding := rs },
         ⟨rest, false, m⟩) := by
  have hdrop : ∀ x : Nat, (u32_to_bytes x).drop 4 = [] := fun _ => rfl
  have hu : ∀ x, x < U32_MOD → bytes_to_u32 (u32_to_bytes x) = x := fun x hx => by
    have := bytes_to_u32_append x hx []
    rwa [List.append_nil] at this
  have hd2 : ∀ v : List Nat, (vector_to_bytes (vector_resize v ws.length 0)).drop
      (4 * ws.length) = [] := fun v => by
    apply List.drop_eq_nil_of_le
    rw [vector_to_bytes_length, vector_resize_length]
  have hv : ∀ xs : List Nat, (∀ x ∈ xs, x < U32_MOD) → xs.length = ws.length →
      bytes_to_vector ws.length (vector_to_bytes xs) = xs := fun xs hxs hl => by
    have := bytes_to_vector_append xs hxs []
    rwa [List.append_nil, hl] at this
  unfold read
  rw [istream_read_u32]
  simp only [hdrop, List.append_nil]
  rw [istream_read_u32]
  simp only [hdrop, List.append_nil]
  rw [istream_read_u32]
  simp only [hdrop, List.append_nil]
  rw [istream_read_u32]
  simp only [hdrop, List.append_nil, hu _ ha, hu _ hb, hu _ hc, hu _ hD]
  rw [istream_read_vector _ _ _ _ _ rfl]
  simp only [hd2, List.append_nil, hv ws hws rfl, ne_eq, hg, not_false_eq_true, if_true]
  rw [istream_read_vector _ _ _ _ _ hll]
  simp only [hd2, List.append_nil]
  rw [istream_read_vector _ _ _ _ _ hrl]
  simp only [hd2, List.append_nil, hv ls hls hll, hv rs hrs hrl]

/-- C5: serialization round trip.  For every validated descriptor `d` (of
`unsigned int` members) and every descriptor `r`, reading into `r`, with the
current-version tag, a good stream that starts with the bytes produced by
`d.write` makes `r` equal to `d` in all six members
(`input_feature_map_count`, `output_feature_map_count`,
`feature_map_connection_count`, `window_sizes`, `left_zero_padding`,
`right_zero_padding`) and consumes exactly the bytes written: the stream is
left good, positioned at whatever followed them. -/
theorem write_read_round_trip (d r : sparse_convolution_layer) (rest : List Nat)
    (mask : Bool) (dimension_count_init : Nat)
    (hd : validated d) (hu : layer_is_u32 d) :
    read r ⟨write d ++ rest, false, mask⟩ layer_guid dimension_count_init =
      .ok (d, ⟨rest, false, mask⟩) := by
  have hc := validated_consistent d hd
  obtain ⟨ha, hb, hcn, hD, hws, hls, hrs⟩ := hu
  have h := read_current_prefix r d.input_feature_map_count d.output_feature_map_count
    d.feature_map_connection_count d.window_sizes d.left_zero_padding d.right_zero_padding
    rest mask dimension_count_init layer_guid (by decide) ha hb hcn hD hws hc.left_len hls
    hc.right_len hrs
  unfold write
  simp only [Nat.mod_eq_of_lt hD, List.take_length, List.append_assoc]
  rw [← hc.left_len, List.take_length, hc.left_len, ← hc.right_len, List.take_length,
    hc.right_len]
  exact h

/-- C5 at the scenario of the specification with paddings, read into a
different descriptor from a stream that holds one more byte. -/
theorem write_read_round_trip_witness :
    validated ⟨[3, 3], 4, 2, 6, [1, 2], [0, 1]⟩ ∧
    layer_is_u32 ⟨[3, 3], 4, 2, 6, [1, 2], [0, 1]⟩ ∧
    read ⟨[1], 1, 1, 1, [0], [0]⟩ ⟨write ⟨[3, 3], 4, 2, 6, [1, 2], [0, 1]⟩ ++ [7], false, false⟩
      layer_guid 0 = .ok (⟨[3, 3], 4, 2, 6, [1, 2], [0, 1]⟩, ⟨[7], false, false⟩) :=
  ⟨by decide, by decide,
   write_read_round_trip ⟨[3, 3], 4, 2, 6, [1, 2], [0, 1]⟩ ⟨[1], 1, 1, 1, [0], [0]⟩ [7] false 0
     (by decide) (by decide)⟩

/-- C6 fails on the code: a descriptor that holds paddings `[1]` and `[1]`
reads, with the legacy tag, a stream holding the four counts 1, 1, 1, D = 1
and the window size 2; no byte after the window sizes is read, and the
paddings are still `[1]` and `[1]`, not zero (`resize(dimension_count, 0)`
keeps the elements the vectors already hold). -/
theorem legacy_read_keeps_previous_padding :
    read ⟨[2], 1, 1, 1, [1], [1]⟩
      ⟨u32_to_bytes 1 ++ u32_to_bytes 1 ++ u32_to_bytes 1 ++ u32_to_bytes 1 ++
        vector_to_bytes [2] ++ [9, 9], false, false⟩ layer_guid_v1 0 =
      .ok (⟨[2], 1, 1, 1, [1], [1]⟩, ⟨[9, 9], false, false⟩) ∧
    ([1] : List Nat) ≠ List.replicate 1 0 := by
  decide

/-- C7 fails on the code: a stream that encodes a zero window size, a
connection count 5 above `1 * 1` and a left padding 3 is read successfully
under the current tag, and the descriptor read is one that
`check_consistency` rejects. -/
theorem read_accepts_inconsistent_fields :
    read ⟨[1], 1, 1, 1, [0], [0]⟩ ⟨write ⟨[0], 1, 1, 5, [3], [0]⟩, false, true⟩ layer_guid 0 =
      .ok (⟨[0], 1, 1, 5, [3], [0]⟩, ⟨[], false, true⟩) ∧
    check_consistency ⟨[0], 1, 1, 5, [3], [0]⟩ = .error .window_dimension_zero ∧
    ¬ validated ⟨[0], 1, 1, 5, [3], [0]⟩ := by
  decide

theorem mem_set_insert (x y : Int) (s : List Int) :
    y ∈ set_insert x s ↔ y = x ∨ y ∈ s := by
  induction s with
  | nil => simp [set_insert]
  | cons z zs ih =>
    unfold set_insert
    split_ifs with h1 h2
    · simp
    · subst h2
      simp
    · simp only [List.mem_cons, ih]
      tauto

theorem set_insert_pairwise (x : Int) (s : List Int) (hs : s.Pairwise (· < ·)) :
    (set_insert x s).Pairwise (· < ·) := by
  induction s with
  | nil => simp [set_insert]
  | cons z zs ih =>
    unfold set_insert
    rw [List.pairwise_cons] at hs
    split_ifs with h1 h2
    · refine List.pairwise_cons.2 ⟨fun y hy => ?_, List.pairwise_cons.2 hs⟩
      rcases List.mem_cons.1 hy with h | h
      · rw [h]; exact h1
      · exact lt_trans h1 (hs.1 y h)
    · exact List.pairwise_cons.2 hs
    · refine List.pairwise_cons.2 ⟨fun y hy => ?_, ih hs.2⟩
      rcases (mem_set_insert x y zs).1 hy with h | h
      · rw [h]; omega
      · exact hs.1 y h

theorem set_insert_length (x : Int) (s : List Int) (hx : x ∉ s) :
    (set_insert x s).length = s.length + 1 := by
  induction s with
  | nil => simp [set_insert]
  | cons z zs ih =>
    unfold set_insert
    simp only [List.mem_cons, not_or] at hx
    split_ifs with h1 h2
    · simp
    · exact absurd h2 hx.1
    · simp [ih hx.2]

theorem mem_set_difference (pool : List Nat) (present : List Int) (y : Int) :
    y ∈ set_difference pool present ↔
      ∃ n : Nat, n ∈ pool ∧ (n : Int) = y ∧ y ∉ present := by
  unfold set_difference
  rw [List.mem_map]
  constructor
  · rintro ⟨n, hn, rfl⟩
    rw [List.mem_filter, decide_eq_true_eq] at hn
    exact ⟨n, hn.1, rfl, hn.2⟩
  · rintro ⟨n, hn, rfl, hnot⟩
    exact ⟨n, List.mem_filter.2 ⟨hn, by rw [decide_eq_true_eq]; exact hnot⟩, rfl⟩

theorem sum_length_set (l : List (List Int)) (k : Nat) (hk : k < l.length) (s : List Int) :
    ((l.set k s).map List.length).sum + (l.getD k []).length =
      (l.map List.length).sum + s.length := by
  induction l generalizing k with
  | nil => simp at hk
  | cons a as ih =>
    cases k with
    | zero =>
      simp only [List.set_cons_zero, List.map_cons, List.sum_cons, List.getD_cons_zero]
      omega
    | succ k =>
      have := ih k (by simpa using hk)
      simp only [List.set_cons_succ, List.map_cons, List.sum_cons, List.getD_cons_succ]
      omega

theorem spec_scan_slots_some (present : List (List Int)) (pool : List Nat) (slots : List Int)
    (start idx : Nat) (h : spec_scan_slots present pool slots start = some idx) :
    start ≤ idx ∧ idx - start < slots.length ∧ slots.getD (idx - start) 0 ≠ -1 ∧
      set_difference pool (present.getD (slots.getD (idx - start) 0).toNat []) ≠ [] := by
  induction slots generalizing start with
  | nil => simp [spec_scan_slots] at h
  | cons slot rest ih =>
    unfold spec_scan_slots at h
    split_ifs at h with h1 h2
    · obtain ⟨h3, h4, h5, h6⟩ := ih (start + 1) h
      have e : idx - start = (idx - (start + 1)) + 1 := by omega
      rw [e]
      simp only [List.getD_cons_succ, List.length_cons]
      exact ⟨by omega, by omega, h5, h6⟩
    · obtain ⟨h3, h4, h5, h6⟩ := ih (start + 1) h
      have e : idx - start = (idx - (start + 1)) + 1 := by omega
      rw [e]
      simp only [List.getD_cons_succ, List.length_cons]
      exact ⟨by omega, by omega, h5, h6⟩
    · simp only [Option.some.injEq] at h
      subst h
      simp only [Nat.sub_self, List.getD_cons_zero, List.length_cons]
      exact ⟨le_refl _, by omega, h1, fun h0 => h2 (by rw [h0]; rfl)⟩

theorem getD_drop (l : List Int) (s k : Nat) :
    (l.drop s).getD k 0 = l.getD (s + k) 0 := by
  simp only [List.getD_eq_getElem?_getD, List.getElem?_drop]

theorem getD_mem_of_lt (l : List Int) (k : Nat) (hk : k < l.length) : l.getD k 0 ∈ l := by
  rw [List.getD_eq_getElem _ _ hk]
  exact List.getElem_mem _

theorem i32_wrap_succ_of_lt (c : Nat) (h : c < 2147483647) :
    i32_wrap ((c : Int) + 1) = ((c + 1 : Nat) : Int) := by
  unfold i32_wrap
  push_cast
  omega

theorem i32_wrap_succ_max : i32_wrap (((2147483647 : Nat) : Int) + 1) = -2147483648 := by
  decide

/-- The `int` scan and the scan of the specification: they stop at the same
slot as long as its position is at most `INT_MAX`; past that position the
`int` index is negative. -/
theorem scan_slots_eq_spec (present : List (List Int)) (pool : List Nat) (slots : List Int)
    (c : Nat) (hc : c ≤ 2147483647) :
    scan_slots present pool slots (c : Int) =
      match spec_scan_slots present pool slots c with
      | some idx => if idx ≤ 2147483647 then (idx : Int) else -2147483648
      | none =>
        if c + slots.length ≤ 2147483647 then ((c + slots.length : Nat) : Int)
        else -2147483648 := by
  induction slots generalizing c with
  | nil =>
    unfold scan_slots spec_scan_slots
    simp [hc]
  | cons slot rest ih =>
    have hstep : ∀ (_ : ¬ (slot ≠ -1 ∧
        (set_difference pool (present.getD slot.toNat [])).length ≠ 0)),
        (if i32_wrap ((c : Int) + 1) < 0 then i32_wrap ((c : Int) + 1)
          else scan_slots present pool rest (i32_wrap ((c : Int) + 1))) =
        match spec_scan_slots present pool rest (c + 1) with
        | some idx => if idx ≤ 2147483647 then (idx : Int) else -2147483648
        | none =>
          if c + (slot :: rest).length ≤ 2147483647 then ((c + (slot :: rest).length : Nat) : Int)
          else -2147483648 := by
      intro _
      by_cases hm : c = 2147483647
      · subst hm
        rw [i32_wrap_succ_max, if_pos (by decide)]
        cases hs : spec_scan_slots present pool rest (2147483647 + 1) with
        | none =>
          dsimp only
          rw [if_neg (by rw [List.length_cons]; omega)]
        | some idx =>
          obtain ⟨h3, -⟩ := spec_scan_slots_some _ _ _ _ _ hs
          dsimp only
          rw [if_neg (by omega)]
      · rw [i32_wrap_succ_of_lt c (by omega), if_neg (by omega), ih (c + 1) (by omega)]
        cases hs : spec_scan_slots present pool rest (c + 1) with
        | none =>
          dsimp only
          rw [List.length_cons, show c + 1 + rest.length = c + (rest.length + 1) by omega]
        | some idx => rfl
    unfold scan_slots spec_scan_slots
    by_cases h1 : slot = -1
    · rw [if_neg (fun h => h.1 h1), if_pos h1]
      exact hstep (fun h => h.1 h1)
    · by_cases h2 : (set_difference pool (present.getD slot.toNat [])).length = 0
      · rw [if_neg (fun h => h.2 h2), if_neg h1, if_pos h2]
        exact hstep (fun h => h.2 h2)
      · rw [if_pos ⟨h1, h2⟩, if_neg h1, if_neg h2]
        dsimp only
        rw [if_pos hc]
/-- The value of the scan index after the loop, by the outcome of the scan of
the specification. -/
theorem scan_value (present : List (List Int)) (pool : List Nat) (slots : List Int)
    (start : Nat) (hs : start < 2147483648) :
    (∀ idx, spec_scan_slots present pool (slots.drop start) start = some idx →
      start ≤ idx ∧ idx < slots.length ∧
      (idx ≤ 2147483647 →
        scan_slots present pool (slots.drop start) (start : Int) = (idx : Int)) ∧
      (2147483647 < idx →
        scan_slots present pool (slots.drop start) (start : Int) = -2147483648)) ∧
    (spec_scan_slots present pool (slots.drop start) start = none →
      (start ≤ slots.length → slots.length ≤ 2147483647 →
        scan_slots present pool (slots.drop start) (start : Int) = (slots.length : Int)) ∧
      (start ≤ slots.length → 2147483647 < slots.length →
        scan_slots present pool (slots.drop start) (start : Int) = -2147483648) ∧
      (slots.length < start →
        scan_slots present pool (slots.drop start) (start : Int) = (start : Int))) := by
  have h := scan_slots_eq_spec present pool (slots.drop start) start (by omega)
  constructor
  · intro idx hscan
    rw [hscan] at h
    dsimp only at h
    obtain ⟨h1, h2, -⟩ := spec_scan_slots_some _ _ _ _ _ hscan
    rw [List.length_drop] at h2
    refine ⟨h1, by omega, fun hle => ?_, fun hgt => ?_⟩
    · rw [h, if_pos hle]
    · rw [h, if_neg (by omega)]
  · intro hscan
    rw [hscan] at h
    dsimp only at h
    rw [List.length_drop] at h
    refine ⟨fun h1 h2 => ?_, fun h1 h2 => ?_, fun h1 => ?_⟩
    · rw [h, if_pos (by omega)]
      congr 1
      omega
    · rw [h, if_neg (by omega)]
    · rw [h, if_pos (by omega)]
      congr 1
      omega

theorem place_connection_of_large_start (d : sparse_convolution_layer) (generator : Nat → Nat)
    (st : connection_state) (hs : 2147483648 ≤ st.start_feature_map_index) :
    place_connection d generator st = .error .subscript_out_of_range := by
  unfold place_connection
  dsimp only
  rw [if_pos hs]

theorem place_connection_of_none (d : sparse_convolution_layer) (generator : Nat → Nat)
    (st : connection_state) (hs : st.start_feature_map_index < 2147483648)
    (hscan : spec_scan_slots st.out_fm_in_fm_present_list (refilled_pool d st)
      (st.output_feature_map_id_list.drop st.start_feature_map_index)
      st.start_feature_map_index = none) :
    place_connection d generator st =
      if st.start_feature_map_index ≤ st.output_feature_map_id_list.length ∧
          st.output_feature_map_id_list.length ≤ 2147483647 then
        .error .internal_error_sparse_connections
      else .error .subscript_out_of_range := by
  obtain ⟨h1, h2, h3⟩ := (scan_value _ _ _ _ hs).2 hscan
  unfold refilled_pool at h1 h2 h3
  unfold place_connection
  dsimp only
  rw [if_neg (by omega)]
  by_cases hle : st.start_feature_map_index ≤ st.output_feature_map_id_list.length
  · by_cases hm : st.output_feature_map_id_list.length ≤ 2147483647
    · rw [h1 hle hm, if_pos rfl, if_pos ⟨hle, hm⟩]
    · rw [h2 hle (by omega), if_neg (by omega), if_pos (Or.inl (by decide)),
        if_neg (fun h => hm h.2)]
  · rw [h3 (by omega), if_neg (by omega), if_pos (Or.inr (by omega)),
      if_neg (fun h => hle h.1)]

theorem place_connection_of_large_index (d : sparse_convolution_layer)
    (generator : Nat → Nat) (st : connection_state) (idx : Nat)
    (hs : st.start_feature_map_index < 2147483648)
    (hscan : spec_scan_slots st.out_fm_in_fm_present_list (refilled_pool d st)
      (st.output_feature_map_id_list.drop st.start_feature_map_index)
      st.start_feature_map_index = some idx)
    (hidx : 2147483647 < idx) :
    place_connection d generator st = .error .subscript_out_of_range := by
  obtain ⟨-, -, -, h4⟩ := (scan_value _ _ _ _ hs).1 idx hscan
  unfold refilled_pool at h4
  unfold place_connection
  dsimp only
  rw [if_neg (by omega), h4 hidx, if_neg (by omega), if_pos (Or.inl (by decide))]

/-- An iteration whose scan stops at a slot of position at most `INT_MAX`. -/
theorem place_connection_of_some (d : sparse_convolution_layer) (generator : Nat → Nat)
    (st : connection_state) (idx : Nat)
    (hscan : spec_scan_slots st.out_fm_in_fm_present_list (refilled_pool d st)
      (st.output_feature_map_id_list.drop st.start_feature_map_index)
      st.start_feature_map_index = some idx)
    (hidx : idx ≤ 2147483647) :
    place_connection d generator st =
      match advance_start ((st.output_feature_map_id_list.set idx (-1)).drop
          st.start_feature_map_index) st.start_feature_map_index with
      | none => .error .subscript_out_of_range
      | some start =>
        .ok { out_fm_in_fm_present_list :=
                st.out_fm_in_fm_present_list.set
                  (st.output_feature_map_id_list.getD idx 0).toNat
                  (set_insert
                    ((set_difference (refilled_pool d st)
                      (st.out_fm_in_fm_present_list.getD
                        (st.output_feature_map_id_list.getD idx 0).toNat [])).getD
                      (if (set_difference (refilled_pool d st)
                          (st.out_fm_in_fm_present_list.getD
                            (st.output_feature_map_id_list.getD idx 0).toNat [])).length > 1 then
                        uniform_int_distribution 0
                          ((set_difference (refilled_pool d st)
                            (st.out_fm_in_fm_present_list.getD
                              (st.output_feature_map_id_list.getD idx 0).toNat [])).length - 1)
                          (generator st.generator_position)
                      else 0) 0)
                    (st.out_fm_in_fm_present_list.getD
                      (st.output_feature_map_id_list.getD idx 0).toNat []))
              output_feature_map_id_list := st.output_feature_map_id_list.set idx (-1)
              input_feature_map_id_set :=
                (refilled_pool d st).erase
                  ((set_difference (refilled_pool d st)
                    (st.out_fm_in_fm_present_list.getD
                      (st.output_feature_map_id_list.getD idx 0).toNat [])).getD
                    (if (set_difference (refilled_pool d st)
                        (st.out_fm_in_fm_present_list.getD
                          (st.output_feature_map_id_list.getD idx 0).toNat [])).length > 1 then
                      uniform_int_distribution 0
                        ((set_difference (refilled_pool d st)
                          (st.out_fm_in_fm_present_list.getD
                            (st.output_feature_map_id_list.getD idx 0).toNat [])).length - 1)
                        (generator st.generator_position)
                    else 0) 0).toNat
              start_feature_map_index := start
              generator_position :=
                if (set_difference (refilled_pool d st)
                    (st.out_fm_in_fm_present_list.getD
                      (st.output_feature_map_id_list.getD idx 0).toNat [])).length > 1 then
                  st.generator_position + 1
                else st.generator_position } := by
  obtain ⟨h1, h2, h3, -⟩ :=
    (scan_value _ _ _ _ (by
      have := (spec_scan_slots_some _ _ _ _ _ hscan).1
      omega)).1 idx hscan
  unfold refilled_pool at h3 ⊢
  unfold place_connection
  dsimp only
  rw [if_neg (by omega), h3 hidx, if_neg (by omega), if_neg (by omega), Int.toNat_ofNat]
/-- What a completed iteration of the placement loop has done, with the scan
that found the slot. -/
theorem place_connection_ok_scan (d : sparse_convolution_layer) (generator : Nat → Nat)
    (st st1 : connection_state) (h : place_connection d generator st = .ok st1) :
    ∃ (idx o : Nat) (x : Int),
      spec_scan_slots st.out_fm_in_fm_present_list (refilled_pool d st)
        (st.output_feature_map_id_list.drop st.start_feature_map_index)
        st.start_feature_map_index = some idx ∧
      st.start_feature_map_index ≤ idx ∧
      idx < st.output_feature_map_id_list.length ∧
      st.output_feature_map_id_list.getD idx 0 ≠ -1 ∧
      o = (st.output_feature_map_id_list.getD idx 0).toNat ∧
      x ∈ set_difference (refilled_pool d st) (st.out_fm_in_fm_present_list.getD o []) ∧
      st1.out_fm_in_fm_present_list = st.out_fm_in_fm_present_list.set o
        (set_insert x (st.out_fm_in_fm_present_list.getD o [])) ∧
      st1.output_feature_map_id_list = st.output_feature_map_id_list.set idx (-1) ∧
      st1.input_feature_map_id_set = (refilled_pool d st).erase x.toNat ∧
      advance_start (st1.output_feature_map_id_list.drop st.start_feature_map_index)
        st.start_feature_map_index = some st1.start_feature_map_index := by
  by_cases hs : 2147483648 ≤ st.start_feature_map_index
  · rw [place_connection_of_large_start d generator st hs] at h
    exact Except.noConfusion h
  cases hscan : spec_scan_slots st.out_fm_in_fm_present_list (refilled_pool d st)
      (st.output_feature_map_id_list.drop st.start_feature_map_index)
      st.start_feature_map_index with
  | none =>
    rw [place_connection_of_none d generator st (by omega) hscan] at h
    split_ifs at h
  | some idx =>
    by_cases hidx : idx ≤ 2147483647
    · rw [place_connection_of_some d generator st idx hscan hidx] at h
      obtain ⟨hle, hlt, hslot, hcand⟩ := spec_scan_slots_some _ _ _ _ _ hscan
      rw [getD_drop, Nat.add_sub_cancel' hle] at hslot hcand
      rw [List.length_drop] at hlt
      generalize hv : set_difference (refilled_pool d st) (st.out_fm_in_fm_present_list.getD
        (st.output_feature_map_id_list.getD idx 0).toNat []) = v at h hcand
      generalize hix : (if v.length > 1 then
        uniform_int_distribution 0 (v.length - 1) (generator st.generator_position) else 0) =
          ix at h
      have hixlt : ix < v.length := by
        rw [← hix]
        have hpos : 0 < v.length := List.length_pos.2 hcand
        split_ifs with hc
        · unfold uniform_int_distribution
          have : (generator st.generator_position) % (v.length - 1 - 0 + 1) <
              v.length - 1 - 0 + 1 := Nat.mod_lt _ (by omega)
          omega
        · exact hpos
      cases hadv : advance_start ((st.output_feature_map_id_list.set idx (-1)).drop
          st.start_feature_map_index) st.start_feature_map_index with
      | none => rw [hadv] at h; exact Except.noConfusion h
      | some start =>
        rw [hadv] at h
        simp only [Except.ok.injEq] at h
        subst h
        refine ⟨idx, _, v.getD ix 0, rfl, hle, by omega, hslot, rfl, ?_, rfl, rfl, rfl, hadv⟩
        rw [hv]
        exact getD_mem_of_lt v ix hixlt
    · rw [place_connection_of_large_index d generator st idx (by omega) hscan (by omega)] at h
      exact Except.noConfusion h

/-- A completed iteration has not run the scan index past `INT_MAX`. -/
theorem place_connection_ok_index (d : sparse_convolution_layer) (generator : Nat → Nat)
    (st st1 : connection_state) (idx : Nat) (h : place_connection d generator st = .ok st1)
    (hscan : spec_scan_slots st.out_fm_in_fm_present_list (refilled_pool d st)
      (st.output_feature_map_id_list.drop st.start_feature_map_index)
      st.start_feature_map_index = some idx) :
    idx ≤ 2147483647 := by
  by_contra hidx
  by_cases hs : 2147483648 ≤ st.start_feature_map_index
  · rw [place_connection_of_large_start d generator st hs] at h
    exact Except.noConfusion h
  · rw [place_connection_of_large_index d generator st idx (by omega) hscan (by omega)] at h
    exact Except.noConfusion h

/-- What a completed iteration of the placement loop has done: it took the
slot `idx`, of the output feature map `o`, and connected the input `x`. -/
theorem place_connection_ok (d : sparse_convolution_layer) (generator : Nat → Nat)
    (st st1 : connection_state) (h : place_connection d generator st = .ok st1) :
    ∃ (pool : List Nat) (idx o : Nat) (x : Int),
      pool = (if st.input_feature_map_id_set.isEmpty = true then
        List.range d.input_feature_map_count else st.input_feature_map_id_set) ∧
      st.start_feature_map_index ≤ idx ∧
      idx < st.output_feature_map_id_list.length ∧
      st.output_feature_map_id_list.getD idx 0 ≠ -1 ∧
      o = (st.output_feature_map_id_list.getD idx 0).toNat ∧
      x ∈ set_difference pool (st.out_fm_in_fm_present_list.getD o []) ∧
      st1.out_fm_in_fm_present_list = st.out_fm_in_fm_present_list.set o
        (set_insert x (st.out_fm_in_fm_present_list.getD o [])) ∧
      st1.output_feature_map_id_list = st.output_feature_map_id_list.set idx (-1) ∧
      st1.input_feature_map_id_set = pool.erase x.toNat ∧
      advance_start (st1.output_feature_map_id_list.drop st.start_feature_map_index)
        st.start_feature_map_index = some st1.start_feature_map_index := by
  obtain ⟨idx, o, x, -, h1, h2, h3, h4, h5, h6, h7, h8, h9⟩ :=
    place_connection_ok_scan d generator st st1 h
  exact ⟨refilled_pool d st, idx, o, x, rfl, h1, h2, h3, h4, h5, h6, h7, h8, h9⟩

/-- The iteration completes when the scan finds a slot of position at most
`INT_MAX` and a slot that is not consumed is left for the cursor. -/
theorem place_connection_completes (d : sparse_convolution_layer) (generator : Nat → Nat)
    (st : connection_state) (idx s : Nat)
    (hscan : spec_scan_slots st.out_fm_in_fm_present_list (refilled_pool d st)
      (st.output_feature_map_id_list.drop st.start_feature_map_index)
      st.start_feature_map_index = some idx)
    (hidx : idx ≤ 2147483647)
    (hadv : advance_start ((st.output_feature_map_id_list.set idx (-1)).drop
      st.start_feature_map_index) st.start_feature_map_index = some s) :
    ∃ st1, place_connection d generator st = .ok st1 := by
  rw [place_connection_of_some d generator st idx hscan hidx, hadv]
  exact ⟨_, rfl⟩

theorem place_connection_invariant (d : sparse_convolution_layer) (generator : Nat → Nat)
    (st st1 : connection_state) (i : Nat) (hinv : placement_invariant d st i)
    (h : place_connection d generator st = .ok st1) :
    placement_invariant d st1 (i + 1) := by
  obtain ⟨pool, idx, o, x, hpool, hle, hidx, hslot, ho, hx, hp1, hl1, hs1, -⟩ :=
    place_connection_ok d generator st st1 h
  have hpool_range : ∀ n ∈ pool, n < d.input_feature_map_count := by
    intro n hn
    rw [hpool] at hn
    split_ifs at hn
    · exact List.mem_range.1 hn
    · exact hinv.pool n hn
  obtain ⟨n, hn, hnx, hnot⟩ := (mem_set_difference _ _ _).1 hx
  have hslot_range := hinv.slots _ (getD_mem_of_lt _ idx hidx)
  have ho_lt : o < st.out_fm_in_fm_present_list.length := by
    rw [hinv.present_length, ho]
    rcases hslot_range with h1 | ⟨h1, h2⟩
    · exact absurd h1 hslot
    · omega
  have hold_mem : st.out_fm_in_fm_present_list.getD o [] ∈ st.out_fm_in_fm_present_list := by
    rw [List.getD_eq_getElem _ _ ho_lt]
    exact List.getElem_mem _
  have hxr : 0 ≤ x ∧ x < (d.input_feature_map_count : Int) := by
    have := hpool_range n hn
    rw [← hnx]
    omega
  refine ⟨?_, ?_, ?_, ?_, ?_, ?_⟩
  · rw [hp1, List.length_set]
    exact hinv.present_length
  · have := sum_length_set st.out_fm_in_fm_present_list o ho_lt
      (set_insert x (st.out_fm_in_fm_present_list.getD o []))
    rw [set_insert_length _ _ hnot, hinv.edges] at this
    rw [hp1]
    omega
  · intro s hs
    rw [hp1] at hs
    rcases List.mem_or_eq_of_mem_set hs with h1 | h1
    · exact hinv.ascending s h1
    · rw [h1]
      exact set_insert_pairwise _ _ (hinv.ascending _ hold_mem)
  · intro s hs y hy
    rw [hp1] at hs
    rcases List.mem_or_eq_of_mem_set hs with h1 | h1
    · exact hinv.inputs s h1 y hy
    · rw [h1] at hy
      rcases (mem_set_insert _ _ _).1 hy with h2 | h2
      · rw [h2]; exact hxr
      · exact hinv.inputs _ hold_mem y h2
  · intro y hy
    rw [hl1] at hy
    rcases List.mem_or_eq_of_mem_set hy with h1 | h1
    · exact hinv.slots y h1
    · exact Or.inl h1
  · intro y hy
    rw [hs1] at hy
    exact hpool_range y (List.mem_of_mem_erase hy)

theorem place_connections_invariant (d : sparse_convolution_layer) (generator : Nat → Nat)
    (n : Nat) (st st1 : connection_state) (i : Nat) (hinv : placement_invariant d st i)
    (h : place_connections d generator n st = .ok st1) :
    placement_invariant d st1 (i + n) := by
  induction n generalizing st i with
  | zero =>
    simp only [place_connections, Except.ok.injEq] at h
    subst h
    exact hinv
  | succ n ih =>
    unfold place_connections at h
    cases hstep : place_connection d generator st with
    | error e => rw [hstep] at h; exact Except.noConfusion h
    | ok st2 =>
      rw [hstep] at h
      have := ih st2 (i + 1) (place_connection_invariant d generator st st2 i hinv hstep) h
      rwa [Nat.add_assoc, Nat.add_comm 1 n] at this

theorem take_succ_set {α : Type} (l : List α) (k : Nat) (a : α) (hk : k < l.length) :
    (l.set k a).take (k + 1) = l.take k ++ [a] := by
  rw [List.set_eq_take_append_cons_drop, if_pos hk]
  have e : l.take k ++ a :: l.drop (k + 1) = (l.take k ++ [a]) ++ l.drop (k + 1) := by simp
  rw [e]
  apply List.take_left'
  simp only [List.length_append, List.length_take, List.length_singleton]
  omega

theorem copy_into_length (dst : List Int) (pos : Nat) (src : List Int) :
    (copy_into dst pos src).length = dst.length := by
  induction src generalizing dst pos with
  | nil => rfl
  | cons x xs ih => simp only [copy_into, ih, List.length_set]

theorem copy_into_eq (dst : List Int) (pos : Nat) (src : List Int)
    (h : pos + src.length ≤ dst.length) :
    copy_into dst pos src = dst.take pos ++ (src ++ dst.drop (pos + src.length)) := by
  induction src generalizing dst pos with
  | nil => simp [copy_into]
  | cons x xs ih =>
    simp only [List.length_cons] at h
    unfold copy_into
    rw [ih (dst.set pos x) (pos + 1) (by rw [List.length_set]; omega),
      take_succ_set dst pos x (by omega), List.drop_set_of_lt x dst (by omega)]
    simp only [List.length_cons, List.append_assoc, List.singleton_append, List.cons_append,
      List.nil_append]
    rw [show pos + 1 + xs.length = pos + (xs.length + 1) by omega]

theorem emit_rows_eq (ss : List (List Int)) (k off : Nat) (dc : layer_data_custom)
    (hC : off + (ss.map List.length).sum ≤ dc.columns.length)
    (hR : k + ss.length ≤ dc.row_offsets.length) :
    emit_rows ss k off dc =
      ({ columns := dc.columns.take off ++
           (ss.flatten ++ dc.columns.drop (off + (ss.map List.length).sum))
         row_offsets := dc.row_offsets.take k ++
           (running_offsets ss off ++ dc.row_offsets.drop (k + ss.length)) },
       off + (ss.map List.length).sum) := by
  induction ss generalizing k off dc with
  | nil =>
    simp only [emit_rows, List.map_nil, List.sum_nil, Nat.add_zero, List.flatten_nil,
      List.nil_append, List.take_append_drop, running_offsets, List.length_nil]
  | cons s rest ih =>
    simp only [List.map_cons, List.sum_cons, List.length_cons] at hC hR
    unfold emit_rows
    rw [ih]
    · simp only
      rw [take_succ_set dc.row_offsets k _ (by omega),
        List.drop_set_of_lt _ dc.row_offsets (by omega),
        copy_into_eq dc.columns off s (by omega)]
      have e1 : (dc.columns.take off ++ (s ++ dc.columns.drop (off + s.length))).take
          (off + s.length) = dc.columns.take off ++ s := by
        rw [← List.append_assoc]
        apply List.take_left'
        simp only [List.length_append, List.length_take]
        omega
      have e2 : (dc.columns.take off ++ (s ++ dc.columns.drop (off + s.length))).drop
          (off + s.length + (rest.map List.length).sum) =
          dc.columns.drop (off + (s.length + (rest.map List.length).sum)) := by
        rw [← List.append_assoc, ← List.drop_drop, List.drop_left' (by
          simp only [List.length_append, List.length_take]
          omega), List.drop_drop, Nat.add_assoc]
      rw [e1, e2]
      simp only [List.map_cons, List.sum_cons, List.length_cons, List.flatten_cons,
        running_offsets, List.append_assoc, List.singleton_append, List.cons_append,
        List.nil_append, Prod.mk.injEq, layer_data_custom.mk.injEq]
      refine ⟨⟨trivial, ?_⟩, by omega⟩
      rw [show k + 1 + rest.length = k + (rest.length + 1) by omega]
    · simp only [copy_into_length]
      omega
    · simp only [List.length_set]
      omega

theorem int_loop_iterations_le (count : Nat) : int_loop_iterations count ≤ count := by
  unfold int_loop_iterations static_cast_int U32_MOD
  split_ifs with h
  · simp only [Int.toNat_ofNat]
    exact Nat.mod_le _ _
  · have : ((count % 4294967296 : Nat) : Int) - 4294967296 ≤ 0 := by omega
    rw [Int.toNat_of_nonpos this]
    exact Nat.zero_le _

theorem int_loop_iterations_of_lt (count : Nat) (h : count < 2147483648) :
    int_loop_iterations count = count := by
  unfold int_loop_iterations static_cast_int U32_MOD
  have e : count % 4294967296 = count := Nat.mod_eq_of_lt (by omega)
  rw [e, if_pos h]
  simp

theorem int_loop_iterations_of_ge (count : Nat) (h1 : 2147483648 ≤ count)
    (h2 : count < U32_MOD) : int_loop_iterations count = 0 := by
  unfold U32_MOD at h2
  unfold int_loop_iterations static_cast_int U32_MOD
  have e : count % 4294967296 = count := Nat.mod_eq_of_lt h2
  rw [e, if_neg (by omega)]
  exact Int.toNat_of_nonpos (by omega)

theorem fill_output_feature_map_id_list_mem (out n i : Nat) (hi : i < out) (x : Int)
    (hx : x ∈ fill_output_feature_map_id_list out n i) : 0 ≤ x ∧ x < (out : Int) := by
  induction n generalizing i with
  | zero => simp [fill_output_feature_map_id_list] at hx
  | succ n ih =>
    unfold fill_output_feature_map_id_list at hx
    rcases List.mem_cons.1 hx with h | h
    · rw [h]; omega
    · split_ifs at h with h1
      · exact ih 0 (by omega) h
      · exact ih (i + 1) (by omega) h

theorem fill_output_feature_map_id_list_length (out n i : Nat) :
    (fill_output_feature_map_id_list out n i).length = n := by
  induction n generalizing i with
  | zero => rfl
  | succ n ih => simp [fill_output_feature_map_id_list, ih]

theorem initial_invariant (d : sparse_convolution_layer) (pos : Nat) (hd : validated d) :
    placement_invariant d (initial_connection_state d pos) 0 := by
  have hc := validated_consistent d hd
  refine ⟨by simp [initial_connection_state], ?_, ?_, ?_, ?_, ?_⟩
  · simp [initial_connection_state]
  · intro s hs
    rw [List.eq_of_mem_replicate hs]
    exact List.Pairwise.nil
  · intro s hs x hx
    rw [List.eq_of_mem_replicate hs] at hx
    simp at hx
  · intro x hx
    simp only [initial_connection_state] at hx
    by_cases h0 : d.output_feature_map_count = 0
    · have hle := hc.conn_le_dense
      rw [h0] at hle hx
      unfold u32_mul at hle
      simp only [Nat.mul_zero, Nat.zero_mod, Nat.le_zero_eq] at hle
      rw [hle] at hx
      simp [u32_add, fill_output_feature_map_id_list] at hx
    · exact Or.inr (fill_output_feature_map_id_list_mem _ _ 0 (by omega) x hx)
  · intro x hx
    simp [initial_connection_state] at hx

theorem running_offsets_length (ss : List (List Int)) (off : Nat) :
    (running_offsets ss off).length = ss.length := by
  induction ss generalizing off with
  | nil => rfl
  | cons s rest ih => simp [running_offsets, ih]

theorem edge_count_zero (ss : List (List Int)) : edge_count ss 0 = 0 := by
  simp [edge_count]

theorem edge_count_cons_succ (s : List Int) (rest : List (List Int)) (k : Nat) :
    edge_count (s :: rest) (k + 1) = s.length + edge_count rest k := by
  simp [edge_count]

theorem edge_count_length (ss : List (List Int)) :
    edge_count ss ss.length = (ss.map List.length).sum := by
  simp [edge_count]

theorem edge_count_succ (ss : List (List Int)) (k : Nat) (hk : k < ss.length) :
    edge_count ss (k + 1) = edge_count ss k + (ss.getD k []).length := by
  induction ss generalizing k with
  | nil => simp at hk
  | cons s rest ih =>
    cases k with
    | zero => simp [edge_count]
    | succ k =>
      rw [edge_count_cons_succ, edge_count_cons_succ, ih k (by simpa using hk)]
      simp only [List.getD_cons_succ]
      omega

theorem running_offsets_getD (ss : List (List Int)) (off k : Nat) (hk : k ≤ ss.length) :
    (running_offsets ss off ++ [((off + (ss.map List.length).sum : Nat) : Int)]).getD k 0 =
      ((off + edge_count ss k : Nat) : Int) := by
  induction ss generalizing off k with
  | nil =>
    simp only [List.length_nil, Nat.le_zero_eq] at hk
    subst hk
    simp [running_offsets, edge_count]
  | cons s rest ih =>
    cases k with
    | zero => simp [running_offsets, edge_count]
    | succ k =>
      have := ih (off + s.length) k (by simpa using hk)
      simp only [running_offsets, List.cons_append, List.getD_cons_succ, List.map_cons,
        List.sum_cons, edge_count_cons_succ]
      rw [← Nat.add_assoc, this, Nat.add_assoc]

theorem flatten_slice (ss : List (List Int)) (tail : List Int) (k : Nat) (hk : k < ss.length) :
    ((ss.flatten ++ tail).drop (edge_count ss k)).take (ss.getD k []).length =
      ss.getD k [] := by
  induction ss generalizing k with
  | nil => simp at hk
  | cons s rest ih =>
    cases k with
    | zero =>
      simp only [edge_count_zero, List.drop_zero, List.flatten_cons, List.getD_cons_zero,
        List.append_assoc]
      exact List.take_left' rfl
    | succ k =>
      rw [edge_count_cons_succ, List.flatten_cons, List.append_assoc, ← List.drop_drop,
        List.drop_left' rfl]
      simpa using ih k (by simpa using hk)

theorem set_append_singleton (A : List Int) (b t : Int) :
    (A ++ [b]).set A.length t = A ++ [t] := by
  induction A with
  | nil => rfl
  | cons a as ih => simp [ih]

/-- The result of `randomize_custom_data` in terms of the sets the placement
loop ends with. -/
theorem randomize_custom_data_eq (d : sparse_convolution_layer) (dc : layer_data_custom)
    (generator : Nat → Nat) (pos : Nat) (hd : validated d)
    (hout : d.output_feature_map_count < 2147483648)
    (hcols : int_loop_iterations d.feature_map_connection_count ≤ dc.columns.length)
    (hrows : dc.row_offsets.length = d.output_feature_map_count + 1) :
    randomize_custom_data d dc generator pos =
      match place_connections d generator (int_loop_iterations d.feature_map_connection_count)
          (initial_connection_state d pos) with
      | .error e => .error e
      | .ok st =>
        .ok ({ columns := st.out_fm_in_fm_present_list.flatten ++
                 dc.columns.drop (int_loop_iterations d.feature_map_connection_count)
               row_offsets := running_offsets st.out_fm_in_fm_present_list 0 ++
                 [((int_loop_iterations d.feature_map_connection_count : Nat) : Int)] },
             st.generator_position) := by
  unfold randomize_custom_data
  cases hpc : place_connections d generator
      (int_loop_iterations d.feature_map_connection_count) (initial_connection_state d pos) with
  | error e => rfl
  | ok st =>
    have hinv := place_connections_invariant d generator _ _ st 0 (initial_invariant d pos hd) hpc
    have hlen := hinv.present_length
    have hsum := hinv.edges
    rw [Nat.zero_add] at hsum
    simp only
    rw [int_loop_iterations_of_lt _ hout, List.take_of_length_le (by omega),
      emit_rows_eq _ 0 0 dc (by omega) (by omega)]
    simp only [Nat.zero_add, List.take_zero, List.nil_append, hsum, hlen]
    obtain ⟨b, hb⟩ := List.length_eq_one.1
      (show (dc.row_offsets.drop d.output_feature_map_count).length = 1 by
        rw [List.length_drop]; omega)
    rw [hb]
    have := set_append_singleton (running_offsets st.out_fm_in_fm_present_list 0) b
      ((int_loop_iterations d.feature_map_connection_count : Nat) : Int)
    rw [running_offsets_length, hlen] at this
    rw [this]

/-- A completed run of `randomize_custom_data`, described by the sets `P` of
connected inputs, one for each output feature map. -/
theorem randomize_custom_data_ok (d : sparse_convolution_layer) (dc dc1 : layer_data_custom)
    (generator : Nat → Nat) (pos pos1 : Nat) (hd : validated d)
    (hout : d.output_feature_map_count < 2147483648)
    (hcols : int_loop_iterations d.feature_map_connection_count ≤ dc.columns.length)
    (hrows : dc.row_offsets.length = d.output_feature_map_count + 1)
    (h : randomize_custom_data d dc generator pos = .ok (dc1, pos1)) :
    ∃ P : List (List Int),
      P.length = d.output_feature_map_count ∧
      (P.map List.length).sum = int_loop_iterations d.feature_map_connection_count ∧
      (∀ s ∈ P, s.Pairwise (· < ·)) ∧
      (∀ s ∈ P, ∀ x ∈ s, 0 ≤ x ∧ x < (d.input_feature_map_count : Int)) ∧
      dc1.columns = P.flatten ++
        dc.columns.drop (int_loop_iterations d.feature_map_connection_count) ∧
      dc1.row_offsets.length = d.output_feature_map_count + 1 ∧
      (∀ k, k ≤ d.output_feature_map_count →
        dc1.row_offsets.getD k 0 = ((edge_count P k : Nat) : Int)) ∧
      (∀ dc2 : layer_data_custom,
        int_loop_iterations d.feature_map_connection_count ≤ dc2.columns.length →
        dc2.row_offsets.length = d.output_feature_map_count + 1 →
        randomize_custom_data d dc2 generator pos =
          .ok ({ columns := P.flatten ++
                   dc2.columns.drop (int_loop_iterations d.feature_map_connection_count)
                 row_offsets := dc1.row_offsets }, pos1)) := by
  have heq := randomize_custom_data_eq d dc generator pos hd hout hcols hrows
  rw [h] at heq
  cases hpc : place_connections d generator
      (int_loop_iterations d.feature_map_connection_count) (initial_connection_state d pos) with
  | error e => rw [hpc] at heq; exact Except.noConfusion heq
  | ok st =>
    rw [hpc] at heq
    simp only [Except.ok.injEq, Prod.mk.injEq] at heq
    obtain ⟨hdc, hpos⟩ := heq
    have hinv := place_connections_invariant d generator _ _ st 0 (initial_invariant d pos hd) hpc
    have hsum := hinv.edges
    rw [Nat.zero_add] at hsum
    refine ⟨st.out_fm_in_fm_present_list, hinv.present_length, hsum, hinv.ascending,
      hinv.inputs, by rw [hdc], ?_, ?_, ?_⟩
    · rw [hdc]
      simp only [List.length_append, running_offsets_length, List.length_singleton,
        hinv.present_length]
    · intro k hk
      have := running_offsets_getD st.out_fm_in_fm_present_list 0 k
        (by rw [hinv.present_length]; exact hk)
      rw [Nat.zero_add, Nat.zero_add, hsum] at this
      rw [hdc]
      exact this
    · intro dc2 hc2 hr2
      rw [randomize_custom_data_eq d dc2 generator pos hd hout hc2 hr2, hpc, hdc, hpos]

theorem sum_range_telescope (f : Nat → Int) (n : Nat) :
    ((List.range n).map (fun k => f (k + 1) - f k)).sum = f n - f 0 := by
  induction n with
  | zero => simp
  | succ n ih =>
    rw [List.range_succ, List.map_append, List.sum_append, ih]
    simp

/-! ## Theorems: connectivity generation (C9, C10) -/

/-- C9, as stated, fails: for the validated descriptor with 2147483648 input
feature maps, one output feature map and 2147483648 connections, the placement
loop `for (int i = 0; i < static_cast<int>(feature_map_connection_count); ++i)`
is not entered, the call completes, and the row offsets are `[0, 0]`: they end
at 0, not at `feature_map_connection_count`. -/
theorem row_offsets_end_at_zero_for_large_connection_count :
    validated ⟨[1], 2147483648, 1, 2147483648, [0], [0]⟩ ∧
    randomize_custom_data ⟨[1], 2147483648, 1, 2147483648, [0], [0]⟩
      ⟨List.replicate 2147483648 7, [7, 7]⟩ (fun _ => 0) 0 =
      .ok (⟨List.replicate 2147483648 7, [0, 0]⟩, 0) ∧
    ([0, 0] : List Int).getD 1 0 ≠ 2147483648 := by
  refine ⟨by decide, ?_, by decide⟩
  rw [randomize_custom_data_eq ⟨[1], 2147483648, 1, 2147483648, [0], [0]⟩
    ⟨List.replicate 2147483648 7, [7, 7]⟩ (fun _ => 0) 0 (by decide) (by decide)
    (by rw [int_loop_iterations_of_ge _ (by decide) (by decide)]; exact Nat.zero_le _) rfl]
  simp only [int_loop_iterations_of_ge 2147483648 (by decide) (by decide), place_connections,
    initial_connection_state, List.drop_zero]
  rfl

/-- C9, amended: for every validated descriptor with
`feature_map_connection_count < 2^31`, every `data_custom` sized as
`get_data_custom_config` declares and every sequence of generator outputs for
which `randomize_custom_data` completes, the emitted row offsets (O+1 entries,
O = `output_feature_map_count`) start at 0, are non-decreasing and end at
`feature_map_connection_count`; the per-output counts
`row_offsets[k+1] - row_offsets[k]` sum to `feature_map_connection_count`;
and exactly that many column entries are written: the result has
`feature_map_connection_count` columns and does not depend on what
`data_custom` held before. -/
theorem csr_row_offsets_of_completed_run (d : sparse_convolution_layer)
    (dc dc1 : layer_data_custom) (generator : Nat → Nat) (pos pos1 : Nat)
    (hd : validated d) (hconn : d.feature_map_connection_count < 2147483648)
    (hcols : dc.columns.length = d.feature_map_connection_count)
    (hrows : dc.row_offsets.length = d.output_feature_map_count + 1)
    (h : randomize_custom_data d dc generator pos = .ok (dc1, pos1)) :
    dc1.row_offsets.length = d.output_feature_map_count + 1 ∧
    dc1.row_offsets.getD 0 0 = 0 ∧
    (∀ k, k < d.output_feature_map_count →
      dc1.row_offsets.getD k 0 ≤ dc1.row_offsets.getD (k + 1) 0) ∧
    dc1.row_offsets.getD d.output_feature_map_count 0 =
      (d.feature_map_connection_count : Int) ∧
    ((List.range d.output_feature_map_count).map
      (fun k => dc1.row_offsets.getD (k + 1) 0 - dc1.row_offsets.getD k 0)).sum =
      (d.feature_map_connection_count : Int) ∧
    dc1.columns.length = d.feature_map_connection_count ∧
    (∀ dc2 : layer_data_custom,
      dc2.columns.length = d.feature_map_connection_count →
      dc2.row_offsets.length = d.output_feature_map_count + 1 →
      randomize_custom_data d dc2 generator pos = .ok (dc1, pos1)) := by
  have hc := validated_consistent d hd
  have hout : d.output_feature_map_count < 2147483648 :=
    lt_of_le_of_lt hc.conn_ge_out hconn
  have hit := int_loop_iterations_of_lt _ hconn
  obtain ⟨P, hlen, hsum, -, -, hcol1, hrl, hget, hind⟩ :=
    randomize_custom_data_ok d dc dc1 generator pos pos1 hd hout (by omega) hrows h
  rw [hit] at hsum hcol1 hind
  have hdrop : ∀ dc2 : layer_data_custom,
      dc2.columns.length = d.feature_map_connection_count →
      dc2.columns.drop d.feature_map_connection_count = [] :=
    fun dc2 h2 => List.drop_eq_nil_of_le (by omega)
  rw [hdrop dc hcols, List.append_nil] at hcol1
  have hlast : dc1.row_offsets.getD d.output_feature_map_count 0 =
      (d.feature_map_connection_count : Int) := by
    rw [hget _ (le_refl _), ← hlen, edge_count_length, hsum]
  have hfirst : dc1.row_offsets.getD 0 0 = 0 := by
    rw [hget 0 (Nat.zero_le _), edge_count_zero]
    rfl
  refine ⟨hrl, hfirst, fun k hk => ?_, hlast, ?_, ?_, fun dc2 hc2 hr2 => ?_⟩
  · rw [hget k (by omega), hget (k + 1) (by omega), edge_count_succ P k (by omega)]
    omega
  · rw [sum_range_telescope (fun k => dc1.row_offsets.getD k 0), hlast, hfirst]
    omega
  · rw [hcol1, List.length_flatten, hsum]
  · rw [hind dc2 (by omega) hr2, hdrop dc2 hc2, List.append_nil, ← hcol1]

set_option maxRecDepth 4000 in
/-- C9, amended, at the scenario of the specification with the generator
outputs 0, 1, 2, ...: the run completes with the row offsets 0, 3, 6, which
start at 0 and end at the connection count 6, and six columns. -/
theorem csr_row_offsets_of_completed_run_witness :
    validated ⟨[3, 3], 4, 2, 6, [0, 0], [0, 0]⟩ ∧
    randomize_custom_data ⟨[3, 3], 4, 2, 6, [0, 0], [0, 0]⟩ ⟨[9, 9, 9, 9, 9, 9], [9, 9, 9]⟩
      (fun n => n) 0 = .ok (⟨[0, 1, 3, 0, 2, 3], [0, 3, 6]⟩, 5) ∧
    (⟨[0, 1, 3, 0, 2, 3], [0, 3, 6]⟩ : layer_data_custom).row_offsets.getD 0 0 = 0 ∧
    (⟨[0, 1, 3, 0, 2, 3], [0, 3, 6]⟩ : layer_data_custom).row_offsets.getD 2 0 = 6 ∧
    (⟨[0, 1, 3, 0, 2, 3], [0, 3, 6]⟩ : layer_data_custom).columns.length = 6 :=
  ⟨by decide, by decide,
   (csr_row_offsets_of_completed_run ⟨[3, 3], 4, 2, 6, [0, 0], [0, 0]⟩
      ⟨[9, 9, 9, 9, 9, 9], [9, 9, 9]⟩ ⟨[0, 1, 3, 0, 2, 3], [0, 3, 6]⟩ (fun n => n) 0 5
      (by decide) (by decide) rfl rfl (by decide)).2.1,
   (csr_row_offsets_of_completed_run ⟨[3, 3], 4, 2, 6, [0, 0], [0, 0]⟩
      ⟨[9, 9, 9, 9, 9, 9], [9, 9, 9]⟩ ⟨[0, 1, 3, 0, 2, 3], [0, 3, 6]⟩ (fun n => n) 0 5
      (by decide) (by decide) rfl rfl (by decide)).2.2.2.1,
   (csr_row_offsets_of_completed_run ⟨[3, 3], 4, 2, 6, [0, 0], [0, 0]⟩
      ⟨[9, 9, 9, 9, 9, 9], [9, 9, 9]⟩ ⟨[0, 1, 3, 0, 2, 3], [0, 3, 6]⟩ (fun n => n) 0 5
      (by decide) (by decide) rfl rfl (by decide)).2.2.2.2.2.1⟩

theorem getD_set_ne (l : List Int) (i j : Nat) (a : Int) (h : i ≠ j) :
    (l.set i a).getD j 0 = l.getD j 0 := by
  simp only [List.getD_eq_getElem?_getD, List.getElem?_set_ne h]

/-- C10, as stated, fails: for the validated descriptor with one input
feature map, 2147483648 output feature maps and 2147483648 connections,
neither the placement loop nor the loop `for (int output_feature_map_id = 0;
output_feature_map_id < static_cast<int>(output_feature_map_count); ...)` is
entered, the call completes and only `row_offsets[output_feature_map_count]`
is written; the slice of output feature map 0 is then whatever `data_custom`
held, here `5, 3`: neither ascending nor below `input_feature_map_count`. -/
theorem slices_keep_previous_content_for_large_output_count :
    validated ⟨[1], 1, 2147483648, 2147483648, [0], [0]⟩ ∧
    (5 :: 3 :: List.replicate 2147483646 (0 : Int)).length = 2147483648 ∧
    (0 :: 2 :: List.replicate 2147483647 (0 : Int)).length = 2147483648 + 1 ∧
    randomize_custom_data ⟨[1], 1, 2147483648, 2147483648, [0], [0]⟩
      ⟨5 :: 3 :: List.replicate 2147483646 0, 0 :: 2 :: List.replicate 2147483647 0⟩
      (fun _ => 0) 0 =
      .ok (⟨5 :: 3 :: List.replicate 2147483646 0,
            (0 :: 2 :: List.replicate 2147483647 0).set 2147483648 0⟩, 0) ∧
    csr_slice ⟨5 :: 3 :: List.replicate 2147483646 0,
        (0 :: 2 :: List.replicate 2147483647 0).set 2147483648 0⟩ 0 = [5, 3] ∧
    ¬ ([5, 3] : List Int).Pairwise (· < ·) ∧
    ¬ ((5 : Int) < ((1 : Nat) : Int)) := by
  refine ⟨by decide, by rw [List.length_cons, List.length_cons, List.length_replicate],
    by rw [List.length_cons, List.length_cons, List.length_replicate], ?_, ?_,
    by decide, by decide⟩
  · simp only [randomize_custom_data,
      int_loop_iterations_of_ge 2147483648 (by decide) (by decide), place_connections,
      List.take_zero, emit_rows]
    rfl
  · unfold csr_slice
    simp only [getD_set_ne _ 2147483648 0 _ (by decide),
      getD_set_ne _ 2147483648 1 _ (by decide)]
    rfl

/-- C10, amended: for every validated descriptor with
`output_feature_map_count < 2^31`, every `data_custom` sized as
`get_data_custom_config` declares and every sequence of generator outputs for
which `randomize_custom_data` completes, for each output feature map k the
slice `columns[row_offsets[k] .. row_offsets[k+1])` is strictly ascending and
every entry is an input index in `[0, input_feature_map_count)`; hence no
entry occurs twice in a slice, that is, no (input, output) pair occurs
twice. -/
theorem csr_slices_strictly_ascending (d : sparse_convolution_layer)
    (dc dc1 : layer_data_custom) (generator : Nat → Nat) (pos pos1 : Nat)
    (hd : validated d) (hout : d.output_feature_map_count < 2147483648)
    (hcols : dc.columns.length = d.feature_map_connection_count)
    (hrows : dc.row_offsets.length = d.output_feature_map_count + 1)
    (h : randomize_custom_data d dc generator pos = .ok (dc1, pos1)) :
    ∀ k, k < d.output_feature_map_count →
      (csr_slice dc1 k).Pairwise (· < ·) ∧
      (∀ x ∈ csr_slice dc1 k, 0 ≤ x ∧ x < (d.input_feature_map_count : Int)) ∧
      (csr_slice dc1 k).Nodup := by
  intro k hk
  obtain ⟨P, hlen, -, hasc, hin, hcol1, -, hget, -⟩ :=
    randomize_custom_data_ok d dc dc1 generator pos pos1 hd hout
      (by rw [hcols]; exact int_loop_iterations_le _) hrows h
  have hslice : csr_slice dc1 k = P.getD k [] := by
    unfold csr_slice
    rw [hget k (by omega), hget (k + 1) (by omega), edge_count_succ P k (by omega), hcol1]
    simp only [Int.toNat_ofNat, Nat.add_sub_cancel_left]
    exact flatten_slice P _ k (by omega)
  have hmem : P.getD k [] ∈ P := by
    rw [List.getD_eq_getElem _ _ (by omega)]
    exact List.getElem_mem _
  rw [hslice]
  exact ⟨hasc _ hmem, hin _ hmem, (hasc _ hmem).imp (fun hab => ne_of_lt hab)⟩

set_option maxRecDepth 4000 in
/-- C10, amended, at the scenario of the specification with the generator
outputs 3, 10, 17, ...: the run completes and the slice of the second output
feature map, `0, 1, 3`, is strictly ascending with entries below 4. -/
theorem csr_slices_strictly_ascending_witness :
    validated ⟨[3, 3], 4, 2, 6, [0, 0], [0, 0]⟩ ∧
    randomize_custom_data ⟨[3, 3], 4, 2, 6, [0, 0], [0, 0]⟩ ⟨[9, 9, 9, 9, 9, 9], [9, 9, 9]⟩
      (fun n => 7 * n + 3) 0 = .ok (⟨[0, 2, 3, 0, 1, 3], [0, 3, 6]⟩, 5) ∧
    csr_slice ⟨[0, 2, 3, 0, 1, 3], [0, 3, 6]⟩ 1 = [0, 1, 3] ∧
    (csr_slice ⟨[0, 2, 3, 0, 1, 3], [0, 3, 6]⟩ 1).Pairwise (· < ·) ∧
    (∀ x ∈ csr_slice ⟨[0, 2, 3, 0, 1, 3], [0, 3, 6]⟩ 1, 0 ≤ x ∧ x < ((4 : Nat) : Int)) :=
  ⟨by decide, by decide, by decide,
   (csr_slices_strictly_ascending ⟨[3, 3], 4, 2, 6, [0, 0], [0, 0]⟩
      ⟨[9, 9, 9, 9, 9, 9], [9, 9, 9]⟩ ⟨[0, 2, 3, 0, 1, 3], [0, 3, 6]⟩ (fun n => 7 * n + 3) 0 5
      (by decide) (by decide) rfl rfl (by decide) 1 (by decide)).1,
   (csr_slices_strictly_ascending ⟨[3, 3], 4, 2, 6, [0, 0], [0, 0]⟩
      ⟨[9, 9, 9, 9, 9, 9], [9, 9, 9]⟩ ⟨[0, 2, 3, 0, 1, 3], [0, 3, 6]⟩ (fun n => 7 * n + 3) 0 5
      (by decide) (by decide) rfl rfl (by decide) 1 (by decide)).2.1⟩

/-! ## Lemmas: input regions, data sizes and cost estimates -/

theorem foldl_u32_mul (ws : List Nat) (a : Nat) (ha : a < U32_MOD) :
    ws.foldl u32_mul a = (a * ws.prod) % U32_MOD := by
  induction ws generalizing a with
  | nil => simp [Nat.mod_eq_of_lt ha]
  | cons w ws ih =>
    rw [List.foldl_cons, ih (u32_mul a w) (Nat.mod_lt _ (by decide)), List.prod_cons]
    unfold u32_mul
    rw [Nat.mod_mul_mod, Nat.mul_assoc]

theorem foldl_u32_mul_of_ne_nil (ws : List Nat) (a : Nat) (hws : ws ≠ []) :
    ws.foldl u32_mul a = (a * ws.prod) % U32_MOD := by
  cases ws with
  | nil => exact absurd rfl hws
  | cons w ws =>
    rw [List.foldl_cons, foldl_u32_mul ws (u32_mul a w) (Nat.mod_lt _ (by decide)),
      List.prod_cons]
    unfold u32_mul
    rw [Nat.mod_mul_mod, Nat.mul_assoc]

theorem prod_pos_of_ne_zero (ws : List Nat) (h : ∀ w ∈ ws, w ≠ 0) : 0 < ws.prod := by
  induction ws with
  | nil => simp
  | cons w ws ih =>
    rw [List.prod_cons]
    exact Nat.mul_pos (Nat.pos_of_ne_zero (h w (List.mem_cons_self _ _)))
      (ih (fun x hx => h x (List.mem_cons_of_mem _ hx)))

theorem float_round_of_le (n : Nat) (h : n ≤ 16777216) : float_round n = n := by
  rcases Nat.lt_or_ge n 16777216 with h1 | h1
  · unfold float_round
    have he : float_exponent 64 n = 0 := by
      simp [float_exponent, h1]
    simp [he, Nat.mod_one]
  · have : n = 16777216 := by omega
    subst this
    decide

theorem float_round_zero : float_round 0 = 0 := by decide
theorem vector_to_bytes_append (xs ys : List Nat) :
    vector_to_bytes (xs ++ ys) = vector_to_bytes xs ++ vector_to_bytes ys := by
  induction xs with
  | nil => rfl
  | cons x xs ih =>
    show u32_to_bytes x ++ vector_to_bytes (xs ++ ys) =
      (u32_to_bytes x ++ vector_to_bytes xs) ++ vector_to_bytes ys
    rw [ih, List.append_assoc]

theorem vector_to_bytes_cons (x : Nat) (xs : List Nat) :
    vector_to_bytes (x :: xs) = u32_to_bytes x ++ vector_to_bytes xs := rfl

theorem vector_to_bytes_nil : vector_to_bytes [] = [] := rfl

theorem write_eq_words (d : sparse_convolution_layer) (hd : validated d)
    (hD : d.window_sizes.length < U32_MOD) :
    write d = vector_to_bytes (spec_serialized_words d) := by
  have hc := validated_consistent d hd
  unfold write spec_serialized_words
  simp only [Nat.mod_eq_of_lt hD, List.take_length, vector_to_bytes_append,
    vector_to_bytes_cons, vector_to_bytes_nil, List.append_assoc, List.append_nil]
  rw [← hc.left_len, List.take_length, hc.left_len, ← hc.right_len, List.take_length]

/-! ## Theorems: layout, sizes, regions, costs (C19, C17, C14, C15, C16) -/

/-- C19: layout of the serialized form.  For every validated descriptor (of
`unsigned int` members) with D dimensions, `write` emits exactly the storage of
the 4 + 3 * D words `input_feature_map_count`, `output_feature_map_count`,
`feature_map_connection_count`, D, the D window sizes, the D left paddings and
the D right paddings, in this order, that is 16 + 12 * D bytes; decoding the
bytes gives these words back.  `write` takes no tag and has no branch: the
padding fields are always emitted. -/
theorem write_emits_words_in_order (d : sparse_convolution_layer) (hd : validated d)
    (hu : layer_is_u32 d) :
    write d = vector_to_bytes (spec_serialized_words d) ∧
    (spec_serialized_words d).length = 4 + 3 * d.window_sizes.length ∧
    (write d).length = 16 + 12 * d.window_sizes.length ∧
    bytes_to_vector (4 + 3 * d.window_sizes.length) (write d) = spec_serialized_words d := by
  have hc := validated_consistent d hd
  obtain ⟨ha, hb, hcn, hD, hws, hls, hrs⟩ := hu
  have hlen : (spec_serialized_words d).length = 4 + 3 * d.window_sizes.length := by
    unfold spec_serialized_words
    simp only [List.length_append, List.length_cons, List.length_nil, hc.left_len,
      hc.right_len]
    omega
  have hw := write_eq_words d hd hD
  refine ⟨hw, hlen, ?_, ?_⟩
  · rw [hw, vector_to_bytes_length, hlen]
    omega
  · have hall : ∀ x ∈ spec_serialized_words d, x < U32_MOD := by
      intro x hx
      unfold spec_serialized_words at hx
      simp only [List.mem_append, List.mem_cons, List.mem_nil_iff, or_false] at hx
      rcases hx with ((((h | h | h | h) | h) | h) | h)
      · exact h ▸ ha
      · exact h ▸ hb
      · exact h ▸ hcn
      · exact h ▸ hD
      · exact hws x h
      · exact hls x h
      · exact hrs x h
    have h := bytes_to_vector_append (spec_serialized_words d) hall []
    rw [List.append_nil, hlen] at h
    rw [hw]
    exact h

/-- C19 at the scenario of the specification with paddings `[1, 2]` and
`[0, 1]`: ten words, forty bytes. -/
theorem write_emits_words_in_order_witness :
    validated ⟨[3, 3], 4, 2, 6, [1, 2], [0, 1]⟩ ∧
    layer_is_u32 ⟨[3, 3], 4, 2, 6, [1, 2], [0, 1]⟩ ∧
    write ⟨[3, 3], 4, 2, 6, [1, 2], [0, 1]⟩ =
      vector_to_bytes [4, 2, 6, 2, 3, 3, 1, 2, 0, 1] ∧
    (write ⟨[3, 3], 4, 2, 6, [1, 2], [0, 1]⟩).length = 40 :=
  ⟨by decide, by decide,
   (write_emits_words_in_order ⟨[3, 3], 4, 2, 6, [1, 2], [0, 1]⟩ (by decide) (by decide)).1,
   (write_emits_words_in_order ⟨[3, 3], 4, 2, 6, [1, 2], [0, 1]⟩ (by decide)
     (by decide)).2.2.1⟩

/-- C17 fails on the code as worded: the validated descriptor with window
sizes `[2]`, 1 input and 4294967295 output feature maps and 4294967295
connections declares 4294967294 weights, not 4294967295 * 2 = 8589934590, and
0 row offsets, not 4294967295 + 1 (both are computed in `unsigned int`). -/
theorem data_sizes_wrap_for_large_counts :
    validated ⟨[2], 1, 4294967295, 4294967295, [0], [0]⟩ ∧
    layer_is_u32 ⟨[2], 1, 4294967295, 4294967295, [0], [0]⟩ ∧
    get_data_config ⟨[2], 1, 4294967295, 4294967295, [0], [0]⟩ = [4294967294, 4294967295] ∧
    get_data_custom_config ⟨[2], 1, 4294967295, 4294967295, [0], [0]⟩ = [4294967295, 0] ∧
    (4294967294 : Nat) ≠ 4294967295 * [2].prod ∧
    (0 : Nat) ≠ 4294967295 + 1 := by
  decide

/-- C17, amended: for every validated descriptor `get_data_config` returns
`[feature_map_connection_count * product(window_sizes) mod 2^32,
output_feature_map_count]` and `get_data_custom_config` returns
`[feature_map_connection_count, (output_feature_map_count + 1) mod 2^32]`;
these are the sizes of the data model whenever the weight count and
`output_feature_map_count + 1` are below 2^32. -/
theorem data_sizes_modulo (d : sparse_convolution_layer) (hd : validated d) :
    get_data_config d =
      [(d.feature_map_connection_count * d.window_sizes.prod) % U32_MOD,
        d.output_feature_map_count] ∧
    get_data_custom_config d =
      [d.feature_map_connection_count, (d.output_feature_map_count + 1) % U32_MOD] ∧
    (d.feature_map_connection_count * d.window_sizes.prod < U32_MOD →
      get_data_config d =
        [d.feature_map_connection_count * d.window_sizes.prod, d.output_feature_map_count]) ∧
    (d.output_feature_map_count + 1 < U32_MOD →
      get_data_custom_config d =
        [d.feature_map_connection_count, d.output_feature_map_count + 1]) := by
  have hc := validated_consistent d hd
  have h1 : get_data_config d =
      [(d.feature_map_connection_count * d.window_sizes.prod) % U32_MOD,
        d.output_feature_map_count] := by
    unfold get_data_config
    simp only [foldl_u32_mul_of_ne_nil _ _ hc.window_ne]
  have h2 : get_data_custom_config d =
      [d.feature_map_connection_count, (d.output_feature_map_count + 1) % U32_MOD] := rfl
  refine ⟨h1, h2, fun h => ?_, fun h => ?_⟩
  · rw [h1, Nat.mod_eq_of_lt h]
  · rw [h2, Nat.mod_eq_of_lt h]

/-- C17 at the scenario of the specification: window sizes `[3, 3]`, 6
connections and 2 output feature maps give 54 weights and 2 biases, 6 column
indices and 3 row offsets. -/
theorem data_sizes_modulo_witness :
    validated ⟨[3, 3], 4, 2, 6, [0, 0], [0, 0]⟩ ∧
    get_data_config ⟨[3, 3], 4, 2, 6, [0, 0], [0, 0]⟩ = [54, 2] ∧
    get_data_custom_config ⟨[3, 3], 4, 2, 6, [0, 0], [0, 0]⟩ = [6, 3] :=
  ⟨by decide,
   (data_sizes_modulo ⟨[3, 3], 4, 2, 6, [0, 0], [0, 0]⟩ (by decide)).2.2.1 (by decide),
   (data_sizes_modulo ⟨[3, 3], 4, 2, 6, [0, 0], [0, 0]⟩ (by decide)).2.2.2 (by decide)⟩
theorem static_cast_int_of_lt (x : Nat) (h : x < 2147483648) : static_cast_int x = x := by
  unfold static_cast_int U32_MOD
  split_ifs <;> omega

theorem input_start_of_small (first left : Nat) (hf : first < 2147483648)
    (hl : left < 2147483648) :
    static_cast_unsigned (max 0 (i32_wrap (static_cast_int first - static_cast_int left))) =
      first - left := by
  rw [static_cast_int_of_lt first hf, static_cast_int_of_lt left hl]
  unfold static_cast_unsigned i32_wrap
  omega

theorem input_end_modulo (second w left : Nat) (hl : left < w)
    (hlu : left < U32_MOD) :
    u32_sub (u32_sub (u32_add second w) 1) left = (second + w - 1 - left) % U32_MOD := by
  unfold u32_sub u32_add U32_MOD at *
  omega

theorem get_input_rectangle_borders_ok (d : sparse_convolution_layer)
    (borders : List (Nat × Nat)) (hlen : borders.length = d.window_sizes.length) :
    ∃ res, get_input_rectangle_borders d borders = .ok res ∧
      res.length = d.window_sizes.length ∧
      ∀ i, i < d.window_sizes.length →
        res.getD i (0, 0) =
          (static_cast_unsigned (max 0 (i32_wrap
              (static_cast_int (borders.getD i (0, 0)).1 -
                static_cast_int (d.left_zero_padding.getD i 0)))),
           u32_sub (u32_sub (u32_add (borders.getD i (0, 0)).2 (d.window_sizes.getD i 0)) 1)
             (d.left_zero_padding.getD i 0)) := by
  unfold get_input_rectangle_borders
  rw [if_neg (by simpa using hlen)]
  refine ⟨_, rfl, by simp, fun i hi => ?_⟩
  rw [List.getD_eq_getElem _ _ (by simpa using hi)]
  simp

/-- C14 fails on the code as worded: for the validated descriptor with window
size 3 and left padding 1, the output region `(2147483649, 4294967295)` gives
the input region `(0, 0)`, not `(2147483648, 4294967296)`: the start is
converted to `int` before the subtraction and is negative there, and the end
is computed in `unsigned int`. -/
theorem input_region_of_large_borders :
    validated ⟨[3], 1, 1, 1, [1], [0]⟩ ∧
    get_input_rectangle_borders ⟨[3], 1, 1, 1, [1], [0]⟩ [(2147483649, 4294967295)] =
      .ok [(0, 0)] ∧
    (0 : Int) ≠ max 0 (2147483649 - 1) ∧
    (0 : Int) ≠ 4294967295 + 3 - 1 - 1 := by
  decide

/-- C14, amended: for every validated descriptor (of `unsigned int` members)
with D dimensions, `get_input_rectangle_borders` throws the dimension count
mismatch exactly when the region does not have D pairs, and otherwise returns
D pairs; in dimension `i` the end is
`output.end[i] + window_sizes[i] - 1 - left_zero_padding[i]` reduced modulo
2^32 (the difference itself is never negative, and it is the exact value
whenever `output.end[i] + window_sizes[i] - 1` is below 2^32), and the start is
`max(0, output.start[i] - left_zero_padding[i])` whenever `output.start[i]` and
`left_zero_padding[i]` are below 2^31. -/
theorem input_region_exact_in_range (d : sparse_convolution_layer)
    (borders : List (Nat × Nat)) (hd : validated d) (hu : layer_is_u32 d) :
    ((∃ e, get_input_rectangle_borders d borders = .error e) ↔
      borders.length ≠ d.window_sizes.length) ∧
    (borders.length ≠ d.window_sizes.length →
      get_input_rectangle_borders d borders =
        .error .output_borders_dimension_count_mismatch) ∧
    (borders.length = d.window_sizes.length →
      ∃ res, get_input_rectangle_borders d borders = .ok res ∧
        res.length = d.window_sizes.length ∧
        ∀ i, i < d.window_sizes.length →
          d.left_zero_padding.getD i 0 ≤
            (borders.getD i (0, 0)).2 + d.window_sizes.getD i 0 - 1 ∧
          (res.getD i (0, 0)).2 =
            ((borders.getD i (0, 0)).2 + d.window_sizes.getD i 0 - 1 -
              d.left_zero_padding.getD i 0) % U32_MOD ∧
          ((borders.getD i (0, 0)).2 + d.window_sizes.getD i 0 - 1 < U32_MOD →
            (res.getD i (0, 0)).2 =
              (borders.getD i (0, 0)).2 + d.window_sizes.getD i 0 - 1 -
                d.left_zero_padding.getD i 0) ∧
          ((borders.getD i (0, 0)).1 < 2147483648 →
            d.left_zero_padding.getD i 0 < 2147483648 →
            ((res.getD i (0, 0)).1 : Int) =
              max 0 (((borders.getD i (0, 0)).1 : Int) -
                (d.left_zero_padding.getD i 0 : Int)))) := by
  have hc := validated_consistent d hd
  have hne : borders.length ≠ d.window_sizes.length →
      get_input_rectangle_borders d borders =
        .error .output_borders_dimension_count_mismatch := by
    intro h
    unfold get_input_rectangle_borders
    rw [if_pos h]
  refine ⟨⟨fun ⟨e, he⟩ hlen => ?_, fun h => ⟨_, hne h⟩⟩, hne, fun hlen => ?_⟩
  · obtain ⟨res, hres, _⟩ := get_input_rectangle_borders_ok d borders hlen
    rw [hres] at he
    exact Except.noConfusion he
  · obtain ⟨res, hres, hl, hall⟩ := get_input_rectangle_borders_ok d borders hlen
    refine ⟨res, hres, hl, fun i hi => ?_⟩
    have hlt := hc.left_lt i hi
    have hlu : d.left_zero_padding.getD i 0 < U32_MOD := by
      have hi2 : i < d.left_zero_padding.length := by rw [hc.left_len]; exact hi
      rw [List.getD_eq_getElem _ _ hi2]
      exact hu.2.2.2.2.2.1 _ (List.getElem_mem _)
    have hend := input_end_modulo (borders.getD i (0, 0)).2 _ _ hlt hlu
    rw [hall i hi]
    refine ⟨by omega, hend, fun hb => ?_, fun hs hl2 => ?_⟩
    · rw [hend]
      exact Nat.mod_eq_of_lt (by omega)
    · show ((static_cast_unsigned _ : Nat) : Int) = _
      rw [input_start_of_small _ _ hs hl2]
      omega

/-- C14 at a two-dimensional region: window sizes `[3, 3]`, left paddings
`[1, 2]`, output region `(0, 2) x (4, 6)` give the input region
`(0, 3) x (2, 6)`. -/
theorem input_region_exact_in_range_witness :
    validated ⟨[3, 3], 4, 2, 6, [1, 2], [0, 1]⟩ ∧
    layer_is_u32 ⟨[3, 3], 4, 2, 6, [1, 2], [0, 1]⟩ ∧
    ((∃ e, get_input_rectangle_borders ⟨[3, 3], 4, 2, 6, [1, 2], [0, 1]⟩ [(0, 2), (4, 6)] =
        .error e) ↔
      [((0 : Nat), (2 : Nat)), (4, 6)].length ≠ [3, 3].length) ∧
    get_input_rectangle_borders ⟨[3, 3], 4, 2, 6, [1, 2], [0, 1]⟩ [(0, 2), (4, 6)] =
      .ok [(0, 3), (2, 6)] :=
  ⟨by decide, by decide,
   (input_region_exact_in_range ⟨[3, 3], 4, 2, 6, [1, 2], [0, 1]⟩ [(0, 2), (4, 6)]
     (by decide) (by decide)).1,
   by decide⟩
theorem get_neuron_count_per_feature_map_eq (c : layer_configuration_specific) :
    get_neuron_count_per_feature_map c = c.dimension_sizes.prod % U32_MOD := by
  unfold get_neuron_count_per_feature_map
  rw [foldl_u32_mul _ 1 (by decide), Nat.one_mul]

theorem per_item_flops_eq (d : sparse_convolution_layer) :
    d.window_sizes.foldl u32_mul (u32_mul d.feature_map_connection_count 2) =
      (d.feature_map_connection_count * d.window_sizes.prod * 2) % U32_MOD := by
  rw [foldl_u32_mul d.window_sizes (u32_mul d.feature_map_connection_count 2)
    (Nat.mod_lt _ (by decide))]
  unfold u32_mul
  rw [Nat.mod_mul_mod, Nat.mul_right_comm]

theorem output_dimension_sizes_pos (d : sparse_convolution_layer)
    (inp c : layer_configuration_specific) (hd : validated d)
    (h : get_output_layer_configuration_specific d inp = .ok c) :
    ∀ x ∈ c.dimension_sizes, x ≠ 0 := by
  have hc := validated_consistent d hd
  unfold get_output_layer_configuration_specific at h
  split_ifs at h with h1 h2
  cases hrec : output_dimension_sizes d inp.dimension_sizes 0 d.window_sizes.length with
  | error e => rw [hrec] at h; exact Except.noConfusion h
  | ok dims =>
    rw [hrec] at h
    simp only [Except.ok.injEq] at h
    subst h
    obtain ⟨hlen, hall⟩ := output_dimension_sizes_ok _ _ _ _ _ hrec
    intro x hx
    obtain ⟨i, hi, hxi⟩ := List.getElem_of_mem hx
    have hi2 : i < d.window_sizes.length := by rw [← hlen]; exact hi
    obtain ⟨hle, hval⟩ := hall i hi2
    simp only [Nat.zero_add] at hle hval
    have hwpos : d.window_sizes.getD i 0 ≠ 0 := by
      rw [List.getD_eq_getElem _ _ hi2]
      exact hc.window_pos _ (List.getElem_mem _)
    have hmod : total_input_dimension_size d inp.dimension_sizes i < U32_MOD :=
      Nat.mod_lt _ (by decide)
    rw [u32_sub_succ _ _ hmod hwpos hle, List.getD_eq_getElem _ _ hi] at hval
    show x ≠ 0
    rw [← hxi, hval]
    exact Nat.succ_ne_zero _

theorem get_forward_flops_eq (d : sparse_convolution_layer)
    (inp c : layer_configuration_specific)
    (h : get_output_layer_configuration_specific d inp = .ok c) :
    get_forward_flops d inp =
      .ok (float_round (float_round (c.dimension_sizes.prod % U32_MOD) *
        float_round (u32_sub
          ((d.feature_map_connection_count * d.window_sizes.prod * 2) % U32_MOD) 1))) := by
  unfold get_forward_flops
  rw [h]
  simp only [get_neuron_count_per_feature_map_eq, per_item_flops_eq, float_mul]

theorem get_backward_flops_eq (d : sparse_convolution_layer)
    (inp c : layer_configuration_specific)
    (h : get_output_layer_configuration_specific d inp = .ok c) :
    get_backward_flops d inp =
      .ok (float_round (float_round (c.dimension_sizes.prod % U32_MOD) *
        float_round ((d.feature_map_connection_count * d.window_sizes.prod * 2) %
          U32_MOD))) := by
  unfold get_backward_flops
  rw [h]
  simp only [get_neuron_count_per_feature_map_eq, per_item_flops_eq, float_mul]

theorem le_of_mul_le_of_pos (n p b : Nat) (hp : 0 < p) (h : n * p ≤ b) : n ≤ b :=
  Nat.le_trans (Nat.le_mul_of_pos_right n hp) h

/-- C15 fails on the code as worded: for the validated descriptor with window
size 1, 8388609 input feature maps, 1 output feature map and 8388609
connections, and the input shape of one neuron per feature map, the output has
one neuron and `get_forward_flops` returns 16777216, not
1 * (8388609 * 1 * 2 - 1) = 16777217, which no `float` holds. -/
theorem forward_flops_rounded_to_float :
    validated ⟨[1], 8388609, 1, 8388609, [0], [0]⟩ ∧
    get_output_layer_configuration_specific ⟨[1], 8388609, 1, 8388609, [0], [0]⟩
      ⟨8388609, [1]⟩ = .ok ⟨1, [1]⟩ ∧
    get_forward_flops ⟨[1], 8388609, 1, 8388609, [0], [0]⟩ ⟨8388609, [1]⟩ = .ok 16777216 ∧
    spec_forward_flops ⟨[1], 8388609, 1, 8388609, [0], [0]⟩ ⟨1, [1]⟩ = 16777217 := by
  decide

/-- C15, amended: for every validated descriptor and every input shape for
which `get_output_layer_configuration_specific` succeeds, `get_forward_flops`
returns the `float` product of the conversions to `float` of the two
`unsigned int` values `output_neuron_count mod 2^32` and
`feature_map_connection_count * window_volume * 2 - 1 mod 2^32`; this is
`output_neuron_count * (feature_map_connection_count * window_volume * 2 - 1)`
whenever the descriptor has a connection and that value is at most 2^24. -/
theorem forward_flops_exact_up_to_2_pow_24 (d : sparse_convolution_layer)
    (inp c : layer_configuration_specific) (hd : validated d)
    (h : get_output_layer_configuration_specific d inp = .ok c) :
    get_forward_flops d inp =
      .ok (float_round (float_round (c.dimension_sizes.prod % U32_MOD) *
        float_round (u32_sub
          ((d.feature_map_connection_count * d.window_sizes.prod * 2) % U32_MOD) 1))) ∧
    (0 < d.feature_map_connection_count → spec_forward_flops d c ≤ 16777216 →
      ∃ v, get_forward_flops d inp = .ok v ∧ (v : Int) = spec_forward_flops d c) := by
  have hc := validated_consistent d hd
  have heq := get_forward_flops_eq d inp c h
  refine ⟨heq, fun hpos hb => ?_⟩
  have hN : 0 < c.dimension_sizes.prod :=
    prod_pos_of_ne_zero _ (output_dimension_sizes_pos d inp c hd h)
  have hW : 0 < d.window_sizes.prod := prod_pos_of_ne_zero _ hc.window_pos
  have hCW : 0 < d.feature_map_connection_count * d.window_sizes.prod := Nat.mul_pos hpos hW
  generalize hq : d.feature_map_connection_count * d.window_sizes.prod = q at *
  generalize hn : c.dimension_sizes.prod = n at *
  have hspec : spec_forward_flops d c = ((n * (q * 2 - 1) : Nat) : Int) := by
    unfold spec_forward_flops
    rw [hn, ← Nat.cast_mul, hq]
    push_cast
    rw [Nat.cast_sub (by omega)]
    push_cast
    ring
  rw [hspec] at hb
  have hb2 : n * (q * 2 - 1) ≤ 16777216 := by exact_mod_cast hb
  have hn2 : n ≤ 16777216 := le_of_mul_le_of_pos _ _ _ (by omega) hb2
  have hp2 : q * 2 - 1 ≤ 16777216 := by
    rw [Nat.mul_comm] at hb2
    exact le_of_mul_le_of_pos _ _ _ hN hb2
  have hper : u32_sub ((q * 2) % U32_MOD) 1 = q * 2 - 1 := by
    unfold u32_sub U32_MOD
    omega
  refine ⟨_, heq, ?_⟩
  rw [hspec, hper, Nat.mod_eq_of_lt (by unfold U32_MOD; omega), float_round_of_le n hn2,
    float_round_of_le _ hp2, float_round_of_le _ hb2]

/-- C15 at the scenario of the specification: window volume 9, 6 connections
and 18 output neurons give 1926. -/
theorem forward_flops_exact_up_to_2_pow_24_witness :
    validated ⟨[3, 3], 4, 2, 6, [0, 0], [0, 0]⟩ ∧
    get_output_layer_configuration_specific ⟨[3, 3], 4, 2, 6, [0, 0], [0, 0]⟩ ⟨4, [5, 8]⟩ =
      .ok ⟨2, [3, 6]⟩ ∧
    spec_forward_flops ⟨[3, 3], 4, 2, 6, [0, 0], [0, 0]⟩ ⟨2, [3, 6]⟩ = 1926 ∧
    get_forward_flops ⟨[3, 3], 4, 2, 6, [0, 0], [0, 0]⟩ ⟨4, [5, 8]⟩ = .ok 1926 ∧
    ∃ v, get_forward_flops ⟨[3, 3], 4, 2, 6, [0, 0], [0, 0]⟩ ⟨4, [5, 8]⟩ = .ok v ∧
      (v : Int) = spec_forward_flops ⟨[3, 3], 4, 2, 6, [0, 0], [0, 0]⟩ ⟨2, [3, 6]⟩ :=
  ⟨by decide, by decide, by decide, by decide,
   (forward_flops_exact_up_to_2_pow_24 ⟨[3, 3], 4, 2, 6, [0, 0], [0, 0]⟩ ⟨4, [5, 8]⟩
     ⟨2, [3, 6]⟩ (by decide) (by decide)).2 (by decide) (by decide)⟩

/-- C16 fails on the code as worded: for the validated descriptor with window
size 1, 16777217 input feature maps, 1 output feature map and 16777217
connections, and the input shape of one neuron per feature map, the output has
one neuron and `get_backward_flops` and `get_weights_update_flops` return
33554432, not 1 * 16777217 * 1 * 2 = 33554434, which no `float` holds. -/
theorem backward_flops_rounded_to_float :
    validated ⟨[1], 16777217, 1, 16777217, [0], [0]⟩ ∧
    get_output_layer_configuration_specific ⟨[1], 16777217, 1, 16777217, [0], [0]⟩
      ⟨16777217, [1]⟩ = .ok ⟨1, [1]⟩ ∧
    get_backward_flops ⟨[1], 16777217, 1, 16777217, [0], [0]⟩ ⟨16777217, [1]⟩ =
      .ok 33554432 ∧
    get_weights_update_flops ⟨[1], 16777217, 1, 16777217, [0], [0]⟩ ⟨16777217, [1]⟩ =
      .ok 33554432 ∧
    spec_backward_flops ⟨[1], 16777217, 1, 16777217, [0], [0]⟩ ⟨1, [1]⟩ = 33554434 := by
  decide

/-- C16, amended: for every validated descriptor and every input shape,
`get_backward_flops` and `get_weights_update_flops` return the same result;
they throw exactly when `get_output_layer_configuration_specific` throws, and
then the same exception; otherwise they return the `float` product of the
conversions to `float` of the two `unsigned int` values
`output_neuron_count mod 2^32` and
`feature_map_connection_count * window_volume * 2 mod 2^32`, which is
`output_neuron_count * feature_map_connection_count * window_volume * 2`
whenever that value is at most 2^24. -/
theorem backward_flops_exact_up_to_2_pow_24 (d : sparse_convolution_layer)
    (inp : layer_configuration_specific) (hd : validated d) :
    get_backward_flops d inp = get_weights_update_flops d inp ∧
    (∀ e, get_backward_flops d inp = .error e ↔
      get_output_layer_configuration_specific d inp = .error e) ∧
    (∀ c, get_output_layer_configuration_specific d inp = .ok c →
      get_backward_flops d inp =
        .ok (float_round (float_round (c.dimension_sizes.prod % U32_MOD) *
          float_round ((d.feature_map_connection_count * d.window_sizes.prod * 2) %
            U32_MOD))) ∧
      (spec_backward_flops d c ≤ 16777216 →
        get_backward_flops d inp = .ok (spec_backward_flops d c))) := by
  refine ⟨rfl, fun e => ?_, fun c h => ?_⟩
  · unfold get_backward_flops
    cases hout : get_output_layer_configuration_specific d inp with
    | error e2 => simp
    | ok c => simp
  · have heq := get_backward_flops_eq d inp c h
    refine ⟨heq, fun hb => ?_⟩
    have hN : 0 < c.dimension_sizes.prod :=
      prod_pos_of_ne_zero _ (output_dimension_sizes_pos d inp c hd h)
    have hs : spec_backward_flops d c =
        c.dimension_sizes.prod * (d.feature_map_connection_count * d.window_sizes.prod * 2) := by
      unfold spec_backward_flops
      ring
    rw [heq, hs]
    rw [hs] at hb
    generalize d.feature_map_connection_count * d.window_sizes.prod = q at *
    generalize c.dimension_sizes.prod = n at *
    rcases Nat.eq_zero_or_pos q with hq | hq
    · subst hq
      simp [float_round_zero]
    · have hn2 : n ≤ 16777216 := le_of_mul_le_of_pos _ _ _ (by omega) hb
      have hp2 : q * 2 ≤ 16777216 := by
        rw [Nat.mul_comm] at hb
        exact le_of_mul_le_of_pos _ _ _ hN hb
      rw [Nat.mod_eq_of_lt (by unfold U32_MOD; omega),
        Nat.mod_eq_of_lt (by unfold U32_MOD; omega), float_round_of_le n hn2,
        float_round_of_le _ hp2, float_round_of_le _ hb]

/-- C16 at the scenario of the specification: window volume 9, 6 connections
and 18 output neurons give 18 * 6 * 9 * 2 = 1944 for both functions, and a
shape with the wrong feature map count makes both throw what
`get_output_layer_configuration_specific` throws. -/
theorem backward_flops_exact_up_to_2_pow_24_witness :
    validated ⟨[3, 3], 4, 2, 6, [0, 0], [0, 0]⟩ ∧
    get_backward_flops ⟨[3, 3], 4, 2, 6, [0, 0], [0, 0]⟩ ⟨4, [5, 8]⟩ = .ok 1944 ∧
    get_backward_flops ⟨[3, 3], 4, 2, 6, [0, 0], [0, 0]⟩ ⟨4, [5, 8]⟩ =
      get_weights_update_flops ⟨[3, 3], 4, 2, 6, [0, 0], [0, 0]⟩ ⟨4, [5, 8]⟩ ∧
    (get_backward_flops ⟨[3, 3], 4, 2, 6, [0, 0], [0, 0]⟩ ⟨3, [5, 8]⟩ =
        .error .feature_map_count_mismatch ↔
      get_output_layer_configuration_specific ⟨[3, 3], 4, 2, 6, [0, 0], [0, 0]⟩ ⟨3, [5, 8]⟩ =
        .error .feature_map_count_mismatch) :=
  ⟨by decide,
   ((backward_flops_exact_up_to_2_pow_24 ⟨[3, 3], 4, 2, 6, [0, 0], [0, 0]⟩ ⟨4, [5, 8]⟩
     (by decide)).2.2 ⟨2, [3, 6]⟩ (by decide)).2 (by decide),
   (backward_flops_exact_up_to_2_pow_24 ⟨[3, 3], 4, 2, 6, [0, 0], [0, 0]⟩ ⟨4, [5, 8]⟩
     (by decide)).1,
   (backward_flops_exact_up_to_2_pow_24 ⟨[3, 3], 4, 2, 6, [0, 0], [0, 0]⟩ ⟨3, [5, 8]⟩
     (by decide)).2.1 .feature_map_count_mismatch⟩

/-! ## Lemmas: the scan and the cursor -/

theorem spec_scan_slots_min (present : List (List Int)) (pool : List Nat) (slots : List Int)
    (start idx : Nat) (h : spec_scan_slots present pool slots start = some idx) :
    ∀ j, j < idx - start → slots.getD j 0 = -1 ∨
      set_difference pool (present.getD (slots.getD j 0).toNat []) = [] := by
  induction slots generalizing start with
  | nil => simp [spec_scan_slots] at h
  | cons slot rest ih =>
    unfold spec_scan_slots at h
    intro j hj
    split_ifs at h with h1 h2
    · cases j with
      | zero => exact Or.inl h1
      | succ j =>
        rw [List.getD_cons_succ]
        exact ih (start + 1) h j (by omega)
    · cases j with
      | zero => exact Or.inr (List.length_eq_zero.1 h2)
      | succ j =>
        rw [List.getD_cons_succ]
        exact ih (start + 1) h j (by omega)
    · simp only [Option.some.injEq] at h
      omega

theorem spec_scan_slots_none (present : List (List Int)) (pool : List Nat) (slots : List Int)
    (start : Nat) (h : spec_scan_slots present pool slots start = none) :
    ∀ j, j < slots.length → slots.getD j 0 = -1 ∨
      set_difference pool (present.getD (slots.getD j 0).toNat []) = [] := by
  induction slots generalizing start with
  | nil => intro j hj; exact absurd hj (Nat.not_lt_zero _)
  | cons slot rest ih =>
    unfold spec_scan_slots at h
    intro j hj
    split_ifs at h with h1 h2
    · cases j with
      | zero => exact Or.inl h1
      | succ j =>
        rw [List.getD_cons_succ]
        exact ih (start + 1) h j (by simpa using hj)
    · cases j with
      | zero => exact Or.inr (List.length_eq_zero.1 h2)
      | succ j =>
        rw [List.getD_cons_succ]
        exact ih (start + 1) h j (by simpa using hj)

theorem advance_start_some (slots : List Int) (start s : Nat)
    (h : advance_start slots start = some s) :
    start ≤ s ∧ s - start < slots.length ∧ slots.getD (s - start) 0 ≠ -1 ∧
      ∀ j, j < s - start → slots.getD j 0 = -1 := by
  induction slots generalizing start with
  | nil => simp [advance_start] at h
  | cons slot rest ih =>
    unfold advance_start at h
    split_ifs at h with h1
    · obtain ⟨h3, h4, h5, h6⟩ := ih (start + 1) h
      have e : s - start = (s - (start + 1)) + 1 := by omega
      rw [e]
      simp only [List.getD_cons_succ, List.length_cons]
      refine ⟨by omega, by omega, h5, fun j hj => ?_⟩
      cases j with
      | zero => exact h1
      | succ j =>
        rw [List.getD_cons_succ]
        exact h6 j (by omega)
    · simp only [Option.some.injEq] at h
      subst h
      simp only [Nat.sub_self, List.getD_cons_zero, List.length_cons]
      exact ⟨le_refl _, by omega, h1, fun j hj => absurd hj (Nat.not_lt_zero _)⟩

theorem advance_start_none (slots : List Int) (start : Nat)
    (h : advance_start slots start = none) :
    ∀ j, j < slots.length → slots.getD j 0 = -1 := by
  induction slots generalizing start with
  | nil => intro j hj; exact absurd hj (Nat.not_lt_zero _)
  | cons slot rest ih =>
    unfold advance_start at h
    intro j hj
    split_ifs at h with h1
    cases j with
    | zero => exact h1
    | succ j =>
      rw [List.getD_cons_succ]
      exact ih (start + 1) h j (by simpa using hj)

theorem countP_set (p : List Int → Bool) (l : List (List Int)) (k : Nat) (s : List Int)
    (hk : k < l.length) :
    (l.set k s).countP p + (if p (l.getD k []) then 1 else 0) =
      l.countP p + (if p s then 1 else 0) := by
  induction l generalizing k with
  | nil => exact absurd hk (Nat.not_lt_zero _)
  | cons a l ih =>
    cases k with
    | zero =>
      simp only [List.set_cons_zero, List.getD_cons_zero, List.countP_cons]
      omega
    | succ k =>
      have := ih k (by simpa using hk)
      simp only [List.set_cons_succ, List.getD_cons_succ, List.countP_cons]
      omega

theorem getD_set_self (l : List (List Int)) (k : Nat) (s : List Int) (hk : k < l.length) :
    (l.set k s).getD k [] = s := by
  simp [List.getD_eq_getElem?_getD, List.getElem?_set_self hk]

theorem getD_set_of_ne (l : List (List Int)) (k j : Nat) (s : List Int) (h : k ≠ j) :
    (l.set k s).getD j [] = l.getD j [] := by
  simp only [List.getD_eq_getElem?_getD, List.getElem?_set_ne h]

theorem getD_set_eq_self (l : List Int) (k : Nat) (a : Int) (hk : k < l.length) :
    (l.set k a).getD k 0 = a := by
  simp [List.getD_eq_getElem?_getD, List.getElem?_set_self hk]

theorem length_le_of_nodup_lt (l : List Nat) (n : Nat) (hn : l.Nodup)
    (hlt : ∀ x ∈ l, x < n) : l.length ≤ n := by
  have h1 : l.toFinset ⊆ Finset.range n := by
    intro x hx
    rw [List.mem_toFinset] at hx
    exact Finset.mem_range.2 (hlt x hx)
  have h2 := Finset.card_le_card h1
  rw [List.toFinset_card_of_nodup hn, Finset.card_range] at h2
  exact h2

theorem refilled_pool_ne_nil (d : sparse_convolution_layer) (st : connection_state)
    (hin : 0 < d.input_feature_map_count) : refilled_pool d st ≠ [] := by
  unfold refilled_pool
  split_ifs with h
  · intro h0
    have := congrArg List.length h0
    simp only [List.length_range, List.length_nil] at this
    omega
  · intro h0
    rw [h0] at h
    exact h rfl

theorem validated_out_pos (d : sparse_convolution_layer) (hd : validated d)
    (h : 0 < u32_add d.feature_map_connection_count d.output_feature_map_count) :
    0 < d.output_feature_map_count ∧ 0 < d.input_feature_map_count := by
  have hc := validated_consistent d hd
  have h1 := hc.conn_le_dense
  have h2 := hc.conn_ge_out
  have hout : 0 < d.output_feature_map_count := by
    rcases Nat.eq_zero_or_pos d.output_feature_map_count with h0 | h0
    · rw [h0] at h h1
      unfold u32_mul at h1
      unfold u32_add at h
      rw [Nat.mul_zero, Nat.zero_mod] at h1
      have : d.feature_map_connection_count = 0 := by omega
      rw [this] at h
      exact absurd h (by decide)
    · exact h0
  refine ⟨hout, ?_⟩
  rcases Nat.eq_zero_or_pos d.input_feature_map_count with h0 | h0
  · rw [h0] at h1
    unfold u32_mul at h1
    rw [Nat.zero_mul, Nat.zero_mod] at h1
    omega
  · exact h0

theorem slot_index_div (o out k : Nat) (ho : o < out) : (o + out * k) / out = k := by
  rw [Nat.add_mul_div_left _ _ (by omega : 0 < out), Nat.div_eq_of_lt ho, Nat.zero_add]

theorem slot_index_mod (o out k : Nat) (ho : o < out) : (o + out * k) % out = o := by
  rw [Nat.add_mul_mod_self_left, Nat.mod_eq_of_lt ho]

/-- The slot the scan stops at holds its output feature map, not `-1`. -/
theorem slot_owner (d : sparse_convolution_layer) (st : connection_state) (i : Nat)
    (hinv : scan_invariant d st i) (idx : Nat)
    (hidx : idx < st.output_feature_map_id_list.length)
    (hslot : st.output_feature_map_id_list.getD idx 0 ≠ -1) :
    st.output_feature_map_id_list.getD idx 0 =
        ((idx % d.output_feature_map_count : Nat) : Int) ∧
      (st.out_fm_in_fm_present_list.getD (idx % d.output_feature_map_count) []).length ≤
        idx / d.output_feature_map_count := by
  have h := hinv.slots_eq idx hidx
  by_cases hlt : idx / d.output_feature_map_count <
      (st.out_fm_in_fm_present_list.getD (idx % d.output_feature_map_count) []).length
  · rw [if_pos hlt] at h
    exact absurd h hslot
  · rw [if_neg hlt] at h
    exact ⟨h, by omega⟩

/-- The first slot of an output feature map that is not consumed. -/
theorem first_slot_unconsumed (d : sparse_convolution_layer) (st : connection_state) (i : Nat)
    (hinv : scan_invariant d st i) (o : Nat) (ho : o < d.output_feature_map_count)
    (hlt : o + d.output_feature_map_count * (st.out_fm_in_fm_present_list.getD o []).length <
      st.output_feature_map_id_list.length) :
    st.output_feature_map_id_list.getD
      (o + d.output_feature_map_count * (st.out_fm_in_fm_present_list.getD o []).length) 0 =
        (o : Int) ∧
    st.start_feature_map_index ≤
      o + d.output_feature_map_count * (st.out_fm_in_fm_present_list.getD o []).length := by
  have h := hinv.slots_eq _ hlt
  rw [slot_index_div _ _ _ ho, slot_index_mod _ _ _ ho, if_neg (Nat.lt_irrefl _)] at h
  refine ⟨h, ?_⟩
  by_contra hcon
  have h2 := hinv.consumed_before_start
    (o + d.output_feature_map_count * (st.out_fm_in_fm_present_list.getD o []).length)
    (by omega)
  rw [h] at h2
  omega

/-- The scan stops at the first slot of its output feature map that is not
consumed: the consumed slots of an output are a prefix of its slots. -/
theorem scanned_slot_is_first (d : sparse_convolution_layer) (st : connection_state) (i : Nat)
    (hinv : scan_invariant d st i) (hout : 0 < d.output_feature_map_count) (idx : Nat)
    (hscan : spec_scan_slots st.out_fm_in_fm_present_list (refilled_pool d st)
      (st.output_feature_map_id_list.drop st.start_feature_map_index)
      st.start_feature_map_index = some idx) :
    idx / d.output_feature_map_count =
      (st.out_fm_in_fm_present_list.getD (idx % d.output_feature_map_count) []).length := by
  obtain ⟨hle, hlt, hslot, hcand⟩ := spec_scan_slots_some _ _ _ _ _ hscan
  rw [getD_drop, Nat.add_sub_cancel' hle] at hslot hcand
  rw [List.length_drop] at hlt
  have hidx : idx < st.output_feature_map_id_list.length := by omega
  obtain ⟨hown, hge⟩ := slot_owner d st i hinv idx hidx hslot
  rw [hown, Int.toNat_ofNat] at hcand
  have hmin := spec_scan_slots_min _ _ _ _ _ hscan
  by_contra hne
  have ho : idx % d.output_feature_map_count < d.output_feature_map_count := Nat.mod_lt _ hout
  generalize hoo : idx % d.output_feature_map_count = o at *
  generalize hdd : (st.out_fm_in_fm_present_list.getD o []).length = dd at *
  have hdm := Nat.div_add_mod idx d.output_feature_map_count
  have hmul : d.output_feature_map_count * (dd + 1) ≤
      d.output_feature_map_count * (idx / d.output_feature_map_count) :=
    Nat.mul_le_mul_left _ (by omega)
  rw [Nat.mul_succ] at hmul
  have hj0 : o + d.output_feature_map_count * dd < idx := by omega
  have hfirst := first_slot_unconsumed d st i hinv o ho (by rw [hdd]; omega)
  rw [hdd] at hfirst
  obtain ⟨hval, hstart⟩ := hfirst
  have hm := hmin (o + d.output_feature_map_count * dd - st.start_feature_map_index) (by omega)
  rw [getD_drop, Nat.add_sub_cancel' hstart, hval, Int.toNat_ofNat] at hm
  rcases hm with hm | hm
  · omega
  · exact hcand hm

theorem input_degree_set (present : List (List Int)) (o n y : Nat)
    (ho : o < present.length) (hn : (n : Int) ∉ present.getD o []) :
    input_degree (present.set o (set_insert (n : Int) (present.getD o []))) y =
      input_degree present y + (if y = n then 1 else 0) := by
  unfold input_degree
  have h := countP_set (fun s => decide ((y : Int) ∈ s)) present o
    (set_insert (n : Int) (present.getD o [])) ho
  simp only [decide_eq_true_eq, mem_set_insert] at h
  by_cases hy : y = n
  · subst hy
    rw [if_neg hn, if_pos (Or.inl rfl)] at h
    rw [if_pos rfl]
    omega
  · have hne : ¬ ((y : Int) = (n : Int)) := by
      intro h0
      exact hy (by exact_mod_cast h0)
    rw [if_neg hy]
    by_cases hm : (y : Int) ∈ present.getD o []
    · rw [if_pos hm, if_pos (Or.inr hm)] at h
      omega
    · rw [if_neg hm, if_neg (by rintro (h0 | h0); exact hne h0; exact hm h0)] at h
      omega

theorem input_degree_le_length (present : List (List Int)) (y : Nat) :
    input_degree present y ≤ present.length :=
  List.countP_le_length _

/-- An input connected to fewer outputs than there are has an output it is not
connected to. -/
theorem exists_output_without_input (present : List (List Int)) (y : Nat)
    (h : input_degree present y < present.length) :
    ∃ o, o < present.length ∧ (y : Int) ∉ present.getD o [] := by
  by_contra hcon
  have hall : ∀ s ∈ present, (fun s => decide ((y : Int) ∈ s)) s = true := by
    intro s hs
    obtain ⟨o, ho, hso⟩ := List.getElem_of_mem hs
    have : (y : Int) ∈ present.getD o [] := by
      by_contra hn
      exact hcon ⟨o, ho, hn⟩
    rw [List.getD_eq_getElem _ _ ho, hso] at this
    simpa using this
  have := List.countP_eq_length.2 hall
  unfold input_degree at h
  omega

/-- An input connected to an output occurs in one of the sets. -/
theorem exists_output_with_input (present : List (List Int)) (y : Nat)
    (h : 0 < input_degree present y) :
    ∃ o, o < present.length ∧ (y : Int) ∈ present.getD o [] := by
  unfold input_degree at h
  obtain ⟨s, hs, hp⟩ := List.countP_pos_iff.1 h
  obtain ⟨o, ho, hso⟩ := List.getElem_of_mem hs
  refine ⟨o, ho, ?_⟩
  rw [List.getD_eq_getElem _ _ ho, hso]
  simpa using hp

theorem slots_eq_step (present : List (List Int)) (slots : List Int) (out idx : Nat)
    (x : Int) (hout : 0 < out) (hlen : present.length = out)
    (hslots : ∀ j, j < slots.length → slots.getD j 0 =
      if j / out < (present.getD (j % out) []).length then -1 else ((j % out : Nat) : Int))
    (hidx : idx < slots.length)
    (hdiv : idx / out = (present.getD (idx % out) []).length)
    (hx : x ∉ present.getD (idx % out) []) :
    ∀ j, j < (slots.set idx (-1)).length → (slots.set idx (-1)).getD j 0 =
      if j / out <
        ((present.set (idx % out) (set_insert x (present.getD (idx % out) []))).getD
          (j % out) []).length
      then -1 else ((j % out : Nat) : Int) := by
  intro j hj
  rw [List.length_set] at hj
  have ho : idx % out < present.length := by rw [hlen]; exact Nat.mod_lt _ hout
  by_cases hji : j = idx
  · subst hji
    rw [getD_set_eq_self _ _ _ hidx, getD_set_self _ _ _ ho, set_insert_length _ _ hx,
      if_pos (by omega)]
  · have hne : idx ≠ j := fun h => hji h.symm
    rw [getD_set_ne _ _ _ _ hne, hslots j hj]
    by_cases hjo : j % out = idx % out
    · rw [hjo, getD_set_self _ _ _ ho, set_insert_length _ _ hx]
      have h1 := Nat.div_add_mod j out
      have h2 := Nat.div_add_mod idx out
      have hq : j / out ≠ idx / out := by
        intro hq
        rw [hq, hjo] at h1
        omega
      by_cases hlt : j / out < (present.getD (idx % out) []).length
      · rw [if_pos hlt, if_pos (by omega)]
      · rw [if_neg hlt, if_neg (by omega)]
    · rw [getD_set_of_ne _ _ _ _ (fun h => hjo h.symm)]

theorem refilled_pool_def (d : sparse_convolution_layer) (st : connection_state) :
    refilled_pool d st =
      if st.input_feature_map_id_set.isEmpty = true then
        List.range d.input_feature_map_count
      else st.input_feature_map_id_set := rfl

/-- One completed iteration of the placement loop preserves what
`scan_invariant` states. -/
theorem place_connection_scan_invariant (d : sparse_convolution_layer)
    (generator : Nat → Nat) (st st1 : connection_state) (i : Nat) (hd : validated d)
    (hinv : scan_invariant d st i) (h : place_connection d generator st = .ok st1) :
    scan_invariant d st1 (i + 1) := by
  obtain ⟨idx, o, x, hscan, hle, hidx, hslot, ho, hx, hp1, hs1, hpool1, hadv⟩ :=
    place_connection_ok_scan d generator st st1 h
  have hL : 0 < u32_add d.feature_map_connection_count d.output_feature_map_count := by
    rw [← hinv.slots_length]; omega
  obtain ⟨hout, hin⟩ := validated_out_pos d hd hL
  obtain ⟨hown, -⟩ := slot_owner d st i hinv idx hidx hslot
  rw [hown, Int.toNat_ofNat] at ho
  subst ho
  have hdiv := scanned_slot_is_first d st i hinv hout idx hscan
  obtain ⟨n, hn, hnx, hxn⟩ := (mem_set_difference _ _ _).1 hx
  subst hnx
  rw [Int.toNat_ofNat] at hpool1
  have hopl : idx % d.output_feature_map_count < st.out_fm_in_fm_present_list.length := by
    rw [hinv.present_length]; exact Nat.mod_lt _ hout
  obtain ⟨hsle, hslt, hsne, hsall⟩ := advance_start_some _ _ _ hadv
  rw [getD_drop, Nat.add_sub_cancel' hsle] at hsne
  rw [List.length_drop] at hslt
  have hlen1 : st1.output_feature_map_id_list.length =
      st.output_feature_map_id_list.length := by rw [hs1, List.length_set]
  have hidx1 : st1.output_feature_map_id_list.getD idx 0 = -1 := by
    rw [hs1]; exact getD_set_eq_self _ _ _ hidx
  have hbefore : ∀ j, j < st1.start_feature_map_index →
      st1.output_feature_map_id_list.getD j 0 = -1 := by
    intro j hj
    by_cases hjs : j < st.start_feature_map_index
    · rw [hs1, getD_set_ne _ _ _ _ (by omega : idx ≠ j)]
      exact hinv.consumed_before_start j hjs
    · have := hsall (j - st.start_feature_map_index) (by omega)
      rw [getD_drop, Nat.add_sub_cancel' (by omega)] at this
      exact this
  have hpne : refilled_pool d st ≠ [] := refilled_pool_ne_nil d st hin
  have hnd := hinv.pool_nodup
  have hplt := hinv.pool_lt
  have hlen_erase : ((refilled_pool d st).erase n).length + 1 = (refilled_pool d st).length := by
    rw [List.length_erase_of_mem hn]
    have := List.length_pos_of_mem hn
    omega
  obtain ⟨r, hr1, hr2⟩ := hinv.round
  have hdeg : ∀ y, input_degree st1.out_fm_in_fm_present_list y =
      input_degree st.out_fm_in_fm_present_list y + (if y = n then 1 else 0) := by
    intro y
    rw [hp1]
    exact input_degree_set _ _ _ _ hopl hxn
  refine ⟨by rw [hp1, List.length_set]; exact hinv.present_length,
    by rw [hlen1]; exact hinv.slots_length, ?_, hbefore, by omega,
    fun _ => hsne, ?_, ?_, ?_, ?_⟩
  · rw [hs1, hp1]
    exact slots_eq_step _ _ _ idx _ hout hinv.present_length hinv.slots_eq hidx hdiv hxn
  · by_cases hso : st.start_feature_map_index < d.output_feature_map_count
    · have hst : st.start_feature_map_index < st.output_feature_map_id_list.length := by omega
      have hsu := hinv.start_unconsumed hst
      obtain ⟨hown2, hge2⟩ := slot_owner d st i hinv _ hst hsu
      rw [Nat.mod_eq_of_lt hso, Nat.div_eq_of_lt hso] at hge2
      rw [Nat.mod_eq_of_lt hso] at hown2
      have hempty : st.out_fm_in_fm_present_list.getD st.start_feature_map_index [] = [] :=
        List.length_eq_zero.1 (by omega)
      have hidxs : idx = st.start_feature_map_index := by
        by_contra hne
        have hm := spec_scan_slots_min _ _ _ _ _ hscan 0 (by omega)
        rw [getD_drop, Nat.add_zero, hown2, Int.toNat_ofNat, hempty] at hm
        rcases hm with hm | hm
        · omega
        · obtain ⟨a, l, hal⟩ := List.exists_cons_of_ne_nil hpne
          have : (a : Int) ∈ set_difference (refilled_pool d st) [] :=
            (mem_set_difference _ _ _).2 ⟨a, by rw [hal]; exact List.mem_cons_self _ _, rfl,
              List.not_mem_nil _⟩
          rw [hm] at this
          exact List.not_mem_nil _ this
      have hne2 : st1.start_feature_map_index ≠ st.start_feature_map_index := by
        intro h0
        rw [h0, ← hidxs] at hsne
        exact hsne hidx1
      have := hinv.start_ge
      omega
    · have := hinv.start_ge
      omega
  · unfold refilled_pool
    rw [hpool1]
    split_ifs with he
    · exact List.nodup_range _
    · exact hnd.erase _
  · intro y hy
    unfold refilled_pool at hy
    rw [hpool1] at hy
    split_ifs at hy with he
    · exact List.mem_range.1 hy
    · exact hplt y (List.mem_of_mem_erase hy)
  · by_cases he : ((refilled_pool d st).erase n).isEmpty = true
    · have hnil : (refilled_pool d st).erase n = [] := List.isEmpty_iff.1 he
      have hre : refilled_pool d st1 = List.range d.input_feature_map_count := by
        rw [refilled_pool_def d st1, hpool1, if_pos he]
      rw [hnil, List.length_nil] at hlen_erase
      refine ⟨r + 1, ?_, fun y hy => ?_⟩
      · rw [hre, List.length_range]
        have : (r + 1 + 1) * d.input_feature_map_count =
            (r + 1) * d.input_feature_map_count + d.input_feature_map_count := by ring
        omega
      · rw [hre, if_pos (List.mem_range.2 hy), hdeg y, hr2 y hy]
        by_cases hyn : y = n
        · subst hyn
          rw [if_pos hn, if_pos rfl]
        · have hnot : y ∉ refilled_pool d st := by
            intro hmem
            have := (List.mem_erase_of_ne hyn).2 hmem
            rw [hnil] at this
            exact List.not_mem_nil _ this
          rw [if_neg hnot, if_neg hyn]
    · have hre : refilled_pool d st1 = (refilled_pool d st).erase n := by
        rw [refilled_pool_def d st1, hpool1, if_neg he]
      refine ⟨r, ?_, fun y hy => ?_⟩
      · rw [hre]
        omega
      · rw [hre, hdeg y, hr2 y hy]
        by_cases hyn : y = n
        · subst hyn
          rw [if_pos hn, if_pos rfl, if_neg (fun hm => ((hnd.mem_erase_iff).1 hm).1 rfl)]
        · rw [if_neg hyn]
          by_cases hmem : y ∈ refilled_pool d st
          · rw [if_pos hmem, if_pos ((List.mem_erase_of_ne hyn).2 hmem), Nat.add_zero]
          · rw [if_neg hmem, if_neg (fun hm => hmem (List.mem_of_mem_erase hm)), Nat.add_zero]

theorem fill_output_feature_map_id_list_getD (out n i j : Nat) (hi : i < out) (hj : j < n) :
    (fill_output_feature_map_id_list out n i).getD j 0 = (((i + j) % out : Nat) : Int) := by
  induction n generalizing i j with
  | zero => exact absurd hj (Nat.not_lt_zero _)
  | succ n ih =>
    unfold fill_output_feature_map_id_list
    cases j with
    | zero => rw [List.getD_cons_zero, Nat.add_zero, Nat.mod_eq_of_lt hi]
    | succ j =>
      rw [List.getD_cons_succ]
      by_cases hw : i + 1 = out
      · rw [if_pos hw, ih 0 j (by omega) (by omega), Nat.zero_add]
        have : i + (j + 1) = out + j := by omega
        rw [this, Nat.add_mod_left]
      · rw [if_neg hw, ih (i + 1) j (by omega) (by omega)]
        have : i + (j + 1) = i + 1 + j := by omega
        rw [this]

theorem input_degree_replicate_nil (n x : Nat) :
    input_degree (List.replicate n []) x = 0 := by
  unfold input_degree
  rw [List.countP_eq_zero]
  intro s hs
  rw [List.eq_of_mem_replicate hs]
  simp

/-- The placement loop starts in a state that satisfies `scan_invariant`. -/
theorem initial_scan_invariant (d : sparse_convolution_layer) (pos : Nat) (hd : validated d) :
    scan_invariant d (initial_connection_state d pos) 0 := by
  have hre : refilled_pool d (initial_connection_state d pos) =
      List.range d.input_feature_map_count := rfl
  have hlen : (initial_connection_state d pos).output_feature_map_id_list.length =
      u32_add d.feature_map_connection_count d.output_feature_map_count :=
    fill_output_feature_map_id_list_length _ _ _
  have hget : ∀ j, j < (initial_connection_state d pos).output_feature_map_id_list.length →
      (initial_connection_state d pos).output_feature_map_id_list.getD j 0 =
        ((j % d.output_feature_map_count : Nat) : Int) := by
    intro j hj
    rw [hlen] at hj
    obtain ⟨hout, -⟩ := validated_out_pos d hd (by omega)
    have := fill_output_feature_map_id_list_getD d.output_feature_map_count
      (u32_add d.feature_map_connection_count d.output_feature_map_count) 0 j hout hj
    rw [Nat.zero_add] at this
    exact this
  have hrow : ∀ o, (initial_connection_state d pos).out_fm_in_fm_present_list.getD o [] = [] := by
    intro o
    show (List.replicate d.output_feature_map_count ([] : List Int)).getD o [] = []
    rw [List.getD_eq_getElem?_getD, List.getElem?_replicate]
    split_ifs <;> rfl
  refine ⟨by simp [initial_connection_state], hlen, ?_, ?_, Nat.zero_le _, ?_, ?_, ?_, ?_, ?_⟩
  · intro j hj
    rw [hget j hj, hrow, List.length_nil, if_neg (Nat.not_lt_zero _)]
  · intro j hj
    exact absurd hj (Nat.not_lt_zero _)
  · intro h0
    rw [hget _ h0]
    show ¬ (((0 % d.output_feature_map_count : Nat) : Int) = -1)
    omega
  · show min 0 d.output_feature_map_count ≤ 0
    rw [Nat.zero_min]
  · rw [hre]
    exact List.nodup_range _
  · intro x hx
    rw [hre] at hx
    exact List.mem_range.1 hx
  · refine ⟨0, ?_, fun x hx => ?_⟩
    · rw [hre, List.length_range]
      omega
    · rw [hre, if_pos (List.mem_range.2 hx)]
      exact input_degree_replicate_nil _ _

/-- Any number of completed iterations of the placement loop preserves what
`scan_invariant` states. -/
theorem place_connections_scan_invariant (d : sparse_convolution_layer)
    (generator : Nat → Nat) (n : Nat) (st st1 : connection_state) (i : Nat)
    (hd : validated d) (hinv : scan_invariant d st i)
    (h : place_connections d generator n st = .ok st1) :
    scan_invariant d st1 (i + n) := by
  induction n generalizing st i with
  | zero =>
    simp only [place_connections, Except.ok.injEq] at h
    subst h
    exact hinv
  | succ n ih =>
    unfold place_connections at h
    cases hstep : place_connection d generator st with
    | error e => rw [hstep] at h; exact Except.noConfusion h
    | ok st2 =>
      rw [hstep] at h
      have h2 := place_connection_scan_invariant d generator st st2 i hd hinv hstep
      have h3 := ih st2 (i + 1) h2 h
      have e : i + (n + 1) = i + 1 + n := by omega
      rw [e]
      exact h3

/-! ## Lemmas: the greedy rule -/

theorem set_difference_ne_nil_iff (pool : List Nat) (row : List Int) :
    set_difference pool row ≠ [] ↔ ∃ n : Nat, n ∈ pool ∧ (n : Int) ∉ row := by
  constructor
  · intro h
    obtain ⟨y, l, hyl⟩ := List.exists_cons_of_ne_nil h
    have hy : y ∈ set_difference pool row := by rw [hyl]; exact List.mem_cons_self _ _
    obtain ⟨n, hn, hny, hyr⟩ := (mem_set_difference _ _ _).1 hy
    exact ⟨n, hn, by rw [hny]; exact hyr⟩
  · rintro ⟨n, hn, hnr⟩ h0
    have : (n : Int) ∈ set_difference pool row :=
      (mem_set_difference _ _ _).2 ⟨n, hn, rfl, hnr⟩
    rw [h0] at this
    exact List.not_mem_nil _ this

theorem spec_can_take_edge_iff (present : List (List Int)) (pool : List Nat)
    (slots : List Int) (o : Nat) :
    spec_can_take_edge present pool slots o = true ↔
      (o : Int) ∈ slots ∧ set_difference pool (present.getD o []) ≠ [] := by
  unfold spec_can_take_edge
  rw [Bool.and_eq_true, List.any_eq_true, set_difference_ne_nil_iff]
  simp only [decide_eq_true_eq, List.contains_eq_any_beq, List.any_eq_true, beq_iff_eq]
  constructor
  · rintro ⟨⟨x, hx, hxo⟩, h2⟩
    exact ⟨hxo ▸ hx, h2⟩
  · rintro ⟨h1, h2⟩
    exact ⟨⟨_, h1, rfl⟩, h2⟩

theorem spec_greedy_choice_none (present : List (List Int)) (e : Nat → Bool) (l : List Nat)
    (h : spec_greedy_choice present e l = none) : ∀ o ∈ l, e o = false := by
  induction l with
  | nil => intro o ho; exact absurd ho (List.not_mem_nil _)
  | cons a l ih =>
    unfold spec_greedy_choice at h
    by_cases ha : e a = true
    · rw [if_pos ha] at h
      cases hrec : spec_greedy_choice present e l with
      | none => rw [hrec] at h; exact Option.noConfusion h
      | some b =>
        rw [hrec] at h
        dsimp only at h
        split_ifs at h
    · rw [if_neg ha] at h
      intro o ho
      rcases List.mem_cons.1 ho with h1 | h1
      · rw [h1]; simpa using ha
      · exact ih h o h1

theorem spec_greedy_choice_some (present : List (List Int)) (e : Nat → Bool) (l : List Nat)
    (hl : l.Pairwise (· < ·)) (b : Nat) (h : spec_greedy_choice present e l = some b) :
    b ∈ l ∧ e b = true ∧ ∀ o ∈ l, e o = true →
      (present.getD b []).length < (present.getD o []).length ∨
      ((present.getD b []).length = (present.getD o []).length ∧ b ≤ o) := by
  induction l generalizing b with
  | nil => exact Option.noConfusion h
  | cons a l ih =>
    unfold spec_greedy_choice at h
    obtain ⟨hal, hl2⟩ := List.pairwise_cons.1 hl
    by_cases ha : e a = true
    · rw [if_pos ha] at h
      cases hrec : spec_greedy_choice present e l with
      | none =>
        rw [hrec] at h
        simp only [Option.some.injEq] at h
        subst h
        refine ⟨List.mem_cons_self _ _, ha, fun o ho heo => ?_⟩
        rcases List.mem_cons.1 ho with h1 | h1
        · rw [h1]; exact Or.inr ⟨rfl, le_refl _⟩
        · have := spec_greedy_choice_none present e l hrec o h1
          rw [this] at heo
          exact Bool.noConfusion heo
      | some c =>
        rw [hrec] at h
        dsimp only at h
        obtain ⟨hc1, hc2, hc3⟩ := ih hl2 c hrec
        by_cases hlt : (present.getD c []).length < (present.getD a []).length
        · rw [if_pos hlt] at h
          simp only [Option.some.injEq] at h
          subst h
          refine ⟨List.mem_cons_of_mem _ hc1, hc2, fun o ho heo => ?_⟩
          rcases List.mem_cons.1 ho with h1 | h1
          · rw [h1]; exact Or.inl hlt
          · exact hc3 o h1 heo
        · rw [if_neg hlt] at h
          simp only [Option.some.injEq] at h
          subst h
          refine ⟨List.mem_cons_self _ _, ha, fun o ho heo => ?_⟩
          rcases List.mem_cons.1 ho with h1 | h1
          · rw [h1]; exact Or.inr ⟨rfl, le_refl _⟩
          · have h3 := hc3 o h1 heo
            have h4 := hal o h1
            omega
    · rw [if_neg ha] at h
      obtain ⟨hc1, hc2, hc3⟩ := ih hl2 b h
      refine ⟨List.mem_cons_of_mem _ hc1, hc2, fun o ho heo => ?_⟩
      rcases List.mem_cons.1 ho with h1 | h1
      · rw [h1] at heo; exact absurd heo ha
      · exact hc3 o h1 heo

/-- An output feature map that can take an edge has its first unconsumed slot
at or after the cursor, at the index `o + out * edges(o)`. -/
theorem first_slot_of_candidate (d : sparse_convolution_layer) (st : connection_state)
    (i : Nat) (hinv : scan_invariant d st i) (o : Nat)
    (ho : o < d.output_feature_map_count)
    (hmem : (o : Int) ∈ st.output_feature_map_id_list) :
    o + d.output_feature_map_count * (st.out_fm_in_fm_present_list.getD o []).length <
        st.output_feature_map_id_list.length ∧
    st.output_feature_map_id_list.getD
      (o + d.output_feature_map_count * (st.out_fm_in_fm_present_list.getD o []).length) 0 =
        (o : Int) ∧
    st.start_feature_map_index ≤
      o + d.output_feature_map_count * (st.out_fm_in_fm_present_list.getD o []).length := by
  obtain ⟨j, hj, hjo⟩ := List.getElem_of_mem hmem
  have hg : st.output_feature_map_id_list.getD j 0 = (o : Int) := by
    rw [List.getD_eq_getElem _ _ hj, hjo]
  obtain ⟨hown, hge⟩ := slot_owner d st i hinv j hj (by rw [hg]; omega)
  rw [hg] at hown
  have hjm : j % d.output_feature_map_count = o := by exact_mod_cast hown.symm
  rw [hjm] at hge
  have hdm := Nat.div_add_mod j d.output_feature_map_count
  have hmul : d.output_feature_map_count * (st.out_fm_in_fm_present_list.getD o []).length ≤
      d.output_feature_map_count * (j / d.output_feature_map_count) :=
    Nat.mul_le_mul_left _ hge
  have hlt : o + d.output_feature_map_count *
      (st.out_fm_in_fm_present_list.getD o []).length <
        st.output_feature_map_id_list.length := by omega
  obtain ⟨h1, h2⟩ := first_slot_unconsumed d st i hinv o ho hlt
  exact ⟨hlt, h1, h2⟩

/-- The scan of the specification and the greedy rule agree in every state
that satisfies `scan_invariant`. -/
theorem spec_scan_eq_greedy (d : sparse_convolution_layer) (st : connection_state) (i : Nat)
    (hd : validated d) (hinv : scan_invariant d st i) :
    (spec_scan_slots st.out_fm_in_fm_present_list (refilled_pool d st)
      (st.output_feature_map_id_list.drop st.start_feature_map_index)
      st.start_feature_map_index).map
      (fun idx => (st.output_feature_map_id_list.getD idx 0).toNat) =
        spec_greedy_output d st := by
  unfold spec_greedy_output
  cases hscan : spec_scan_slots st.out_fm_in_fm_present_list (refilled_pool d st)
      (st.output_feature_map_id_list.drop st.start_feature_map_index)
      st.start_feature_map_index with
  | none =>
    rw [Option.map_none']
    cases hg : spec_greedy_choice st.out_fm_in_fm_present_list
        (spec_can_take_edge st.out_fm_in_fm_present_list (refilled_pool d st)
          st.output_feature_map_id_list) (List.range d.output_feature_map_count) with
    | none => rfl
    | some b =>
      exfalso
      obtain ⟨hb1, hb2, -⟩ := spec_greedy_choice_some _ _ _ (List.pairwise_lt_range _) b hg
      obtain ⟨hmem, hcand⟩ := (spec_can_take_edge_iff _ _ _ _).1 hb2
      obtain ⟨hlt, hval, hstart⟩ :=
        first_slot_of_candidate d st i hinv b (List.mem_range.1 hb1) hmem
      have hn := spec_scan_slots_none _ _ _ _ hscan
        (b + d.output_feature_map_count *
          (st.out_fm_in_fm_present_list.getD b []).length - st.start_feature_map_index)
        (by rw [List.length_drop]; omega)
      rw [getD_drop, Nat.add_sub_cancel' hstart, hval, Int.toNat_ofNat] at hn
      rcases hn with hn | hn
      · omega
      · exact hcand hn
  | some idx =>
    rw [Option.map_some']
    obtain ⟨hle, hlt, hslot, hcand⟩ := spec_scan_slots_some _ _ _ _ _ hscan
    rw [getD_drop, Nat.add_sub_cancel' hle] at hslot hcand
    rw [List.length_drop] at hlt
    have hidx : idx < st.output_feature_map_id_list.length := by omega
    have hL : 0 < st.output_feature_map_id_list.length := by omega
    obtain ⟨hown, -⟩ := slot_owner d st i hinv idx hidx hslot
    have hout : 0 < d.output_feature_map_count :=
      (validated_out_pos d hd (by rw [← hinv.slots_length]; exact hL)).1
    have hdiv := scanned_slot_is_first d st i hinv hout idx hscan
    have hmin := spec_scan_slots_min _ _ _ _ _ hscan
    rw [hown, Int.toNat_ofNat] at hcand ⊢
    have ho : idx % d.output_feature_map_count < d.output_feature_map_count :=
      Nat.mod_lt _ hout
    have hmemo : ((idx % d.output_feature_map_count : Nat) : Int) ∈
        st.output_feature_map_id_list := by
      rw [← hown]
      exact getD_mem_of_lt _ _ hidx
    have helig : spec_can_take_edge st.out_fm_in_fm_present_list (refilled_pool d st)
        st.output_feature_map_id_list (idx % d.output_feature_map_count) = true :=
      (spec_can_take_edge_iff _ _ _ _).2 ⟨hmemo, hcand⟩
    cases hg : spec_greedy_choice st.out_fm_in_fm_present_list
        (spec_can_take_edge st.out_fm_in_fm_present_list (refilled_pool d st)
          st.output_feature_map_id_list) (List.range d.output_feature_map_count) with
    | none =>
      have := spec_greedy_choice_none _ _ _ hg _ (List.mem_range.2 ho)
      rw [this] at helig
      exact Bool.noConfusion helig
    | some b =>
      obtain ⟨hb1, hb2, hb3⟩ := spec_greedy_choice_some _ _ _ (List.pairwise_lt_range _) b hg
      have hbo := hb3 _ (List.mem_range.2 ho) helig
      obtain ⟨hmem, hcandb⟩ := (spec_can_take_edge_iff _ _ _ _).1 hb2
      have hb : b < d.output_feature_map_count := List.mem_range.1 hb1
      obtain ⟨hltb, hvalb, hstartb⟩ := first_slot_of_candidate d st i hinv b hb hmem
      have hidxle : idx ≤ b + d.output_feature_map_count *
          (st.out_fm_in_fm_present_list.getD b []).length := by
        by_contra hcon
        have hm := hmin (b + d.output_feature_map_count *
          (st.out_fm_in_fm_present_list.getD b []).length - st.start_feature_map_index)
          (by omega)
        rw [getD_drop, Nat.add_sub_cancel' hstartb, hvalb, Int.toNat_ofNat] at hm
        rcases hm with hm | hm
        · omega
        · exact hcandb hm
      have hdm := Nat.div_add_mod idx d.output_feature_map_count
      rw [hdiv] at hdm
      generalize idx % d.output_feature_map_count = o at *
      generalize (st.out_fm_in_fm_present_list.getD o []).length = eo at *
      generalize (st.out_fm_in_fm_present_list.getD b []).length = eb at *
      have heq : b = o := by
        rcases hbo with hlt2 | ⟨he, hle2⟩
        · exfalso
          have hmul : d.output_feature_map_count * (eb + 1) ≤ d.output_feature_map_count * eo :=
            Nat.mul_le_mul_left _ hlt2
          rw [Nat.mul_succ] at hmul
          omega
        · subst he
          omega
      rw [heq]

/-- An output feature map with fewer edges than the one the scan stops at has
no candidate input. -/
theorem scan_passes_only_outputs_without_candidate (d : sparse_convolution_layer)
    (st : connection_state) (i : Nat) (hd : validated d) (hinv : scan_invariant d st i)
    (o o2 : Nat) (hso : spec_greedy_output d st = some o)
    (ho2 : o2 < d.output_feature_map_count)
    (hlt : (st.out_fm_in_fm_present_list.getD o2 []).length <
      (st.out_fm_in_fm_present_list.getD o []).length) :
    set_difference (refilled_pool d st) (st.out_fm_in_fm_present_list.getD o2 []) = [] := by
  rw [← spec_scan_eq_greedy d st i hd hinv] at hso
  obtain ⟨idx, hscan, hoi⟩ := Option.map_eq_some'.1 hso
  obtain ⟨hle, hlt1, hslot, -⟩ := spec_scan_slots_some _ _ _ _ _ hscan
  rw [getD_drop, Nat.add_sub_cancel' hle] at hslot
  rw [List.length_drop] at hlt1
  have hidx : idx < st.output_feature_map_id_list.length := by omega
  obtain ⟨hown, -⟩ := slot_owner d st i hinv idx hidx hslot
  have hout : 0 < d.output_feature_map_count :=
    (validated_out_pos d hd (by rw [← hinv.slots_length]; omega)).1
  have hdiv := scanned_slot_is_first d st i hinv hout idx hscan
  rw [hown, Int.toNat_ofNat] at hoi
  rw [hoi] at hdiv
  rw [← hdiv] at hlt
  have hdm := Nat.div_add_mod idx d.output_feature_map_count
  have hmul : d.output_feature_map_count *
      ((st.out_fm_in_fm_present_list.getD o2 []).length + 1) ≤
      d.output_feature_map_count * (idx / d.output_feature_map_count) :=
    Nat.mul_le_mul_left _ hlt
  rw [Nat.mul_succ] at hmul
  obtain ⟨hval, hstart⟩ := first_slot_unconsumed d st i hinv o2 ho2 (by omega)
  have hm := spec_scan_slots_min _ _ _ _ _ hscan
    (o2 + d.output_feature_map_count *
      (st.out_fm_in_fm_present_list.getD o2 []).length - st.start_feature_map_index)
    (by omega)
  rw [getD_drop, Nat.add_sub_cancel' hstart, hval, Int.toNat_ofNat] at hm
  rcases hm with hm | hm
  · omega
  · exact hm

/-- The scan of the code, by the scan of the specification: it leaves the loop
by `break` at the slot the specification names when the position of that slot
is at most `INT_MAX`, and it does not leave the loop by `break` otherwise. -/
theorem scan_output_spec (d : sparse_convolution_layer) (st : connection_state) :
    scan_output d st =
      (spec_scan_slots st.out_fm_in_fm_present_list (refilled_pool d st)
        (st.output_feature_map_id_list.drop st.start_feature_map_index)
        st.start_feature_map_index).bind
        (fun idx =>
          if idx ≤ 2147483647 then some (st.output_feature_map_id_list.getD idx 0).toNat
          else none) := by
  unfold scan_output
  by_cases hs : 2147483648 ≤ st.start_feature_map_index
  · rw [if_pos hs]
    cases hscan : spec_scan_slots st.out_fm_in_fm_present_list (refilled_pool d st)
        (st.output_feature_map_id_list.drop st.start_feature_map_index)
        st.start_feature_map_index with
    | none => rfl
    | some idx =>
      have := (spec_scan_slots_some _ _ _ _ _ hscan).1
      rw [Option.some_bind, if_neg (by omega)]
  · rw [if_neg hs]
    dsimp only
    obtain ⟨hsome, hnone⟩ := scan_value st.out_fm_in_fm_present_list (refilled_pool d st)
      st.output_feature_map_id_list st.start_feature_map_index (by omega)
    cases hscan : spec_scan_slots st.out_fm_in_fm_present_list (refilled_pool d st)
        (st.output_feature_map_id_list.drop st.start_feature_map_index)
        st.start_feature_map_index with
    | none =>
      obtain ⟨h1, h2, h3⟩ := hnone hscan
      rw [Option.none_bind]
      by_cases hle : st.start_feature_map_index ≤ st.output_feature_map_id_list.length
      · by_cases hm : st.output_feature_map_id_list.length ≤ 2147483647
        · rw [h1 hle hm, if_neg (by omega)]
        · rw [h2 hle (by omega), if_neg (by omega)]
      · rw [h3 (by omega), if_neg (by omega)]
    | some idx =>
      obtain ⟨h1, h2, h3, h4⟩ := hsome idx hscan
      rw [Option.some_bind]
      by_cases hidx : idx ≤ 2147483647
      · rw [h3 hidx, if_pos (by omega), if_pos hidx, Int.toNat_ofNat]
      · rw [h4 (by omega), if_neg (by omega), if_neg hidx]

/-- The internal error is thrown exactly when the scan of the specification
finds no slot and the whole sequence can be scanned with an `int` index. -/
theorem place_connection_internal_error_iff (d : sparse_convolution_layer)
    (generator : Nat → Nat) (st : connection_state) :
    place_connection d generator st = .error .internal_error_sparse_connections ↔
      spec_scan_slots st.out_fm_in_fm_present_list (refilled_pool d st)
        (st.output_feature_map_id_list.drop st.start_feature_map_index)
        st.start_feature_map_index = none ∧
      st.start_feature_map_index ≤ st.output_feature_map_id_list.length ∧
      st.output_feature_map_id_list.length ≤ 2147483647 := by
  by_cases hs : 2147483648 ≤ st.start_feature_map_index
  · rw [place_connection_of_large_start d generator st hs]
    constructor
    · intro h
      exact Except.noConfusion h (fun h0 => Exn.noConfusion h0)
    · rintro ⟨-, h1, h2⟩
      omega
  cases hscan : spec_scan_slots st.out_fm_in_fm_present_list (refilled_pool d st)
      (st.output_feature_map_id_list.drop st.start_feature_map_index)
      st.start_feature_map_index with
  | none =>
    rw [place_connection_of_none d generator st (by omega) hscan]
    by_cases hc : st.start_feature_map_index ≤ st.output_feature_map_id_list.length ∧
        st.output_feature_map_id_list.length ≤ 2147483647
    · rw [if_pos hc]
      exact ⟨fun _ => ⟨rfl, hc⟩, fun _ => rfl⟩
    · rw [if_neg hc]
      constructor
      · intro h
        exact Except.noConfusion h (fun h0 => Exn.noConfusion h0)
      · rintro ⟨-, h1⟩
        exact absurd h1 hc
  | some idx =>
    constructor
    · intro h
      exfalso
      by_cases hidx : idx ≤ 2147483647
      · rw [place_connection_of_some d generator st idx hscan hidx] at h
        cases hadv : advance_start ((st.output_feature_map_id_list.set idx (-1)).drop
            st.start_feature_map_index) st.start_feature_map_index with
        | none =>
          rw [hadv] at h
          exact Except.noConfusion h (fun h0 => Exn.noConfusion h0)
        | some s =>
          rw [hadv] at h
          exact Except.noConfusion h
      · rw [place_connection_of_large_index d generator st idx (by omega) hscan
          (by omega)] at h
        exact Except.noConfusion h (fun h0 => Exn.noConfusion h0)
    · rintro ⟨h, -⟩
      exact Option.noConfusion h

/-! ## Theorems: the greedy rule (C20) -/

/-- C20, amended: the slot scan and the greedy rule.  In every state `st`
that the placement loop of a validated descriptor reaches after any number of
completed iterations, whatever the generator outputs: (1) an iteration that
places an edge leaves its scan at a slot of the output feature map the greedy
rule names (among the outputs that have an unconsumed slot left and a pool
input not yet connected to them, one with the fewest edges so far, the lowest
index in case of a tie) and adds one candidate input to the set of that
output; (2) when the internal error is thrown, the rule names no output; (3)
a scan that leaves the loop by `break` does so at the output the rule names;
(4) when the sequence has at most 2^31 - 1 slots
(`feature_map_connection_count + output_feature_map_count <= 2147483647`),
the scan and the rule are the same function of the state, and the internal
error is thrown exactly when the rule names no output; (5) slot `j` belongs to
the output `j % output_feature_map_count`, and it is consumed exactly when the
output has more than `j / output_feature_map_count` edges (the consumed slots
of an output are a prefix of its slots); (6) every output with fewer edges
than the one the rule names has no candidate input. -/
theorem scan_follows_greedy_rule (d : sparse_convolution_layer) (generator : Nat → Nat)
    (pos i : Nat) (st : connection_state) (hd : validated d)
    (h : place_connections d generator i (initial_connection_state d pos) = .ok st) :
    (∀ st1, place_connection d generator st = .ok st1 →
      ∃ (o : Nat) (x : Int), scan_output d st = some o ∧ spec_greedy_output d st = some o ∧
        x ∈ set_difference (refilled_pool d st) (st.out_fm_in_fm_present_list.getD o []) ∧
        st1.out_fm_in_fm_present_list = st.out_fm_in_fm_present_list.set o
          (set_insert x (st.out_fm_in_fm_present_list.getD o []))) ∧
    (place_connection d generator st = .error .internal_error_sparse_connections →
      spec_greedy_output d st = none) ∧
    (∀ o, scan_output d st = some o → spec_greedy_output d st = some o) ∧
    (d.feature_map_connection_count + d.output_feature_map_count ≤ 2147483647 →
      scan_output d st = spec_greedy_output d st ∧
      (place_connection d generator st = .error .internal_error_sparse_connections ↔
        spec_greedy_output d st = none)) ∧
    (∀ j, j < st.output_feature_map_id_list.length →
      st.output_feature_map_id_list.getD j 0 =
        if j / d.output_feature_map_count <
            (st.out_fm_in_fm_present_list.getD (j % d.output_feature_map_count) []).length
        then -1 else ((j % d.output_feature_map_count : Nat) : Int)) ∧
    (∀ o o2, spec_greedy_output d st = some o → o2 < d.output_feature_map_count →
      (st.out_fm_in_fm_present_list.getD o2 []).length <
        (st.out_fm_in_fm_present_list.getD o []).length →
      set_difference (refilled_pool d st) (st.out_fm_in_fm_present_list.getD o2 []) = []) := by
  have hinv := place_connections_scan_invariant d generator i _ st 0 hd
    (initial_scan_invariant d pos hd) h
  have heq := spec_scan_eq_greedy d st _ hd hinv
  have hspec := scan_output_spec d st
  refine ⟨fun st1 h1 => ?_, fun herr => ?_, fun o ho => ?_, fun hb => ?_, hinv.slots_eq,
    fun o o2 hso ho2 hlt =>
      scan_passes_only_outputs_without_candidate d st _ hd hinv o o2 hso ho2 hlt⟩
  · obtain ⟨idx, o, x, hscan, -, -, -, ho, hx, hp1, -⟩ :=
      place_connection_ok_scan d generator st st1 h1
    have hidx := place_connection_ok_index d generator st st1 idx h1 hscan
    refine ⟨o, x, ?_, ?_, hx, hp1⟩
    · rw [hspec, hscan, Option.some_bind, if_pos hidx, ho]
    · rw [← heq, hscan, Option.map_some', ho]
  · rw [← heq, ((place_connection_internal_error_iff d generator st).1 herr).1]
    rfl
  · rw [hspec] at ho
    cases hscan : spec_scan_slots st.out_fm_in_fm_present_list (refilled_pool d st)
        (st.output_feature_map_id_list.drop st.start_feature_map_index)
        st.start_feature_map_index with
    | none =>
      rw [hscan] at ho
      exact Option.noConfusion ho
    | some idx =>
      rw [hscan, Option.some_bind] at ho
      rw [← heq, hscan, Option.map_some']
      split_ifs at ho
      exact ho
  · have hlen : st.output_feature_map_id_list.length ≤ 2147483647 := by
      rw [hinv.slots_length]
      unfold u32_add
      exact le_trans (Nat.mod_le _ _) hb
    have hso : scan_output d st = spec_greedy_output d st := by
      rw [hspec, ← heq]
      cases hscan : spec_scan_slots st.out_fm_in_fm_present_list (refilled_pool d st)
          (st.output_feature_map_id_list.drop st.start_feature_map_index)
          st.start_feature_map_index with
      | none => rfl
      | some idx =>
        obtain ⟨h1, h2, -⟩ := spec_scan_slots_some _ _ _ _ _ hscan
        rw [List.length_drop] at h2
        rw [Option.some_bind, if_pos (by omega), Option.map_some']
    refine ⟨hso, ?_⟩
    rw [place_connection_internal_error_iff, ← heq]
    constructor
    · rintro ⟨h1, -⟩
      rw [h1]
      rfl
    · intro h1
      refine ⟨?_, hinv.start_le, hlen⟩
      cases hscan : spec_scan_slots st.out_fm_in_fm_present_list (refilled_pool d st)
          (st.output_feature_map_id_list.drop st.start_feature_map_index)
          st.start_feature_map_index with
      | none => rfl
      | some idx =>
        rw [hscan] at h1
        exact Option.noConfusion h1

set_option maxRecDepth 4000 in
/-- C20, amended, at a state in which the rule passes an output: 3 inputs, 3
outputs, 6 connections (9 slots), all generator outputs 0.  After five
iterations the outputs have 2, 2 and 1 edges and the pool holds input 2 only,
which output 2 is already connected to; the scan stops at a slot of output 0,
as the rule says. -/
theorem scan_follows_greedy_rule_witness :
    validated ⟨[1], 3, 3, 6, [0], [0]⟩ ∧
    place_connections ⟨[1], 3, 3, 6, [0], [0]⟩ (fun _ => 0) 5
        (initial_connection_state ⟨[1], 3, 3, 6, [0], [0]⟩ 0) =
      .ok ⟨[[0, 1], [0, 1], [2]], [-1, -1, -1, -1, -1, 2, 0, 1, 2], [2], 5, 4⟩ ∧
    spec_greedy_output ⟨[1], 3, 3, 6, [0], [0]⟩
      ⟨[[0, 1], [0, 1], [2]], [-1, -1, -1, -1, -1, 2, 0, 1, 2], [2], 5, 4⟩ = some 0 ∧
    scan_output ⟨[1], 3, 3, 6, [0], [0]⟩
        ⟨[[0, 1], [0, 1], [2]], [-1, -1, -1, -1, -1, 2, 0, 1, 2], [2], 5, 4⟩ =
      spec_greedy_output ⟨[1], 3, 3, 6, [0], [0]⟩
        ⟨[[0, 1], [0, 1], [2]], [-1, -1, -1, -1, -1, 2, 0, 1, 2], [2], 5, 4⟩ :=
  ⟨by decide, by decide, by decide,
   ((scan_follows_greedy_rule ⟨[1], 3, 3, 6, [0], [0]⟩ (fun _ => 0) 0 5
     ⟨[[0, 1], [0, 1], [2]], [-1, -1, -1, -1, -1, 2, 0, 1, 2], [2], 5, 4⟩
     (by decide) (by decide)).2.2.2.1 (by decide)).1⟩

/-! ## Lemmas: coverage and the dense case -/

theorem ascending_eq_range (l : List Int) (a : Nat) (hl : l.Pairwise (· < ·))
    (hb : ∀ x ∈ l, (a : Int) ≤ x ∧ x < (a : Int) + (l.length : Int)) :
    l = (List.range' a l.length).map Int.ofNat := by
  induction l generalizing a with
  | nil => rfl
  | cons x t ih =>
    obtain ⟨hxt, ht⟩ := List.pairwise_cons.1 hl
    have hx := hb x (List.mem_cons_self _ _)
    have hbt : ∀ y ∈ t, ((a + 1 : Nat) : Int) ≤ y ∧ y < ((a + 1 : Nat) : Int) + (t.length : Int) := by
      intro y hy
      have h1 := hxt y hy
      have h2 := hb y (List.mem_cons_of_mem _ hy)
      simp only [List.length_cons] at h2
      push_cast at h2 ⊢
      omega
    have iht := ih (a + 1) ht hbt
    have hxa : x = (a : Int) := by
      cases t with
      | nil =>
        simp only [List.length_cons, List.length_nil] at hx
        push_cast at hx
        omega
      | cons y t2 =>
        have hy : y = ((a + 1 : Nat) : Int) := by
          have := congrArg List.head? iht
          simp only [List.length_cons, List.range'_succ, List.map_cons, List.head?_cons,
            Option.some.injEq] at this
          exact this
        have h1 := hxt y (List.mem_cons_self _ _)
        push_cast at hy
        omega
    rw [List.length_cons, List.range'_succ, List.map_cons, ← iht, hxa]
    rfl

theorem ascending_length_le (l : List Int) (n : Nat) (hl : l.Pairwise (· < ·))
    (hb : ∀ x ∈ l, 0 ≤ x ∧ x < (n : Int)) : l.length ≤ n := by
  have hnd : (l.map Int.toNat).Nodup := by
    unfold List.Nodup
    rw [List.pairwise_map]
    refine List.Pairwise.imp_of_mem ?_ hl
    intro x y hx hy hxy
    have h1 := hb x hx
    have h2 := hb y hy
    omega
  have hlt : ∀ y ∈ l.map Int.toNat, y < n := by
    intro y hy
    obtain ⟨x, hx, hxy⟩ := List.mem_map.1 hy
    have h1 := hb x hx
    omega
  have := length_le_of_nodup_lt _ n hnd hlt
  rw [List.length_map] at this
  exact this

/-- A set that lacks an input has fewer elements than there are inputs. -/
theorem row_length_lt (row : List Int) (n x : Nat) (hl : row.Pairwise (· < ·))
    (hb : ∀ y ∈ row, 0 ≤ y ∧ y < (n : Int)) (hx : x < n) (hxr : (x : Int) ∉ row) :
    row.length < n := by
  have h1 := ascending_length_le (set_insert (x : Int) row) n (set_insert_pairwise _ _ hl)
    (by
      intro y hy
      rcases (mem_set_insert _ _ _).1 hy with h | h
      · rw [h]; omega
      · exact hb y h)
  rw [set_insert_length _ _ hxr] at h1
  omega

theorem sum_le_of_le (l : List Nat) (b : Nat) (h : ∀ a ∈ l, a ≤ b) :
    l.sum ≤ b * l.length := by
  induction l with
  | nil => simp
  | cons a l ih =>
    have h1 := h a (List.mem_cons_self _ _)
    have h2 := ih (fun x hx => h x (List.mem_cons_of_mem _ hx))
    rw [List.sum_cons, List.length_cons, Nat.mul_succ]
    omega

theorem eq_of_sum_eq (l : List Nat) (b : Nat) (h : ∀ a ∈ l, a ≤ b)
    (hs : l.sum = b * l.length) : ∀ a ∈ l, a = b := by
  induction l with
  | nil => intro a ha; exact absurd ha (List.not_mem_nil _)
  | cons a l ih =>
    have h1 := h a (List.mem_cons_self _ _)
    have h2 := sum_le_of_le l b (fun x hx => h x (List.mem_cons_of_mem _ hx))
    rw [List.sum_cons, List.length_cons, Nat.mul_succ] at hs
    intro x hx
    rcases List.mem_cons.1 hx with h3 | h3
    · rw [h3]; omega
    · exact ih (fun x hx => h x (List.mem_cons_of_mem _ hx)) (by omega) x h3

theorem edge_count_of_equal_lengths (P : List (List Int)) (n k : Nat)
    (h : ∀ s ∈ P, s.length = n) (hk : k ≤ P.length) : edge_count P k = k * n := by
  induction k with
  | zero => rw [edge_count_zero, Nat.zero_mul]
  | succ k ih =>
    have hmem : P.getD k [] ∈ P := by
      rw [List.getD_eq_getElem _ _ (by omega)]
      exact List.getElem_mem _
    rw [edge_count_succ P k (by omega), ih (by omega), h _ hmem, Nat.succ_mul]

/-- A completed call of `randomize_custom_data` emits the sets of the state
the placement loop ended in. -/
theorem randomize_custom_data_state (d : sparse_convolution_layer)
    (dc dc1 : layer_data_custom) (generator : Nat → Nat) (pos pos1 : Nat)
    (hd : validated d) (hconn : d.feature_map_connection_count < 2147483648)
    (hcols : dc.columns.length = d.feature_map_connection_count)
    (hrows : dc.row_offsets.length = d.output_feature_map_count + 1)
    (h : randomize_custom_data d dc generator pos = .ok (dc1, pos1)) :
    ∃ st, place_connections d generator d.feature_map_connection_count
        (initial_connection_state d pos) = .ok st ∧
      (∀ k, k ≤ d.output_feature_map_count →
        dc1.row_offsets.getD k 0 = ((edge_count st.out_fm_in_fm_present_list k : Nat) : Int)) ∧
      (∀ k, k < d.output_feature_map_count →
        csr_slice dc1 k = st.out_fm_in_fm_present_list.getD k []) := by
  have hc := validated_consistent d hd
  have hout : d.output_feature_map_count < 2147483648 :=
    lt_of_le_of_lt hc.conn_ge_out hconn
  have hit := int_loop_iterations_of_lt _ hconn
  have heq := randomize_custom_data_eq d dc generator pos hd hout (by rw [hit, hcols]) hrows
  rw [h, hit] at heq
  cases hpc : place_connections d generator d.feature_map_connection_count
      (initial_connection_state d pos) with
  | error e => rw [hpc] at heq; exact Except.noConfusion heq
  | ok st =>
    rw [hpc] at heq
    simp only [Except.ok.injEq, Prod.mk.injEq] at heq
    obtain ⟨hdc, -⟩ := heq
    have hinv := place_connections_invariant d generator _ _ st 0 (initial_invariant d pos hd) hpc
    have hsum := hinv.edges
    rw [Nat.zero_add] at hsum
    have hget : ∀ k, k ≤ d.output_feature_map_count →
        dc1.row_offsets.getD k 0 =
          ((edge_count st.out_fm_in_fm_present_list k : Nat) : Int) := by
      intro k hk
      have := running_offsets_getD st.out_fm_in_fm_present_list 0 k
        (by rw [hinv.present_length]; exact hk)
      rw [Nat.zero_add, Nat.zero_add, hsum] at this
      rw [hdc]
      exact this
    refine ⟨st, rfl, hget, fun k hk => ?_⟩
    unfold csr_slice
    rw [hget k (by omega), hget (k + 1) (by omega),
      edge_count_succ _ k (by rw [hinv.present_length]; exact hk), hdc]
    simp only [Int.toNat_ofNat, Nat.add_sub_cancel_left]
    exact flatten_slice _ _ k (by rw [hinv.present_length]; exact hk)

/-! ## Theorems: coverage (C11) -/

/-- C11 fails on the code as worded: for the validated descriptor with
2147483647 input feature maps, 2 output feature maps and 2147483648
connections, the placement loop
`for (int i = 0; i < static_cast<int>(feature_map_connection_count); ++i)` is
not entered, the call completes with the row offsets `[0, 0, 0]`: both slices
are empty, so no input occurs in a slice and `row_offsets[1] > row_offsets[0]`
does not hold. -/
theorem empty_slices_for_large_connection_count :
    validated ⟨[1], 2147483647, 2, 2147483648, [0], [0]⟩ ∧
    randomize_custom_data ⟨[1], 2147483647, 2, 2147483648, [0], [0]⟩
      ⟨List.replicate 2147483648 7, [7, 7, 7]⟩ (fun _ => 0) 0 =
      .ok (⟨List.replicate 2147483648 7, [0, 0, 0]⟩, 0) ∧
    csr_slice ⟨List.replicate 2147483648 7, [0, 0, 0]⟩ 0 = [] ∧
    csr_slice ⟨List.replicate 2147483648 7, [0, 0, 0]⟩ 1 = [] ∧
    ¬ (([0, 0, 0] : List Int).getD 1 0 > ([0, 0, 0] : List Int).getD 0 0) := by
  refine ⟨by decide, ?_, rfl, rfl, by decide⟩
  rw [randomize_custom_data_eq ⟨[1], 2147483647, 2, 2147483648, [0], [0]⟩
    ⟨List.replicate 2147483648 7, [7, 7, 7]⟩ (fun _ => 0) 0 (by decide) (by decide)
    (by rw [int_loop_iterations_of_ge _ (by decide) (by decide)]; exact Nat.zero_le _) rfl]
  simp only [int_loop_iterations_of_ge 2147483648 (by decide) (by decide), place_connections,
    initial_connection_state, List.drop_zero]
  rfl

/-- C11, amended: for every validated descriptor with
`feature_map_connection_count < 2^31`, every `data_custom` sized as
`get_data_custom_config` declares and every sequence of generator outputs for
which `randomize_custom_data` completes, every input feature map index in
`[0, input_feature_map_count)` occurs in the slice of at least one output
feature map, and every output feature map has a non-empty slice:
`row_offsets[k+1] > row_offsets[k]` for every `k` below
`output_feature_map_count`. -/
theorem every_input_and_output_is_connected (d : sparse_convolution_layer)
    (dc dc1 : layer_data_custom) (generator : Nat → Nat) (pos pos1 : Nat)
    (hd : validated d) (hconn : d.feature_map_connection_count < 2147483648)
    (hcols : dc.columns.length = d.feature_map_connection_count)
    (hrows : dc.row_offsets.length = d.output_feature_map_count + 1)
    (h : randomize_custom_data d dc generator pos = .ok (dc1, pos1)) :
    (∀ x, x < d.input_feature_map_count →
      ∃ k, k < d.output_feature_map_count ∧ (x : Int) ∈ csr_slice dc1 k) ∧
    (∀ k, k < d.output_feature_map_count →
      dc1.row_offsets.getD k 0 < dc1.row_offsets.getD (k + 1) 0) := by
  have hc := validated_consistent d hd
  obtain ⟨st, hpc, hget, hslice⟩ :=
    randomize_custom_data_state d dc dc1 generator pos pos1 hd hconn hcols hrows h
  have hinv := place_connections_scan_invariant d generator _ _ st 0 hd
    (initial_scan_invariant d pos hd) hpc
  rw [Nat.zero_add] at hinv
  constructor
  · intro x hx
    obtain ⟨r, hr1, hr2⟩ := hinv.round
    have hpne := refilled_pool_ne_nil d st (by omega)
    have hpos : 0 < (refilled_pool d st).length := List.length_pos.2 hpne
    have hr : 0 < r := by
      rcases Nat.eq_zero_or_pos r with h0 | h0
      · rw [h0, Nat.zero_add, Nat.one_mul] at hr1
        have := hc.conn_ge_in
        omega
      · exact h0
    have hdeg : 0 < input_degree st.out_fm_in_fm_present_list x := by
      rw [hr2 x hx]
      split_ifs <;> omega
    obtain ⟨o, ho, hmem⟩ := exists_output_with_input _ _ hdeg
    rw [hinv.present_length] at ho
    exact ⟨o, ho, by rw [hslice o ho]; exact hmem⟩
  · intro k hk
    have hge := hinv.start_ge
    rw [Nat.min_eq_right hc.conn_ge_out] at hge
    have hcons := hinv.consumed_before_start k (by omega)
    have hsl := hinv.slots_eq k (by have := hinv.start_le; omega)
    rw [hcons, Nat.mod_eq_of_lt hk, Nat.div_eq_of_lt hk] at hsl
    have hrow : 0 < (st.out_fm_in_fm_present_list.getD k []).length := by
      by_contra hcon
      rw [if_neg hcon] at hsl
      omega
    rw [hget k (by omega), hget (k + 1) (by omega),
      edge_count_succ _ k (by rw [hinv.present_length]; exact hk)]
    push_cast
    omega

set_option maxRecDepth 4000 in
/-- C11, amended, at the scenario of the specification with the generator
outputs 0, 1, 2, ...: the run completes with the slices `0, 1, 3` and
`0, 2, 3`; the row offsets 0, 3, 6 increase and input 2 occurs in the slice of
output 1. -/
theorem every_input_and_output_is_connected_witness :
    validated ⟨[3, 3], 4, 2, 6, [0, 0], [0, 0]⟩ ∧
    randomize_custom_data ⟨[3, 3], 4, 2, 6, [0, 0], [0, 0]⟩ ⟨[9, 9, 9, 9, 9, 9], [9, 9, 9]⟩
      (fun n => n) 0 = .ok (⟨[0, 1, 3, 0, 2, 3], [0, 3, 6]⟩, 5) ∧
    (∃ k, k < 2 ∧ ((2 : Nat) : Int) ∈ csr_slice ⟨[0, 1, 3, 0, 2, 3], [0, 3, 6]⟩ k) ∧
    ([0, 3, 6] : List Int).getD 1 0 < ([0, 3, 6] : List Int).getD 2 0 :=
  ⟨by decide, by decide,
   (every_input_and_output_is_connected ⟨[3, 3], 4, 2, 6, [0, 0], [0, 0]⟩
      ⟨[9, 9, 9, 9, 9, 9], [9, 9, 9]⟩ ⟨[0, 1, 3, 0, 2, 3], [0, 3, 6]⟩ (fun n => n) 0 5
      (by decide) (by decide) rfl rfl (by decide)).1 2 (by decide),
   (every_input_and_output_is_connected ⟨[3, 3], 4, 2, 6, [0, 0], [0, 0]⟩
      ⟨[9, 9, 9, 9, 9, 9], [9, 9, 9]⟩ ⟨[0, 1, 3, 0, 2, 3], [0, 3, 6]⟩ (fun n => n) 0 5
      (by decide) (by decide) rfl rfl (by decide)).2 1 (by decide)⟩

/-! ## Lemmas: completion in the dense case -/

/-- In the dense case an iteration of the placement loop that is due
completes: some output feature map lacks a pool input, and the last slot of
every output is never consumed. -/
theorem dense_place_connection_completes (d : sparse_convolution_layer)
    (generator : Nat → Nat) (st : connection_state) (i : Nat) (hd : validated d)
    (hdense : d.feature_map_connection_count =
      d.input_feature_map_count * d.output_feature_map_count)
    (hconn : d.feature_map_connection_count < 2147483648)
    (hp : placement_invariant d st i) (hs : scan_invariant d st i)
    (hi : i < d.feature_map_connection_count) :
    ∃ st1, place_connection d generator st = .ok st1 := by
  have hc := validated_consistent d hd
  have hge := hc.conn_ge_out
  have hin : 0 < d.input_feature_map_count := by
    rcases Nat.eq_zero_or_pos d.input_feature_map_count with h0 | h0
    · rw [h0, Nat.zero_mul] at hdense; omega
    · exact h0
  have hout : 0 < d.output_feature_map_count := by
    rcases Nat.eq_zero_or_pos d.output_feature_map_count with h0 | h0
    · rw [h0, Nat.mul_zero] at hdense; omega
    · exact h0
  have hL : st.output_feature_map_id_list.length =
      d.feature_map_connection_count + d.output_feature_map_count := by
    rw [hs.slots_length]
    unfold u32_add U32_MOD
    exact Nat.mod_eq_of_lt (by omega)
  have hcomm : d.output_feature_map_count * d.input_feature_map_count =
      d.feature_map_connection_count := by rw [hdense, Nat.mul_comm]
  have hrow_le : ∀ o, o < d.output_feature_map_count →
      (st.out_fm_in_fm_present_list.getD o []).length ≤ d.input_feature_map_count := by
    intro o ho
    have hmem : st.out_fm_in_fm_present_list.getD o [] ∈ st.out_fm_in_fm_present_list := by
      rw [List.getD_eq_getElem _ _ (by rw [hs.present_length]; exact ho)]
      exact List.getElem_mem _
    exact ascending_length_le _ _ (hp.ascending _ hmem) (hp.inputs _ hmem)
  have hrow_lt : ∀ o, o < d.output_feature_map_count →
      set_difference (refilled_pool d st) (st.out_fm_in_fm_present_list.getD o []) ≠ [] →
      (st.out_fm_in_fm_present_list.getD o []).length < d.input_feature_map_count := by
    intro o ho hcand
    obtain ⟨n, hn, hnr⟩ := (set_difference_ne_nil_iff _ _).1 hcand
    have hmem : st.out_fm_in_fm_present_list.getD o [] ∈ st.out_fm_in_fm_present_list := by
      rw [List.getD_eq_getElem _ _ (by rw [hs.present_length]; exact ho)]
      exact List.getElem_mem _
    exact row_length_lt _ _ n (hp.ascending _ hmem) (hp.inputs _ hmem) (hs.pool_lt n hn) hnr
  obtain ⟨n, l, hnl⟩ := List.exists_cons_of_ne_nil (refilled_pool_ne_nil d st hin)
  have hn : n ∈ refilled_pool d st := by rw [hnl]; exact List.mem_cons_self _ _
  have hnlt := hs.pool_lt n hn
  obtain ⟨r, hr1, hr2⟩ := hs.round
  have hplen := length_le_of_nodup_lt _ _ hs.pool_nodup hs.pool_lt
  have hr : r < d.output_feature_map_count := by
    by_contra hcon
    have hmul : d.output_feature_map_count * d.input_feature_map_count ≤
        r * d.input_feature_map_count := Nat.mul_le_mul_right _ (by omega)
    rw [Nat.succ_mul] at hr1
    omega
  have hdeg := hr2 n hnlt
  rw [if_pos hn] at hdeg
  obtain ⟨o, ho, hno⟩ := exists_output_without_input st.out_fm_in_fm_present_list n
    (by rw [hdeg, hs.present_length]; exact hr)
  rw [hs.present_length] at ho
  have hcand : set_difference (refilled_pool d st)
      (st.out_fm_in_fm_present_list.getD o []) ≠ [] :=
    (set_difference_ne_nil_iff _ _).2 ⟨n, hn, hno⟩
  have hlt := hrow_lt o ho hcand
  have hmul : d.output_feature_map_count *
      ((st.out_fm_in_fm_present_list.getD o []).length + 1) ≤
      d.output_feature_map_count * d.input_feature_map_count := Nat.mul_le_mul_left _ hlt
  rw [Nat.mul_succ] at hmul
  obtain ⟨hval, hstart⟩ := first_slot_unconsumed d st i hs o ho (by omega)
  cases hscan : spec_scan_slots st.out_fm_in_fm_present_list (refilled_pool d st)
      (st.output_feature_map_id_list.drop st.start_feature_map_index)
      st.start_feature_map_index with
  | none =>
    exfalso
    have hn := spec_scan_slots_none _ _ _ _ hscan
      (o + d.output_feature_map_count *
        (st.out_fm_in_fm_present_list.getD o []).length - st.start_feature_map_index)
      (by rw [List.length_drop]; omega)
    rw [getD_drop, Nat.add_sub_cancel' hstart, hval, Int.toNat_ofNat] at hn
    rcases hn with hn | hn
    · omega
    · exact hcand hn
  | some idx =>
    obtain ⟨hle, hlt1, hslot, hcand1⟩ := spec_scan_slots_some _ _ _ _ _ hscan
    rw [getD_drop, Nat.add_sub_cancel' hle] at hslot hcand1
    rw [List.length_drop] at hlt1
    have hidx : idx < st.output_feature_map_id_list.length := by omega
    obtain ⟨hown, -⟩ := slot_owner d st i hs idx hidx hslot
    rw [hown, Int.toNat_ofNat] at hcand1
    have hdiv := scanned_slot_is_first d st i hs hout idx hscan
    have hlt2 := hrow_lt _ (Nat.mod_lt idx hout) hcand1
    rw [← hdiv] at hlt2
    have hdm := Nat.div_add_mod idx d.output_feature_map_count
    have hmod := Nat.mod_lt idx hout
    have hmul2 : d.output_feature_map_count * (idx / d.output_feature_map_count + 1) ≤
        d.output_feature_map_count * d.input_feature_map_count := Nat.mul_le_mul_left _ hlt2
    rw [Nat.mul_succ] at hmul2
    have hidxlt : idx < d.feature_map_connection_count := by omega
    have hlast := hs.slots_eq
      (d.output_feature_map_count - 1 +
        d.output_feature_map_count * d.input_feature_map_count) (by omega)
    rw [slot_index_div _ _ _ (by omega), slot_index_mod _ _ _ (by omega),
      if_neg (by have := hrow_le (d.output_feature_map_count - 1) (by omega); omega)] at hlast
    cases hadv : advance_start ((st.output_feature_map_id_list.set idx (-1)).drop
        st.start_feature_map_index) st.start_feature_map_index with
    | none =>
      exfalso
      have ha := advance_start_none _ _ hadv
        (d.output_feature_map_count - 1 +
          d.output_feature_map_count * d.input_feature_map_count -
          st.start_feature_map_index)
        (by rw [List.length_drop, List.length_set]; omega)
      rw [getD_drop, Nat.add_sub_cancel' (by omega),
        getD_set_ne _ _ _ _ (by omega), hlast] at ha
      omega
    | some s => exact place_connection_completes d generator st idx s hscan (by omega) hadv

/-- In the dense case the placement loop completes. -/
theorem dense_place_connections_complete (d : sparse_convolution_layer)
    (generator : Nat → Nat) (n : Nat) (st : connection_state) (i : Nat) (hd : validated d)
    (hdense : d.feature_map_connection_count =
      d.input_feature_map_count * d.output_feature_map_count)
    (hconn : d.feature_map_connection_count < 2147483648)
    (hp : placement_invariant d st i) (hs : scan_invariant d st i)
    (hi : i + n ≤ d.feature_map_connection_count) :
    ∃ st1, place_connections d generator n st = .ok st1 := by
  induction n generalizing st i with
  | zero => exact ⟨st, rfl⟩
  | succ n ih =>
    obtain ⟨st2, h2⟩ :=
      dense_place_connection_completes d generator st i hd hdense hconn hp hs (by omega)
    have hp2 := place_connection_invariant d generator st st2 i hp h2
    have hs2 := place_connection_scan_invariant d generator st st2 i hd hs h2
    obtain ⟨st1, h1⟩ := ih st2 (i + 1) hp2 hs2 (by omega)
    refine ⟨st1, ?_⟩
    unfold place_connections
    rw [h2]
    exact h1

/-! ## Theorems: the dense case and the internal error (C12, C13) -/

/-- C12 fails on the code as worded: for the validated dense descriptor with
1073741824 input feature maps, 2 output feature maps and
2147483648 = 1073741824 * 2 connections, the placement loop
`for (int i = 0; i < static_cast<int>(feature_map_connection_count); ++i)` is
not entered, the call completes with the row offsets `[0, 0, 0]`: the slice of
output feature map 0 is empty, not `0, 1, ..., 1073741823`, and
`row_offsets[1]` is 0, not 1073741824. -/
theorem dense_slices_empty_for_large_connection_count :
    validated ⟨[1], 1073741824, 2, 2147483648, [0], [0]⟩ ∧
    (2147483648 : Nat) = 1073741824 * 2 ∧
    randomize_custom_data ⟨[1], 1073741824, 2, 2147483648, [0], [0]⟩
      ⟨List.replicate 2147483648 7, [7, 7, 7]⟩ (fun _ => 0) 0 =
      .ok (⟨List.replicate 2147483648 7, [0, 0, 0]⟩, 0) ∧
    csr_slice ⟨List.replicate 2147483648 7, [0, 0, 0]⟩ 0 = [] ∧
    ([0, 0, 0] : List Int).getD 1 0 ≠ ((1 * 1073741824 : Nat) : Int) := by
  refine ⟨by decide, by decide, ?_, rfl, by decide⟩
  rw [randomize_custom_data_eq ⟨[1], 1073741824, 2, 2147483648, [0], [0]⟩
    ⟨List.replicate 2147483648 7, [7, 7, 7]⟩ (fun _ => 0) 0 (by decide) (by decide)
    (by rw [int_loop_iterations_of_ge _ (by decide) (by decide)]; exact Nat.zero_le _) rfl]
  simp only [int_loop_iterations_of_ge 2147483648 (by decide) (by decide), place_connections,
    initial_connection_state, List.drop_zero]
  rfl

/-- C12, amended: for every validated descriptor with
`feature_map_connection_count = input_feature_map_count *
output_feature_map_count < 2^31`, every `data_custom` sized as
`get_data_custom_config` declares and every sequence of generator outputs,
`randomize_custom_data` completes, the slice of each output feature map is
exactly `0, 1, ..., input_feature_map_count - 1`, and
`row_offsets[k] = k * input_feature_map_count` for every
`k <= output_feature_map_count`: every (input, output) pair is present exactly
once. -/
theorem dense_case_completes_with_all_pairs (d : sparse_convolution_layer)
    (dc : layer_data_custom) (generator : Nat → Nat) (pos : Nat)
    (hd : validated d)
    (hdense : d.feature_map_connection_count =
      d.input_feature_map_count * d.output_feature_map_count)
    (hconn : d.feature_map_connection_count < 2147483648)
    (hcols : dc.columns.length = d.feature_map_connection_count)
    (hrows : dc.row_offsets.length = d.output_feature_map_count + 1) :
    ∃ dc1 pos1, randomize_custom_data d dc generator pos = .ok (dc1, pos1) ∧
      (∀ k, k < d.output_feature_map_count →
        csr_slice dc1 k = (List.range d.input_feature_map_count).map Int.ofNat) ∧
      (∀ k, k ≤ d.output_feature_map_count →
        dc1.row_offsets.getD k 0 = ((k * d.input_feature_map_count : Nat) : Int)) := by
  have hc := validated_consistent d hd
  have hout : d.output_feature_map_count < 2147483648 :=
    lt_of_le_of_lt hc.conn_ge_out hconn
  have hit := int_loop_iterations_of_lt _ hconn
  obtain ⟨st, hst⟩ := dense_place_connections_complete d generator
    d.feature_map_connection_count (initial_connection_state d pos) 0 hd hdense hconn
    (initial_invariant d pos hd) (initial_scan_invariant d pos hd) (by omega)
  have heq := randomize_custom_data_eq d dc generator pos hd hout (by rw [hit, hcols]) hrows
  rw [hit, hst] at heq
  obtain ⟨st2, hst2, hget, hslice⟩ :=
    randomize_custom_data_state d dc _ generator pos _ hd hconn hcols hrows heq
  rw [hst] at hst2
  simp only [Except.ok.injEq] at hst2
  subst hst2
  have hp := place_connections_invariant d generator _ _ st 0 (initial_invariant d pos hd) hst
  have hsum := hp.edges
  rw [Nat.zero_add, hdense] at hsum
  have hle : ∀ a ∈ st.out_fm_in_fm_present_list.map List.length,
      a ≤ d.input_feature_map_count := by
    intro a ha
    obtain ⟨s, hs, hsa⟩ := List.mem_map.1 ha
    rw [← hsa]
    exact ascending_length_le _ _ (hp.ascending _ hs) (hp.inputs _ hs)
  have hall := eq_of_sum_eq _ _ hle (by rw [List.length_map, hp.present_length, hsum])
  have hlen : ∀ s ∈ st.out_fm_in_fm_present_list, s.length = d.input_feature_map_count :=
    fun s hs => hall _ (List.mem_map.2 ⟨s, hs, rfl⟩)
  refine ⟨_, _, heq, fun k hk => ?_, fun k hk => ?_⟩
  · have hmem : st.out_fm_in_fm_present_list.getD k [] ∈ st.out_fm_in_fm_present_list := by
      rw [List.getD_eq_getElem _ _ (by rw [hp.present_length]; exact hk)]
      exact List.getElem_mem _
    rw [hslice k hk, List.range_eq_range']
    have h1 := ascending_eq_range _ 0 (hp.ascending _ hmem) (by
      intro x hx
      have := hp.inputs _ hmem x hx
      rw [hlen _ hmem]
      push_cast
      omega)
    rw [hlen _ hmem] at h1
    exact h1
  · rw [hget k hk, edge_count_of_equal_lengths _ _ k hlen (by rw [hp.present_length]; exact hk)]

set_option maxRecDepth 4000 in
/-- C12, amended, at a dense descriptor with 2 input and 3 output feature maps
and the generator outputs 0, 1, 2, ...: the run completes, every slice is
`0, 1` and the row offsets are 0, 2, 4, 6. -/
theorem dense_case_completes_with_all_pairs_witness :
    validated ⟨[1], 2, 3, 6, [0], [0]⟩ ∧
    randomize_custom_data ⟨[1], 2, 3, 6, [0], [0]⟩ ⟨[9, 9, 9, 9, 9, 9], [9, 9, 9, 9]⟩
      (fun n => n) 0 = .ok (⟨[0, 1, 0, 1, 0, 1], [0, 2, 4, 6]⟩, 2) ∧
    ∃ dc1 pos1, randomize_custom_data ⟨[1], 2, 3, 6, [0], [0]⟩
        ⟨[9, 9, 9, 9, 9, 9], [9, 9, 9, 9]⟩ (fun n => n) 0 = .ok (dc1, pos1) ∧
      (∀ k, k < 3 → csr_slice dc1 k = (List.range 2).map Int.ofNat) ∧
      (∀ k, k ≤ 3 → dc1.row_offsets.getD k 0 = ((k * 2 : Nat) : Int)) :=
  ⟨by decide, by decide,
   dense_case_completes_with_all_pairs ⟨[1], 2, 3, 6, [0], [0]⟩
     ⟨[9, 9, 9, 9, 9, 9], [9, 9, 9, 9]⟩ (fun n => n) 0 (by decide) (by decide) (by decide)
     rfl rfl⟩

set_option maxRecDepth 100000 in
/-- C13 fails on the code: the validated descriptor with 11 input feature
maps, 4 output feature maps and 33 connections (11 <= 33 <= 44) reaches the
internal-error branch with the generator outputs of `stuck_generator`.  After
32 iterations the outputs have 7, 9, 9 and 7 edges; the last third of the pool
holds input 9 only; outputs 1 and 2 have used all their nine slots, and
outputs 0 and 3, which have slots left, are connected to input 9 already.  The
scan of iteration 33 runs past the last slot and the call throws. -/
theorem internal_error_reached_by_validated_descriptor :
    validated ⟨[3], 11, 4, 33, [0], [0]⟩ ∧
    place_connections ⟨[3], 11, 4, 33, [0], [0]⟩ stuck_generator 32
        (initial_connection_state ⟨[3], 11, 4, 33, [0], [0]⟩ 0) =
      .ok ⟨[[0, 2, 3, 4, 5, 9, 10], [0, 1, 2, 4, 5, 6, 7, 8, 10],
            [0, 1, 2, 3, 5, 6, 7, 8, 10], [1, 3, 4, 6, 7, 8, 9]],
           [-1, -1, -1, -1, -1, -1, -1, -1, -1, -1, -1, -1, -1, -1, -1, -1, -1, -1, -1, -1,
            -1, -1, -1, -1, -1, -1, -1, -1, 0, -1, -1, 3, 0, -1, -1, 3, 0],
           [9], 28, 30⟩ ∧
    randomize_custom_data ⟨[3], 11, 4, 33, [0], [0]⟩
      ⟨List.replicate 33 0, List.replicate 5 0⟩ stuck_generator 0 =
      .error .internal_error_sparse_connections ∧
    error_kind .internal_error_sparse_connections = .InternalInconsistency := by
  decide

/-! ## Lemmas: weight initialization -/

theorem draw_weight_some (samples : Nat → Int) (m : Option Nat) (fuel position : Nat)
    (val : Int) (position1 : Nat)
    (h : draw_weight samples m fuel position = some (val, position1)) :
    exceeds val m = false ∧ position < position1 ∧ val = samples (position1 - 1) := by
  induction fuel generalizing position with
  | zero => exact Option.noConfusion h
  | succ fuel ih =>
    unfold draw_weight at h
    by_cases he : exceeds (samples position) m = true
    · rw [if_pos he] at h
      obtain ⟨h1, h2, h3⟩ := ih (position + 1) h
      exact ⟨h1, by omega, h3⟩
    · rw [if_neg he] at h
      simp only [Option.some.injEq, Prod.mk.injEq] at h
      obtain ⟨h1, h2⟩ := h
      subst h1 h2
      exact ⟨by simpa using he, by omega, by simp⟩

theorem exceeds_eq_false_iff (val : Int) (m : Option Nat) :
    exceeds val m = false ↔ ∀ b, m = some b → val.natAbs ≤ b := by
  cases m with
  | none => simp [exceeds]
  | some b => simp [exceeds]

theorem getD_set_int (l : List Int) (i j : Nat) (a : Int) (h : i ≠ j) :
    (l.set i a).getD j 0 = l.getD j 0 := by
  simp only [List.getD_eq_getElem?_getD, List.getElem?_set_ne h]

/-- What a completed inner loop of `randomize_weights` has done. -/
theorem fill_block_some (samples : Nat → Int) (m : Option Nat) (fuel n : Nat)
    (weights : List Int) (cwi position : Nat) (w1 : List Int) (c1 p1 : Nat)
    (h : fill_block samples m fuel n weights cwi position = some (w1, c1, p1))
    (hfit : cwi + n ≤ weights.length) (hlen : weights.length < U32_MOD) :
    w1.length = weights.length ∧ c1 = cwi + n ∧
    (∀ j, j < cwi → w1.getD j 0 = weights.getD j 0) ∧
    (∀ j, cwi ≤ j → j < cwi + n → exceeds (w1.getD j 0) m = false) ∧
    (∀ j, cwi + n ≤ j → w1.getD j 0 = weights.getD j 0) := by
  induction n generalizing weights cwi position with
  | zero =>
    simp only [fill_block, Option.some.injEq, Prod.mk.injEq] at h
    obtain ⟨h1, h2, -⟩ := h
    subst h1 h2
    exact ⟨rfl, rfl, fun j _ => rfl, fun j h1 h2 => absurd h2 (by omega), fun j _ => rfl⟩
  | succ n ih =>
    unfold fill_block at h
    cases hdraw : draw_weight samples m fuel position with
    | none => rw [hdraw] at h; exact Option.noConfusion h
    | some vp =>
      obtain ⟨val, position1⟩ := vp
      rw [hdraw] at h
      dsimp only at h
      obtain ⟨hex, -, -⟩ := draw_weight_some _ _ _ _ _ _ hdraw
      have hadd : u32_add cwi 1 = cwi + 1 := by
        unfold u32_add
        exact Nat.mod_eq_of_lt (by omega)
      rw [hadd] at h
      obtain ⟨hl, hc, hpre, hin, hpost⟩ := ih (weights.set cwi val) (cwi + 1) position1 h
        (by rw [List.length_set]; omega) (by rw [List.length_set]; exact hlen)
      rw [List.length_set] at hl
      refine ⟨hl, by omega, fun j hj => ?_, fun j hj1 hj2 => ?_, fun j hj => ?_⟩
      · rw [hpre j (by omega), getD_set_int _ _ _ _ (by omega)]
      · by_cases hjc : j = cwi
        · subst hjc
          rw [hpre j (by omega), getD_set_eq_self _ _ _ (by omega)]
          exact hex
        · exact hin j (by omega) (by omega)
      · rw [hpost j (by omega), getD_set_int _ _ _ _ (by omega)]

theorem input_neuron_count_of_zero (d : sparse_convolution_layer) (row_offsets : List Int)
    (k : Nat)
    (h : ¬ static_cast_unsigned (i32_wrap (row_offsets.getD (k + 1) 0 -
      row_offsets.getD k 0)) > 0) :
    input_neuron_count d row_offsets k = 0 := by
  unfold input_neuron_count
  have h0 : static_cast_unsigned (i32_wrap (row_offsets.getD (k + 1) 0 -
      row_offsets.getD k 0)) = 0 := by omega
  simp only [h0, u32_mul, Nat.mul_zero, Nat.zero_mod]

/-- What a completed outer loop of `randomize_weights` has done: block `k`
after `output_feature_map_id` holds values that passed the test against
`max_abs_value`, and nothing outside the blocks has changed. -/
theorem fill_blocks_some (d : sparse_convolution_layer) (row_offsets : List Int)
    (samples : Nat → Int) (fuel n : Nat) (id : Nat) (weights : List Int) (cwi position : Nat)
    (w1 : List Int) (c1 p1 : Nat)
    (h : fill_blocks d row_offsets samples fuel n id weights cwi position = some (w1, c1, p1))
    (hfit : cwi + block_start d row_offsets id n ≤ weights.length)
    (hlen : weights.length < U32_MOD) :
    w1.length = weights.length ∧ c1 = cwi + block_start d row_offsets id n ∧
    (∀ j, j < cwi → w1.getD j 0 = weights.getD j 0) ∧
    (∀ k, k < n → ∀ i, i < input_neuron_count d row_offsets (id + k) →
      exceeds (w1.getD (cwi + block_start d row_offsets id k + i) 0)
        (max_abs_value (input_neuron_count d row_offsets (id + k))) = false) ∧
    (∀ j, cwi + block_start d row_offsets id n ≤ j → w1.getD j 0 = weights.getD j 0) := by
  induction n generalizing id weights cwi position with
  | zero =>
    simp only [fill_blocks, Option.some.injEq, Prod.mk.injEq] at h
    obtain ⟨h1, h2, -⟩ := h
    subst h1 h2
    exact ⟨rfl, rfl, fun j _ => rfl, fun k hk => absurd hk (Nat.not_lt_zero _),
      fun j _ => rfl⟩
  | succ n ih =>
    unfold fill_blocks at h
    dsimp only at h
    have hbs : block_start d row_offsets id (n + 1) =
        input_neuron_count d row_offsets id + block_start d row_offsets (id + 1) n := rfl
    rw [hbs] at hfit ⊢
    by_cases hcount : static_cast_unsigned (i32_wrap (row_offsets.getD (id + 1) 0 -
        row_offsets.getD id 0)) > 0
    · rw [if_pos hcount] at h
      cases hblock : fill_block samples
          (max_abs_value (input_neuron_count d row_offsets id)) fuel
          (input_neuron_count d row_offsets id) weights cwi position with
      | none => rw [hblock] at h; exact Option.noConfusion h
      | some r =>
        obtain ⟨w2, c2, p2⟩ := r
        rw [hblock] at h
        dsimp only at h
        obtain ⟨hl2, hc2, hpre2, hin2, hpost2⟩ :=
          fill_block_some _ _ _ _ _ _ _ _ _ _ hblock (by omega) hlen
        subst hc2
        obtain ⟨hl, hc, hpre, hin, hpost⟩ := ih (id + 1) w2
          (cwi + input_neuron_count d row_offsets id) p2 h (by rw [hl2]; omega)
          (by rw [hl2]; exact hlen)
        refine ⟨by rw [hl, hl2], by omega, fun j hj => ?_, fun k hk i hi => ?_,
          fun j hj => ?_⟩
        · rw [hpre j (by omega), hpre2 j hj]
        · cases k with
          | zero =>
            rw [Nat.add_zero] at hi ⊢
            show exceeds (w1.getD (cwi + 0 + i) 0) _ = false
            rw [Nat.add_zero, hpre _ (by omega)]
            exact hin2 _ (by omega) (by omega)
          | succ k =>
            have e1 : id + (k + 1) = id + 1 + k := by omega
            have e2 : block_start d row_offsets id (k + 1) =
                input_neuron_count d row_offsets id +
                  block_start d row_offsets (id + 1) k := rfl
            rw [e1] at hi ⊢
            rw [e2, ← Nat.add_assoc]
            exact hin k (by omega) i hi
        · rw [hpost j (by omega), hpost2 j (by omega)]
    · rw [if_neg hcount] at h
      have hz := input_neuron_count_of_zero d row_offsets id hcount
      rw [hz, Nat.zero_add] at hfit ⊢
      obtain ⟨hl, hc, hpre, hin, hpost⟩ := ih (id + 1) weights cwi position h hfit hlen
      refine ⟨hl, hc, hpre, fun k hk i hi => ?_, hpost⟩
      cases k with
      | zero =>
        rw [Nat.add_zero, hz] at hi
        exact absurd hi (Nat.not_lt_zero _)
      | succ k =>
        have e1 : id + (k + 1) = id + 1 + k := by omega
        have e2 : block_start d row_offsets id (k + 1) =
            input_neuron_count d row_offsets id +
              block_start d row_offsets (id + 1) k := rfl
        rw [e1] at hi ⊢
        rw [e2, hz, Nat.zero_add]
        exact hin k (by omega) i hi

theorem edge_count_le (P : List (List Int)) (k : Nat) :
    edge_count P k ≤ (P.map List.length).sum := by
  unfold edge_count
  conv_rhs => rw [← List.take_append_drop k P]
  rw [List.map_append, List.sum_append]
  omega

theorem block_start_succ (d : sparse_convolution_layer) (row_offsets : List Int)
    (id k : Nat) :
    block_start d row_offsets id (k + 1) =
      block_start d row_offsets id k + input_neuron_count d row_offsets (id + k) := by
  induction k generalizing id with
  | zero =>
    show input_neuron_count d row_offsets id + 0 = 0 + input_neuron_count d row_offsets (id + 0)
    rw [Nat.add_zero, Nat.zero_add, Nat.add_zero]
  | succ k ih =>
    have e1 : block_start d row_offsets id (k + 1 + 1) =
        input_neuron_count d row_offsets id + block_start d row_offsets (id + 1) (k + 1) := rfl
    have e2 : block_start d row_offsets id (k + 1) =
        input_neuron_count d row_offsets id + block_start d row_offsets (id + 1) k := rfl
    have e3 : id + 1 + k = id + (k + 1) := by omega
    rw [e1, ih (id + 1), e2, e3, Nat.add_assoc]

/-- The `input_neuron_count` of a row of a generated graph is the fan-in
`window_volume * count`, computed without wrap. -/
theorem input_neuron_count_of_rows (d : sparse_convolution_layer) (row_offsets : List Int)
    (k first count : Nat)
    (h1 : row_offsets.getD k 0 = (first : Int))
    (h2 : row_offsets.getD (k + 1) 0 = ((first + count : Nat) : Int))
    (hc : count < 2147483648) (hw : d.window_sizes.prod * count < U32_MOD)
    (hp : d.window_sizes.prod < U32_MOD) :
    input_neuron_count d row_offsets k = d.window_sizes.prod * count := by
  unfold input_neuron_count
  have hdiff : row_offsets.getD (k + 1) 0 - row_offsets.getD k 0 = (count : Int) := by
    rw [h1, h2]
    push_cast
    omega
  have hcast : static_cast_unsigned (i32_wrap (count : Int)) = count := by
    unfold static_cast_unsigned i32_wrap
    omega
  rw [hdiff, hcast, foldl_u32_mul _ 1 (by decide), Nat.one_mul, Nat.mod_eq_of_lt hp]
  unfold u32_mul
  exact Nat.mod_eq_of_lt hw

/-! ## Theorems: weight initialization (C18) -/

set_option maxRecDepth 100000 in
/-- C18 fails on the code as worded, in two ways.  With window sizes `[5, 5]`
and one input connected, the fan-in is 25 and `max_abs_value`, computed in
`float`, is 0.60000002384185791015625 (10066330 * 2^-24): this sample is
stored in all 25 weights and is larger than 3 * (1 / sqrt(25)) = 0.6.  With
window sizes `[641, 6700417]` and one input connected, the fan-in is
4294967297, but `input_neuron_count`, an `unsigned int`, is 1 and
`max_abs_value` is 3: the sample 2.0 is stored and is larger than
3 * (1 / sqrt(4294967297)). -/
theorem stored_weight_exceeds_three_sigma :
    validated ⟨[5, 5], 1, 1, 1, [0, 0], [0, 0]⟩ ∧
    randomize_custom_data ⟨[5, 5], 1, 1, 1, [0, 0], [0, 0]⟩ ⟨[9], [9, 9]⟩ (fun _ => 0) 0 =
      .ok (⟨[0], [0, 1]⟩, 0) ∧
    randomize_weights ⟨[5, 5], 1, 1, 1, [0, 0], [0, 0]⟩ ⟨List.replicate 25 0, [5]⟩
      ⟨[0], [0, 1]⟩ (fun _ => 10066330 * 2 ^ 125) 0 1 =
      some (⟨List.replicate 25 (10066330 * 2 ^ 125), [0]⟩, 25) ∧
    ¬ spec_within_three_sigma (10066330 * 2 ^ 125) ([5, 5].prod * 1) ∧
    validated ⟨[641, 6700417], 1, 1, 1, [0, 0], [0, 0]⟩ ∧
    randomize_custom_data ⟨[641, 6700417], 1, 1, 1, [0, 0], [0, 0]⟩ ⟨[9], [9, 9]⟩
      (fun _ => 0) 0 = .ok (⟨[0], [0, 1]⟩, 0) ∧
    randomize_weights ⟨[641, 6700417], 1, 1, 1, [0, 0], [0, 0]⟩ ⟨[0], [5]⟩
      ⟨[0], [0, 1]⟩ (fun _ => 2 * 2 ^ 149) 0 1 = some (⟨[2 * 2 ^ 149], [0]⟩, 1) ∧
    ¬ spec_within_three_sigma (2 * 2 ^ 149) ([641, 6700417].prod * 1) := by
  decide

/-- C18, amended: for every validated descriptor with
`feature_map_connection_count < 2^31` and
`feature_map_connection_count * window_volume < 2^32`, every connectivity
graph that `randomize_custom_data` produced, every weight array sized as
`get_data_config` declares and every stream of samples for which
`randomize_weights` completes, each weight stored in the block of output
feature map `k` (the `fan_in_k = window_volume * count` weights from index
`window_volume * row_offsets[k]` on, `count` being the number of inputs
connected to `k`) has absolute value at most `max_abs_value`, the value of
`3.0F * (1.0F / sqrtf(static_cast<float>(fan_in_k)))` computed in `float`;
this value can be larger than 3 * (1 / sqrt(fan_in_k)). -/
theorem stored_weights_within_max_abs_value (d : sparse_convolution_layer)
    (dc dc1 : layer_data_custom) (generator : Nat → Nat) (pos pos1 : Nat)
    (data res : layer_data) (samples : Nat → Int) (position position1 fuel : Nat)
    (hd : validated d) (hconn : d.feature_map_connection_count < 2147483648)
    (hfan : d.feature_map_connection_count * d.window_sizes.prod < U32_MOD)
    (hcols : dc.columns.length = d.feature_map_connection_count)
    (hrows : dc.row_offsets.length = d.output_feature_map_count + 1)
    (hgraph : randomize_custom_data d dc generator pos = .ok (dc1, pos1))
    (hsize : data.weights.length = d.feature_map_connection_count * d.window_sizes.prod)
    (h : randomize_weights d data dc1 samples position fuel = some (res, position1)) :
    ∀ k, k < d.output_feature_map_count →
      ∃ first count : Nat,
        dc1.row_offsets.getD k 0 = (first : Int) ∧
        dc1.row_offsets.getD (k + 1) 0 = ((first + count : Nat) : Int) ∧
        count = (csr_slice dc1 k).length ∧
        ∀ i, i < d.window_sizes.prod * count →
          ∀ b, max_abs_value (d.window_sizes.prod * count) = some b →
            (res.weights.getD (d.window_sizes.prod * first + i) 0).natAbs ≤ b := by
  have hc := validated_consistent d hd
  obtain ⟨st, hpc, hget, hslice⟩ :=
    randomize_custom_data_state d dc dc1 generator pos pos1 hd hconn hcols hrows hgraph
  have hp := place_connections_invariant d generator _ _ st 0 (initial_invariant d pos hd) hpc
  have hsum := hp.edges
  rw [Nat.zero_add] at hsum
  have hplen := hp.present_length
  have hW : 0 < d.window_sizes.prod := prod_pos_of_ne_zero _ hc.window_pos
  intro k hk
  have hwlt : d.window_sizes.prod < U32_MOD :=
    Nat.lt_of_le_of_lt (Nat.le_mul_of_pos_left _ (by have := hc.conn_ge_out; omega)) hfan
  have hrow_le : ∀ m, m ≤ st.out_fm_in_fm_present_list.length →
      d.window_sizes.prod * edge_count st.out_fm_in_fm_present_list m ≤
        d.feature_map_connection_count * d.window_sizes.prod := by
    intro m hm
    have := edge_count_le st.out_fm_in_fm_present_list m
    rw [hsum] at this
    rw [Nat.mul_comm]
    exact Nat.mul_le_mul_right _ this
  have hinc : ∀ m, m < d.output_feature_map_count →
      input_neuron_count d dc1.row_offsets m =
        d.window_sizes.prod * (st.out_fm_in_fm_present_list.getD m []).length := by
    intro m hm
    have hs := edge_count_succ st.out_fm_in_fm_present_list m (by rw [hplen]; exact hm)
    have hle := edge_count_le st.out_fm_in_fm_present_list (m + 1)
    rw [hsum] at hle
    have hle2 := hrow_le (m + 1) (by rw [hplen]; omega)
    rw [hs, Nat.mul_add] at hle2
    exact input_neuron_count_of_rows d dc1.row_offsets m
      (edge_count st.out_fm_in_fm_present_list m)
      (st.out_fm_in_fm_present_list.getD m []).length (hget m (by omega))
      (by rw [hget (m + 1) (by omega), hs]) (by omega) (by omega) hwlt
  have hstart : ∀ m, m ≤ d.output_feature_map_count →
      block_start d dc1.row_offsets 0 m =
        d.window_sizes.prod * edge_count st.out_fm_in_fm_present_list m := by
    intro m hm
    induction m with
    | zero => rw [edge_count_zero, Nat.mul_zero]; rfl
    | succ m ih =>
      rw [block_start_succ, ih (by omega), Nat.zero_add, hinc m (by omega),
        edge_count_succ _ m (by rw [hplen]; omega), Nat.mul_add]
  unfold randomize_weights at h
  cases hfb : fill_blocks d dc1.row_offsets samples fuel d.output_feature_map_count 0
      data.weights 0 position with
  | none => rw [hfb] at h; exact Option.noConfusion h
  | some r =>
    obtain ⟨w1, c1, p1⟩ := r
    rw [hfb] at h
    simp only [Option.some.injEq, Prod.mk.injEq] at h
    obtain ⟨hres, -⟩ := h
    have htotal := hstart d.output_feature_map_count (le_refl _)
    have hec : edge_count st.out_fm_in_fm_present_list d.output_feature_map_count =
        d.feature_map_connection_count := by
      rw [← hplen, edge_count_length, hsum]
    rw [hec] at htotal
    obtain ⟨-, -, -, hin, -⟩ := fill_blocks_some d dc1.row_offsets samples fuel _ 0 _ 0 _ _ _ _
      hfb (by rw [Nat.zero_add, htotal, hsize, Nat.mul_comm]) (by rw [hsize]; exact hfan)
    refine ⟨edge_count st.out_fm_in_fm_present_list k,
      (st.out_fm_in_fm_present_list.getD k []).length, hget k (by omega), ?_, ?_,
      fun i hi b hb => ?_⟩
    · rw [hget (k + 1) (by omega), edge_count_succ _ k (by rw [hplen]; exact hk)]
    · rw [hslice k hk]
    · have h1 := hin k hk i (by rw [Nat.zero_add, hinc k hk]; exact hi)
      rw [Nat.zero_add, Nat.zero_add, hinc k hk, hstart k (by omega)] at h1
      rw [← hres]
      exact (exceeds_eq_false_iff _ _).1 h1 b hb

set_option maxRecDepth 100000 in
/-- C18, amended, at a descriptor with window size 2, two inputs and one
output: the fan-in is 4 and `max_abs_value` is 1.5.  The samples alternate
between 2.0, which is redrawn, and 1.5, which is stored; the four weights of
the block are 1.5. -/
theorem stored_weights_within_max_abs_value_witness :
    validated ⟨[2], 2, 1, 2, [0], [0]⟩ ∧
    randomize_custom_data ⟨[2], 2, 1, 2, [0], [0]⟩ ⟨[9, 9], [9, 9]⟩ (fun _ => 0) 0 =
      .ok (⟨[0, 1], [0, 2]⟩, 1) ∧
    randomize_weights ⟨[2], 2, 1, 2, [0], [0]⟩ ⟨[7, 7, 7, 7], [7]⟩ ⟨[0, 1], [0, 2]⟩
      (fun n => if n % 2 = 0 then 2 * 2 ^ 149 else 3 * 2 ^ 148) 0 2 =
      some (⟨[3 * 2 ^ 148, 3 * 2 ^ 148, 3 * 2 ^ 148, 3 * 2 ^ 148], [0]⟩, 8) ∧
    max_abs_value 4 = some (3 * 2 ^ 148) ∧
    ∃ first count : Nat,
      ([0, 2] : List Int).getD 0 0 = (first : Int) ∧
      ([0, 2] : List Int).getD (0 + 1) 0 = ((first + count : Nat) : Int) ∧
      count = (csr_slice ⟨[0, 1], [0, 2]⟩ 0).length ∧
      ∀ i, i < [2].prod * count →
        ∀ b, max_abs_value ([2].prod * count) = some b →
          (([3 * 2 ^ 148, 3 * 2 ^ 148, 3 * 2 ^ 148, 3 * 2 ^ 148] : List Int).getD
            ([2].prod * first + i) 0).natAbs ≤ b :=
  ⟨by decide, by decide, by decide, by decide,
   stored_weights_within_max_abs_value ⟨[2], 2, 1, 2, [0], [0]⟩ ⟨[9, 9], [9, 9]⟩
     ⟨[0, 1], [0, 2]⟩ (fun _ => 0) 0 1 ⟨[7, 7, 7, 7], [7]⟩
     ⟨[3 * 2 ^ 148, 3 * 2 ^ 148, 3 * 2 ^ 148, 3 * 2 ^ 148], [0]⟩
     (fun n => if n % 2 = 0 then 2 * 2 ^ 149 else 3 * 2 ^ 148) 0 8 2
     (by decide) (by decide) (by decide) rfl rfl (by decide) rfl (by decide) 0 (by decide)⟩

/-! ## Lemmas: input regions inside the input -/

theorem output_size_eq (d : sparse_convolution_layer)
    (inp c : layer_configuration_specific) (hd : validated d)
    (h : get_output_layer_configuration_specific d inp = .ok c) :
    c.dimension_sizes.length = d.window_sizes.length ∧
    ∀ i, i < d.window_sizes.length →
      d.window_sizes.getD i 0 ≠ 0 ∧
      d.window_sizes.getD i 0 ≤ total_input_dimension_size d inp.dimension_sizes i ∧
      c.dimension_sizes.getD i 0 =
        total_input_dimension_size d inp.dimension_sizes i - d.window_sizes.getD i 0 + 1 := by
  have hc := validated_consistent d hd
  unfold get_output_layer_configuration_specific at h
  split_ifs at h with h1 h2
  cases hrec : output_dimension_sizes d inp.dimension_sizes 0 d.window_sizes.length with
  | error e => rw [hrec] at h; exact Except.noConfusion h
  | ok dims =>
    rw [hrec] at h
    simp only [Except.ok.injEq] at h
    subst h
    obtain ⟨hlen, hall⟩ := output_dimension_sizes_ok _ _ _ _ _ hrec
    refine ⟨hlen, fun i hi => ?_⟩
    obtain ⟨hle, hval⟩ := hall i hi
    simp only [Nat.zero_add] at hle hval
    have hwpos : d.window_sizes.getD i 0 ≠ 0 := by
      rw [List.getD_eq_getElem _ _ hi]
      exact hc.window_pos _ (List.getElem_mem _)
    have hmod : total_input_dimension_size d inp.dimension_sizes i < U32_MOD :=
      Nat.mod_lt _ (by decide)
    rw [u32_sub_succ _ _ hmod hwpos hle] at hval
    exact ⟨hwpos, hle, hval⟩

theorem input_start_le (first left : Nat) (hf : first < U32_MOD) (hl : left < 2147483648) :
    static_cast_unsigned (max 0 (i32_wrap (static_cast_int first - static_cast_int left))) ≤
      first - left := by
  rw [static_cast_int_of_lt left hl]
  unfold static_cast_unsigned i32_wrap static_cast_int U32_MOD at *
  split_ifs <;> omega

/-! ## Theorems: input regions inside the input (C24) -/

/-- C24 fails on the code as worded: for the validated descriptor with window
size 3, no left padding and right padding 1, the input of size 5 gives the
output size 4, and the output region `(0, 4)` gives the input region `(0, 6)`,
whose end is beyond the input size 5: the start is clamped at 0, the end is not
clamped. -/
theorem input_region_reaches_into_right_padding :
    validated ⟨[3], 1, 1, 1, [0], [1]⟩ ∧
    get_output_layer_configuration_specific ⟨[3], 1, 1, 1, [0], [1]⟩ ⟨1, [5]⟩ =
      .ok ⟨1, [4]⟩ ∧
    get_input_rectangle_borders ⟨[3], 1, 1, 1, [0], [1]⟩ [(0, 4)] = .ok [(0, 6)] ∧
    ¬ ((6 : Nat) ≤ 5) := by
  decide

/-- C24, amended: for every validated descriptor whose left paddings are below
2^31, every input shape for which `get_output_layer_configuration_specific`
succeeds and every output region of D pairs with
`start[i] <= end[i] <= output_size[i]`, `get_input_rectangle_borders` returns
D pairs with `input.start[i] <= input.end[i] <= input_size[i] +
right_zero_padding[i]`; the end is
`output.end[i] + window_sizes[i] - 1 - left_zero_padding[i]` without wrap, and
the region lies inside the unpadded input in every dimension that has no right
padding. -/
theorem input_region_within_right_padded_input (d : sparse_convolution_layer)
    (inp c : layer_configuration_specific) (borders : List (Nat × Nat))
    (hd : validated d)
    (hleft : ∀ i, i < d.window_sizes.length → d.left_zero_padding.getD i 0 < 2147483648)
    (hout : get_output_layer_configuration_specific d inp = .ok c)
    (hlen : borders.length = d.window_sizes.length)
    (hreg : ∀ i, i < d.window_sizes.length →
      (borders.getD i (0, 0)).1 ≤ (borders.getD i (0, 0)).2 ∧
      (borders.getD i (0, 0)).2 ≤ c.dimension_sizes.getD i 0) :
    ∃ res, get_input_rectangle_borders d borders = .ok res ∧
      res.length = d.window_sizes.length ∧
      ∀ i, i < d.window_sizes.length →
        (res.getD i (0, 0)).1 ≤ (res.getD i (0, 0)).2 ∧
        (res.getD i (0, 0)).2 =
          (borders.getD i (0, 0)).2 + d.window_sizes.getD i 0 - 1 -
            d.left_zero_padding.getD i 0 ∧
        (res.getD i (0, 0)).2 ≤
          inp.dimension_sizes.getD i 0 + d.right_zero_padding.getD i 0 ∧
        (d.right_zero_padding.getD i 0 = 0 →
          (res.getD i (0, 0)).2 ≤ inp.dimension_sizes.getD i 0) := by
  have hc := validated_consistent d hd
  obtain ⟨-, hsize⟩ := output_size_eq d inp c hd hout
  obtain ⟨res, hres, hl, hall⟩ := get_input_rectangle_borders_ok d borders hlen
  refine ⟨res, hres, hl, fun i hi => ?_⟩
  obtain ⟨hwpos, hwle, hval⟩ := hsize i hi
  obtain ⟨hse, heo⟩ := hreg i hi
  have hlt := hc.left_lt i hi
  have hl31 := hleft i hi
  have hmod : total_input_dimension_size d inp.dimension_sizes i < U32_MOD :=
    Nat.mod_lt _ (by decide)
  have htot : total_input_dimension_size d inp.dimension_sizes i ≤
      inp.dimension_sizes.getD i 0 + d.left_zero_padding.getD i 0 +
        d.right_zero_padding.getD i 0 := Nat.mod_le _ _
  have hend := input_end_modulo (borders.getD i (0, 0)).2 _ _ hlt
    (by unfold U32_MOD; omega)
  rw [Nat.mod_eq_of_lt (by omega)] at hend
  have hstart := input_start_le (borders.getD i (0, 0)).1
    (d.left_zero_padding.getD i 0) (by omega) hl31
  rw [hall i hi]
  dsimp only
  rw [hend]
  exact ⟨by omega, rfl, by omega, fun h0 => by omega⟩

/-- C24, amended, at a two-dimensional descriptor with paddings: window sizes
`[3, 3]`, left paddings `[1, 0]`, right paddings `[0, 1]`, input 5 x 5, output
4 x 4.  The output region `(1, 4) x (0, 3)` gives an input region of two pairs
with `start <= end`, the ends being `4 + 3 - 1 - 1 = 5` and `3 + 3 - 1 - 0 = 5`,
both at most the input size plus the right padding. -/
theorem input_region_within_right_padded_input_witness :
    validated ⟨[3, 3], 4, 2, 6, [1, 0], [0, 1]⟩ ∧
    get_output_layer_configuration_specific ⟨[3, 3], 4, 2, 6, [1, 0], [0, 1]⟩ ⟨4, [5, 5]⟩ =
      .ok ⟨2, [4, 4]⟩ ∧
    ∃ res, get_input_rectangle_borders ⟨[3, 3], 4, 2, 6, [1, 0], [0, 1]⟩ [(1, 4), (0, 3)] =
        .ok res ∧
      res.length = 2 ∧
      ∀ i, i < 2 →
        (res.getD i (0, 0)).1 ≤ (res.getD i (0, 0)).2 ∧
        (res.getD i (0, 0)).2 =
          ([((1 : Nat), (4 : Nat)), (0, 3)].getD i (0, 0)).2 + [3, 3].getD i 0 - 1 -
            [1, 0].getD i 0 ∧
        (res.getD i (0, 0)).2 ≤ [5, 5].getD i 0 + [0, 1].getD i 0 ∧
        ([0, 1].getD i 0 = 0 → (res.getD i (0, 0)).2 ≤ [5, 5].getD i 0) :=
  ⟨by decide, by decide,
   input_region_within_right_padded_input ⟨[3, 3], 4, 2, 6, [1, 0], [0, 1]⟩ ⟨4, [5, 5]⟩
     ⟨2, [4, 4]⟩ [(1, 4), (0, 3)] (by decide) (by decide) (by decide) rfl (by decide)⟩

/-! ## Lemmas: the cursor -/

theorem count_set_consumed (l : List Int) (k : Nat) (hk : k < l.length)
    (h : l.getD k 0 ≠ -1) : (l.set k (-1)).count (-1) = l.count (-1) + 1 := by
  induction l generalizing k with
  | nil => exact absurd hk (Nat.not_lt_zero _)
  | cons a l ih =>
    cases k with
    | zero =>
      rw [List.getD_cons_zero] at h
      rw [List.set_cons_zero, List.count_cons, List.count_cons]
      simp [h]
    | succ k =>
      rw [List.getD_cons_succ] at h
      rw [List.set_cons_succ, List.count_cons, List.count_cons,
        ih k (by simpa using hk) h]
      omega

theorem exists_unconsumed_of_count_lt (l : List Int) (h : l.count (-1) < l.length) :
    ∃ j, j < l.length ∧ l.getD j 0 ≠ -1 := by
  by_contra hcon
  have hall : ∀ b ∈ l, (-1 : Int) = b := by
    intro b hb
    obtain ⟨j, hj, hjb⟩ := List.getElem_of_mem hb
    by_contra hne
    exact hcon ⟨j, hj, by rw [List.getD_eq_getElem _ _ hj, hjb]; exact fun h0 => hne h0.symm⟩
  have := List.count_eq_length.2 hall
  omega

theorem initial_count_consumed (d : sparse_convolution_layer) (pos : Nat) (hd : validated d) :
    (initial_connection_state d pos).output_feature_map_id_list.count (-1) = 0 := by
  have hs := initial_scan_invariant d pos hd
  rw [List.count_eq_zero]
  intro hmem
  obtain ⟨j, hj, hjb⟩ := List.getElem_of_mem hmem
  have h := hs.slots_eq j hj
  rw [List.getD_eq_getElem _ _ hj, hjb] at h
  have hrow : (initial_connection_state d pos).out_fm_in_fm_present_list.getD
      (j % d.output_feature_map_count) [] = [] := by
    show (List.replicate d.output_feature_map_count ([] : List Int)).getD _ [] = []
    rw [List.getD_eq_getElem?_getD, List.getElem?_replicate]
    split_ifs <;> rfl
  rw [hrow, List.length_nil, if_neg (Nat.not_lt_zero _)] at h
  omega

/-- With at most 2^31 - 1 slots, the only out-of-range subscript of an
iteration is the one of the cursor loop. -/
theorem place_connection_subscript_error (d : sparse_convolution_layer)
    (generator : Nat → Nat) (st : connection_state)
    (h : place_connection d generator st = .error .subscript_out_of_range)
    (hs : st.start_feature_map_index ≤ st.output_feature_map_id_list.length)
    (hlen : st.output_feature_map_id_list.length ≤ 2147483647) :
    ∃ idx, spec_scan_slots st.out_fm_in_fm_present_list (refilled_pool d st)
        (st.output_feature_map_id_list.drop st.start_feature_map_index)
        st.start_feature_map_index = some idx ∧
      advance_start ((st.output_feature_map_id_list.set idx (-1)).drop
        st.start_feature_map_index) st.start_feature_map_index = none := by
  cases hscan : spec_scan_slots st.out_fm_in_fm_present_list (refilled_pool d st)
      (st.output_feature_map_id_list.drop st.start_feature_map_index)
      st.start_feature_map_index with
  | none =>
    rw [place_connection_of_none d generator st (by omega) hscan, if_pos ⟨hs, hlen⟩] at h
    exact Except.noConfusion h (fun h0 => Exn.noConfusion h0)
  | some idx =>
    obtain ⟨-, hlt, -⟩ := spec_scan_slots_some _ _ _ _ _ hscan
    rw [List.length_drop] at hlt
    rw [place_connection_of_some d generator st idx hscan (by omega)] at h
    cases hadv : advance_start ((st.output_feature_map_id_list.set idx (-1)).drop
        st.start_feature_map_index) st.start_feature_map_index with
    | none => exact ⟨idx, rfl, hadv⟩
    | some s =>
      rw [hadv] at h
      exact Except.noConfusion h

theorem slots_length_exact (d : sparse_convolution_layer) (hd : validated d)
    (hconn : d.feature_map_connection_count < 2147483648) :
    u32_add d.feature_map_connection_count d.output_feature_map_count =
      d.feature_map_connection_count + d.output_feature_map_count := by
  have hc := validated_consistent d hd
  have := hc.conn_ge_out
  unfold u32_add U32_MOD
  exact Nat.mod_eq_of_lt (by omega)

/-- One iteration of the placement loop that is due: with at most 2^31 - 1
slots it never subscripts out of range, and whenever it completes it leaves
the cursor at an unconsumed slot with consumed slots only before it. -/
theorem place_connection_cursor (d : sparse_convolution_layer) (generator : Nat → Nat)
    (st : connection_state) (i : Nat) (hd : validated d)
    (hconn : d.feature_map_connection_count < 2147483648)
    (hs : scan_invariant d st i)
    (hcount : st.output_feature_map_id_list.count (-1) = i)
    (hi : i < d.feature_map_connection_count) :
    (d.feature_map_connection_count + d.output_feature_map_count ≤ 2147483647 →
      place_connection d generator st ≠ .error .subscript_out_of_range) ∧
    ∀ st1, place_connection d generator st = .ok st1 →
      st1.output_feature_map_id_list.count (-1) = i + 1 ∧
      st1.output_feature_map_id_list.length =
        d.feature_map_connection_count + d.output_feature_map_count ∧
      st1.start_feature_map_index <
        d.feature_map_connection_count + d.output_feature_map_count ∧
      st1.output_feature_map_id_list.getD st1.start_feature_map_index 0 ≠ -1 ∧
      ∀ j, j < st1.start_feature_map_index →
        st1.output_feature_map_id_list.getD j 0 = -1 := by
  have hL := hs.slots_length
  rw [slots_length_exact d hd hconn] at hL
  constructor
  · intro hb herr
    obtain ⟨idx, hscan, hadv⟩ := place_connection_subscript_error d generator st herr
      hs.start_le (by omega)
    obtain ⟨hle, hlt, hslot, -⟩ := spec_scan_slots_some _ _ _ _ _ hscan
    rw [getD_drop, Nat.add_sub_cancel' hle] at hslot
    rw [List.length_drop] at hlt
    have hidx : idx < st.output_feature_map_id_list.length := by omega
    have hcnt := count_set_consumed _ idx hidx hslot
    rw [hcount] at hcnt
    have hout := (validated_out_pos d hd (by rw [← hs.slots_length]; omega)).1
    obtain ⟨j, hj, hjne⟩ := exists_unconsumed_of_count_lt
      (st.output_feature_map_id_list.set idx (-1)) (by rw [hcnt, List.length_set]; omega)
    rw [List.length_set] at hj
    by_cases hjs : j < st.start_feature_map_index
    · rw [getD_set_ne _ _ _ _ (by omega : idx ≠ j)] at hjne
      exact hjne (hs.consumed_before_start j hjs)
    · have := advance_start_none _ _ hadv (j - st.start_feature_map_index)
        (by rw [List.length_drop, List.length_set]; omega)
      rw [getD_drop, Nat.add_sub_cancel' (by omega)] at this
      exact hjne this
  · intro st1 hok
    obtain ⟨idx, o, x, hscan, hle, hidx, hslot, -, -, -, hs1, -, hadv⟩ :=
      place_connection_ok_scan d generator st st1 hok
    have hs2 := place_connection_scan_invariant d generator st st1 i hd hs hok
    obtain ⟨hsle, hslt, hsne, -⟩ := advance_start_some _ _ _ hadv
    rw [getD_drop, Nat.add_sub_cancel' hsle] at hsne
    rw [List.length_drop, hs1, List.length_set] at hslt
    refine ⟨?_, ?_, by omega, hsne, hs2.consumed_before_start⟩
    · rw [hs1, count_set_consumed _ idx hidx hslot, hcount]
    · rw [hs1, List.length_set, hL]

/-- The iterations of the placement loop: with at most 2^31 - 1 slots they
never subscript out of range, and every completed iteration consumes one
slot. -/
theorem place_connections_cursor (d : sparse_convolution_layer) (generator : Nat → Nat)
    (n : Nat) (st : connection_state) (i : Nat) (hd : validated d)
    (hconn : d.feature_map_connection_count < 2147483648)
    (hs : scan_invariant d st i)
    (hcount : st.output_feature_map_id_list.count (-1) = i)
    (hi : i + n ≤ d.feature_map_connection_count) :
    (d.feature_map_connection_count + d.output_feature_map_count ≤ 2147483647 →
      place_connections d generator n st ≠ .error .subscript_out_of_range) ∧
    ∀ st1, place_connections d generator n st = .ok st1 →
      scan_invariant d st1 (i + n) ∧
      st1.output_feature_map_id_list.count (-1) = i + n := by
  induction n generalizing st i with
  | zero =>
    refine ⟨fun _ h => by simp [place_connections] at h, fun st1 h => ?_⟩
    simp only [place_connections, Except.ok.injEq] at h
    subst h
    exact ⟨hs, hcount⟩
  | succ n ih =>
    obtain ⟨hne, hstep⟩ := place_connection_cursor d generator st i hd hconn hs hcount (by omega)
    unfold place_connections
    cases hpc : place_connection d generator st with
    | error e =>
      refine ⟨fun hb h => ?_, fun st1 h => by simp at h⟩
      simp only [Except.error.injEq] at h
      rw [h] at hpc
      exact hne hb hpc
    | ok st2 =>
      dsimp only
      have hs2 := place_connection_scan_invariant d generator st st2 i hd hs hpc
      obtain ⟨hc2, -⟩ := hstep st2 hpc
      obtain ⟨h1, h2⟩ := ih st2 (i + 1) hs2 hc2 (by omega)
      have e : i + (n + 1) = i + 1 + n := by omega
      rw [e]
      exact ⟨h1, h2⟩

/-! ## Theorems: the cursor (C23) -/

/-- C23, amended: cursor safety.  For every validated descriptor (of
`unsigned int` members) and every sequence of generator outputs: (1) when the
sequence has at most 2^31 - 1 slots
(`feature_map_connection_count + output_feature_map_count <= 2147483647`),
`randomize_custom_data` never subscripts `output_feature_map_id_list` out of
range, neither with the `int` scan index nor with the cursor, and no iteration
of the placement loop does; (2) whatever the number of slots, after each
completed iteration the list still has
`feature_map_connection_count + output_feature_map_count` slots, the cursor is
below that number, the slot at the cursor is unconsumed and every slot before
the cursor is consumed. -/
theorem cursor_stays_inside_the_sequence (d : sparse_convolution_layer)
    (generator : Nat → Nat) (pos : Nat) (hd : validated d) (hu : layer_is_u32 d) :
    (d.feature_map_connection_count + d.output_feature_map_count ≤ 2147483647 →
      (∀ dc, randomize_custom_data d dc generator pos ≠ .error .subscript_out_of_range) ∧
      (∀ n st, n < int_loop_iterations d.feature_map_connection_count →
        place_connections d generator n (initial_connection_state d pos) = .ok st →
        place_connection d generator st ≠ .error .subscript_out_of_range)) ∧
    (∀ n st, 1 ≤ n → n ≤ int_loop_iterations d.feature_map_connection_count →
      place_connections d generator n (initial_connection_state d pos) = .ok st →
      st.output_feature_map_id_list.length =
        d.feature_map_connection_count + d.output_feature_map_count ∧
      st.start_feature_map_index <
        d.feature_map_connection_count + d.output_feature_map_count ∧
      st.output_feature_map_id_list.getD st.start_feature_map_index 0 ≠ -1 ∧
      ∀ j, j < st.start_feature_map_index → st.output_feature_map_id_list.getD j 0 = -1) := by
  by_cases hloop : int_loop_iterations d.feature_map_connection_count = 0
  · rw [hloop]
    refine ⟨fun _ => ⟨fun dc h => ?_, fun n st hn => absurd hn (Nat.not_lt_zero _)⟩,
      fun n st h1 h2 => by omega⟩
    unfold randomize_custom_data at h
    rw [hloop] at h
    simp [place_connections] at h
  · have hconn : d.feature_map_connection_count < 2147483648 := by
      by_contra hcon
      exact hloop (int_loop_iterations_of_ge _ (by omega) hu.2.2.1)
    have hit := int_loop_iterations_of_lt _ hconn
    rw [hit]
    have hinit := initial_scan_invariant d pos hd
    have hcount := initial_count_consumed d pos hd
    have hL := slots_length_exact d hd hconn
    refine ⟨fun hb => ⟨fun dc h => ?_, fun n st hn hst => ?_⟩, fun n st h1 h2 hst => ?_⟩
    · unfold randomize_custom_data at h
      rw [hit] at h
      obtain ⟨hne, -⟩ := place_connections_cursor d generator
        d.feature_map_connection_count _ 0 hd hconn hinit hcount (by omega)
      cases hpc : place_connections d generator d.feature_map_connection_count
          (initial_connection_state d pos) with
      | error e =>
        rw [hpc] at h
        simp only [Except.error.injEq] at h
        rw [h] at hpc
        exact hne hb hpc
      | ok st =>
        rw [hpc] at h
        simp at h
    · obtain ⟨-, hok⟩ := place_connections_cursor d generator n _ 0 hd hconn hinit hcount
        (by omega)
      obtain ⟨hs, hc⟩ := hok st hst
      rw [Nat.zero_add] at hs hc
      exact (place_connection_cursor d generator st n hd hconn hs hc hn).1 hb
    · obtain ⟨-, hok⟩ := place_connections_cursor d generator n _ 0 hd hconn hinit hcount
        (by omega)
      obtain ⟨hs, hc⟩ := hok st hst
      rw [Nat.zero_add] at hs hc
      have hlen := hs.slots_length
      rw [hL] at hlen
      have hout := (validated_out_pos d hd (by rw [hL]; omega)).1
      obtain ⟨j, hj, hjne⟩ := exists_unconsumed_of_count_lt st.output_feature_map_id_list
        (by rw [hc, hlen]; omega)
      have hsj : st.start_feature_map_index ≤ j := by
        by_contra hcon
        exact hjne (hs.consumed_before_start j (by omega))
      exact ⟨hlen, by omega, hs.start_unconsumed (by omega), hs.consumed_before_start⟩

set_option maxRecDepth 4000 in
/-- C23, amended, at 3 inputs, 3 outputs and 6 connections (9 slots), all
generator outputs 0: the run completes, and after five iterations the cursor
is at slot 5 of 9, which holds output 2, behind five consumed slots. -/
theorem cursor_stays_inside_the_sequence_witness :
    validated ⟨[1], 3, 3, 6, [0], [0]⟩ ∧
    layer_is_u32 ⟨[1], 3, 3, 6, [0], [0]⟩ ∧
    randomize_custom_data ⟨[1], 3, 3, 6, [0], [0]⟩ ⟨[9, 9, 9, 9, 9, 9], [9, 9, 9, 9]⟩
      (fun _ => 0) 0 = .ok (⟨[0, 1, 2, 0, 1, 2], [0, 3, 5, 6]⟩, 4) ∧
    randomize_custom_data ⟨[1], 3, 3, 6, [0], [0]⟩ ⟨[9, 9, 9, 9, 9, 9], [9, 9, 9, 9]⟩
      (fun _ => 0) 0 ≠ .error .subscript_out_of_range ∧
    place_connections ⟨[1], 3, 3, 6, [0], [0]⟩ (fun _ => 0) 5
        (initial_connection_state ⟨[1], 3, 3, 6, [0], [0]⟩ 0) =
      .ok ⟨[[0, 1], [0, 1], [2]], [-1, -1, -1, -1, -1, 2, 0, 1, 2], [2], 5, 4⟩ ∧
    ([-1, -1, -1, -1, -1, 2, 0, 1, 2] : List Int).length = 6 + 3 ∧
    5 < 6 + 3 ∧
    ([-1, -1, -1, -1, -1, 2, 0, 1, 2] : List Int).getD 5 0 ≠ -1 ∧
    ∀ j, j < 5 → ([-1, -1, -1, -1, -1, 2, 0, 1, 2] : List Int).getD j 0 = -1 :=
  ⟨by decide, by decide, by decide,
   ((cursor_stays_inside_the_sequence ⟨[1], 3, 3, 6, [0], [0]⟩ (fun _ => 0) 0 (by decide)
     (by decide)).1 (by decide)).1 ⟨[9, 9, 9, 9, 9, 9], [9, 9, 9, 9]⟩,
   by decide,
   (cursor_stays_inside_the_sequence ⟨[1], 3, 3, 6, [0], [0]⟩ (fun _ => 0) 0 (by decide)
     (by decide)).2 5 ⟨[[0, 1], [0, 1], [2]], [-1, -1, -1, -1, -1, 2, 0, 1, 2], [2], 5, 4⟩
     (by decide) (by decide) (by decide)⟩

/-! ## Lemmas: input degrees -/

theorem countP_eq_filter_range (p : List Int → Bool) (l : List (List Int)) :
    l.countP p = ((List.range l.length).filter (fun k => p (l.getD k []))).length := by
  induction l using List.reverseRecOn with
  | nil => rfl
  | append_singleton l a ih =>
    rw [List.countP_append, List.length_append, List.length_singleton, List.range_succ,
      List.filter_append, List.length_append, ih]
    congr 1
    · congr 1
      apply List.filter_congr
      intro k hk
      rw [List.getD_append _ _ _ _ (List.mem_range.1 hk)]
    · simp only [List.countP_cons, List.countP_nil, List.filter_cons, List.filter_nil]
      rw [List.getD_append_right _ _ _ _ (le_refl _), Nat.sub_self, List.getD_cons_zero]
      split_ifs <;> rfl

/-- The inputs of the CSR form of a completed run have the degree the final
state records. -/
theorem connected_output_count_eq (dc1 : layer_data_custom) (P : List (List Int)) (x : Nat)
    (hslice : ∀ k, k < P.length → csr_slice dc1 k = P.getD k []) :
    connected_output_count dc1 P.length x = input_degree P x := by
  unfold connected_output_count input_degree
  rw [countP_eq_filter_range]
  congr 1
  apply List.filter_congr
  intro k hk
  rw [hslice k (List.mem_range.1 hk)]

/-! ## Theorems: input degrees (C22) -/

/-- C22 fails on the code as worded: for the validated descriptor with
1431655765 input feature maps, 2 output feature maps and 2147483648
connections, the placement loop
`for (int i = 0; i < static_cast<int>(feature_map_connection_count); ++i)` is
not entered and the call completes with empty slices: input 0 is connected to
no output, while floor(C / I) = 1 and ceil(C / I) = 2. -/
theorem input_degree_zero_for_large_connection_count :
    validated ⟨[1], 1431655765, 2, 2147483648, [0], [0]⟩ ∧
    randomize_custom_data ⟨[1], 1431655765, 2, 2147483648, [0], [0]⟩
      ⟨List.replicate 2147483648 7, [7, 7, 7]⟩ (fun _ => 0) 0 =
      .ok (⟨List.replicate 2147483648 7, [0, 0, 0]⟩, 0) ∧
    connected_output_count ⟨List.replicate 2147483648 7, [0, 0, 0]⟩ 2 0 = 0 ∧
    (2147483648 : Nat) / 1431655765 = 1 ∧
    ((2147483648 : Nat) + 1431655765 - 1) / 1431655765 = 2 := by
  refine ⟨by decide, ?_, rfl, by decide, by decide⟩
  rw [randomize_custom_data_eq ⟨[1], 1431655765, 2, 2147483648, [0], [0]⟩
    ⟨List.replicate 2147483648 7, [7, 7, 7]⟩ (fun _ => 0) 0 (by decide) (by decide)
    (by rw [int_loop_iterations_of_ge _ (by decide) (by decide)]; exact Nat.zero_le _) rfl]
  simp only [int_loop_iterations_of_ge 2147483648 (by decide) (by decide), place_connections,
    initial_connection_state, List.drop_zero]
  rfl

/-- C22, amended: for every validated descriptor with
`input_feature_map_count >= 1` and `feature_map_connection_count < 2^31`,
every `data_custom` sized as `get_data_custom_config` declares and every
sequence of generator outputs for which `randomize_custom_data` completes,
the number of output feature maps whose slice holds a given input feature map
is floor(C / I) or ceil(C / I), with C = `feature_map_connection_count` and
I = `input_feature_map_count`. -/
theorem input_degrees_are_balanced (d : sparse_convolution_layer)
    (dc dc1 : layer_data_custom) (generator : Nat → Nat) (pos pos1 : Nat)
    (hd : validated d) (hin : 1 ≤ d.input_feature_map_count)
    (hconn : d.feature_map_connection_count < 2147483648)
    (hcols : dc.columns.length = d.feature_map_connection_count)
    (hrows : dc.row_offsets.length = d.output_feature_map_count + 1)
    (h : randomize_custom_data d dc generator pos = .ok (dc1, pos1)) :
    ∀ x, x < d.input_feature_map_count →
      connected_output_count dc1 d.output_feature_map_count x =
        d.feature_map_connection_count / d.input_feature_map_count ∨
      connected_output_count dc1 d.output_feature_map_count x =
        (d.feature_map_connection_count + d.input_feature_map_count - 1) /
          d.input_feature_map_count := by
  obtain ⟨st, hpc, -, hslice⟩ :=
    randomize_custom_data_state d dc dc1 generator pos pos1 hd hconn hcols hrows h
  have hinv := place_connections_scan_invariant d generator _ _ st 0 hd
    (initial_scan_invariant d pos hd) hpc
  rw [Nat.zero_add] at hinv
  intro x hx
  have hdeg : connected_output_count dc1 d.output_feature_map_count x =
      input_degree st.out_fm_in_fm_present_list x := by
    rw [← hinv.present_length]
    exact connected_output_count_eq dc1 _ x (by rw [hinv.present_length]; exact hslice)
  rw [hdeg]
  obtain ⟨r, hr1, hr2⟩ := hinv.round
  have hpne := refilled_pool_ne_nil d st (by omega)
  have hpos : 0 < (refilled_pool d st).length := List.length_pos.2 hpne
  have hple := length_le_of_nodup_lt _ _ hinv.pool_nodup hinv.pool_lt
  rw [Nat.succ_mul] at hr1
  rw [hr2 x hx]
  by_cases hmem : x ∈ refilled_pool d st
  · rw [if_pos hmem]
    left
    exact (Nat.div_eq_of_lt_le (by omega) (by rw [Nat.succ_mul]; omega)).symm
  · rw [if_neg hmem]
    right
    have hcons : (x :: refilled_pool d st).length ≤ d.input_feature_map_count :=
      length_le_of_nodup_lt _ _ (List.nodup_cons.2 ⟨hmem, hinv.pool_nodup⟩) (by
        intro y hy
        rcases List.mem_cons.1 hy with h0 | h0
        · rw [h0]; exact hx
        · exact hinv.pool_lt y h0)
    rw [List.length_cons] at hcons
    exact (Nat.div_eq_of_lt_le (by rw [Nat.succ_mul]; omega)
      (by rw [Nat.succ_mul, Nat.succ_mul]; omega)).symm

set_option maxRecDepth 4000 in
/-- C22, amended, at the scenario of the specification with the generator
outputs 0, 1, 2, ...: 6 connections over 4 inputs; the run completes with the
slices `0, 1, 3` and `0, 2, 3`, so input 0 has degree 2 = ceil(6 / 4) and input
1 has degree 1 = floor(6 / 4). -/
theorem input_degrees_are_balanced_witness :
    validated ⟨[3, 3], 4, 2, 6, [0, 0], [0, 0]⟩ ∧
    randomize_custom_data ⟨[3, 3], 4, 2, 6, [0, 0], [0, 0]⟩ ⟨[9, 9, 9, 9, 9, 9], [9, 9, 9]⟩
      (fun n => n) 0 = .ok (⟨[0, 1, 3, 0, 2, 3], [0, 3, 6]⟩, 5) ∧
    connected_output_count ⟨[0, 1, 3, 0, 2, 3], [0, 3, 6]⟩ 2 0 = 2 ∧
    connected_output_count ⟨[0, 1, 3, 0, 2, 3], [0, 3, 6]⟩ 2 1 = 1 ∧
    (connected_output_count ⟨[0, 1, 3, 0, 2, 3], [0, 3, 6]⟩ 2 1 = 6 / 4 ∨
      connected_output_count ⟨[0, 1, 3, 0, 2, 3], [0, 3, 6]⟩ 2 1 = (6 + 4 - 1) / 4) :=
  ⟨by decide, by decide, by decide, by decide,
   input_degrees_are_balanced ⟨[3, 3], 4, 2, 6, [0, 0], [0, 0]⟩
     ⟨[9, 9, 9, 9, 9, 9], [9, 9, 9]⟩ ⟨[0, 1, 3, 0, 2, 3], [0, 3, 6]⟩ (fun n => n) 0 5
     (by decide) (by decide) (by decide) rfl rfl (by decide) 1 (by decide)⟩

/-! ## Lemmas: the footprint of the weight initialization -/

/-- Where the scan of the specification stops in a state that satisfies
`scan_invariant`: at the first unconsumed slot of the output `o`, when `o` has
a candidate input and every output whose first unconsumed slot lies before
has none. -/
theorem spec_scan_slots_of_first (d : sparse_convolution_layer) (st : connection_state)
    (i : Nat) (hinv : scan_invariant d st i) (o : Nat) (ho : o < d.output_feature_map_count)
    (hlt : o + d.output_feature_map_count * (st.out_fm_in_fm_present_list.getD o []).length <
      st.output_feature_map_id_list.length)
    (hcand : set_difference (refilled_pool d st) (st.out_fm_in_fm_present_list.getD o []) ≠ [])
    (hskip : ∀ k, k < d.output_feature_map_count →
      k + d.output_feature_map_count * (st.out_fm_in_fm_present_list.getD k []).length <
        o + d.output_feature_map_count * (st.out_fm_in_fm_present_list.getD o []).length →
      set_difference (refilled_pool d st) (st.out_fm_in_fm_present_list.getD k []) = []) :
    spec_scan_slots st.out_fm_in_fm_present_list (refilled_pool d st)
      (st.output_feature_map_id_list.drop st.start_feature_map_index)
      st.start_feature_map_index =
        some (o + d.output_feature_map_count *
          (st.out_fm_in_fm_present_list.getD o []).length) := by
  obtain ⟨hval, hstart⟩ := first_slot_unconsumed d st i hinv o ho hlt
  have hout : 0 < d.output_feature_map_count := by omega
  have hblocked : ∀ j, j < st.output_feature_map_id_list.length →
      j < o + d.output_feature_map_count * (st.out_fm_in_fm_present_list.getD o []).length →
      st.output_feature_map_id_list.getD j 0 = -1 ∨
        set_difference (refilled_pool d st) (st.out_fm_in_fm_present_list.getD
          (st.output_feature_map_id_list.getD j 0).toNat []) = [] := by
    intro j hj hjlt
    by_cases hc : st.output_feature_map_id_list.getD j 0 = -1
    · exact Or.inl hc
    · right
      obtain ⟨hown, hge⟩ := slot_owner d st i hinv j hj hc
      rw [hown, Int.toNat_ofNat]
      have hdm := Nat.div_add_mod j d.output_feature_map_count
      have hmul : d.output_feature_map_count *
          (st.out_fm_in_fm_present_list.getD (j % d.output_feature_map_count) []).length ≤
          d.output_feature_map_count * (j / d.output_feature_map_count) :=
        Nat.mul_le_mul_left _ hge
      exact hskip _ (Nat.mod_lt _ hout) (by omega)
  cases hscan : spec_scan_slots st.out_fm_in_fm_present_list (refilled_pool d st)
      (st.output_feature_map_id_list.drop st.start_feature_map_index)
      st.start_feature_map_index with
  | none =>
    exfalso
    have hn := spec_scan_slots_none _ _ _ _ hscan
      (o + d.output_feature_map_count *
        (st.out_fm_in_fm_present_list.getD o []).length - st.start_feature_map_index)
      (by rw [List.length_drop]; omega)
    rw [getD_drop, Nat.add_sub_cancel' hstart, hval, Int.toNat_ofNat] at hn
    rcases hn with hn | hn
    · omega
    · exact hcand hn
  | some idx =>
    obtain ⟨hle, hlt1, hslot, hcand1⟩ := spec_scan_slots_some _ _ _ _ _ hscan
    rw [getD_drop, Nat.add_sub_cancel' hle] at hslot hcand1
    rw [List.length_drop] at hlt1
    have hmin := spec_scan_slots_min _ _ _ _ _ hscan
    congr 1
    rcases Nat.lt_trichotomy idx (o + d.output_feature_map_count *
        (st.out_fm_in_fm_present_list.getD o []).length) with h1 | h1 | h1
    · exfalso
      rcases hblocked idx (by omega) h1 with h2 | h2
      · exact hslot h2
      · exact hcand1 h2
    · exact h1
    · exfalso
      have hm := hmin (o + d.output_feature_map_count *
        (st.out_fm_in_fm_present_list.getD o []).length - st.start_feature_map_index)
        (by omega)
      rw [getD_drop, Nat.add_sub_cancel' hstart, hval, Int.toNat_ofNat] at hm
      rcases hm with hm | hm
      · omega
      · exact hcand hm

/-- An iteration that serves the output `o`: the scan stops at the first
unconsumed slot of `o`, of position at most `INT_MAX`, and another output `u`
has a slot left for the cursor. -/
theorem place_connection_serves (d : sparse_convolution_layer) (generator : Nat → Nat)
    (st : connection_state) (i : Nat) (hinv : scan_invariant d st i)
    (o : Nat) (ho : o < d.output_feature_map_count)
    (hlt : o + d.output_feature_map_count * (st.out_fm_in_fm_present_list.getD o []).length <
      st.output_feature_map_id_list.length)
    (hmax : o + d.output_feature_map_count *
      (st.out_fm_in_fm_present_list.getD o []).length ≤ 2147483647)
    (hcand : set_difference (refilled_pool d st) (st.out_fm_in_fm_present_list.getD o []) ≠ [])
    (hskip : ∀ k, k < d.output_feature_map_count →
      k + d.output_feature_map_count * (st.out_fm_in_fm_present_list.getD k []).length <
        o + d.output_feature_map_count * (st.out_fm_in_fm_present_list.getD o []).length →
      set_difference (refilled_pool d st) (st.out_fm_in_fm_present_list.getD k []) = [])
    (u : Nat) (hu : u < d.output_feature_map_count) (huo : u ≠ o)
    (hult : u + d.output_feature_map_count *
      (st.out_fm_in_fm_present_list.getD u []).length < st.output_feature_map_id_list.length) :
    ∃ st1, place_connection d generator st = .ok st1 ∧
      st1.out_fm_in_fm_present_list = st.out_fm_in_fm_present_list.set o
        (set_insert
          ((set_difference (refilled_pool d st) (st.out_fm_in_fm_present_list.getD o [])).getD
            (if (set_difference (refilled_pool d st)
                (st.out_fm_in_fm_present_list.getD o [])).length > 1 then
              uniform_int_distribution 0
                ((set_difference (refilled_pool d st)
                  (st.out_fm_in_fm_present_list.getD o [])).length - 1)
                (generator st.generator_position)
            else 0) 0)
          (st.out_fm_in_fm_present_list.getD o [])) ∧
      st1.input_feature_map_id_set = (refilled_pool d st).erase
        ((set_difference (refilled_pool d st) (st.out_fm_in_fm_present_list.getD o [])).getD
          (if (set_difference (refilled_pool d st)
              (st.out_fm_in_fm_present_list.getD o [])).length > 1 then
            uniform_int_distribution 0
              ((set_difference (refilled_pool d st)
                (st.out_fm_in_fm_present_list.getD o [])).length - 1)
              (generator st.generator_position)
          else 0) 0).toNat ∧
      st1.generator_position =
        (if (set_difference (refilled_pool d st)
            (st.out_fm_in_fm_present_list.getD o [])).length > 1 then
          st.generator_position + 1
        else st.generator_position) := by
  have hscan := spec_scan_slots_of_first d st i hinv o ho hlt hcand hskip
  obtain ⟨hval, hstart⟩ := first_slot_unconsumed d st i hinv o ho hlt
  obtain ⟨hvalu, hstartu⟩ := first_slot_unconsumed d st i hinv u hu hult
  rw [place_connection_of_some d generator st _ hscan hmax, hval, Int.toNat_ofNat]
  cases hadv : advance_start ((st.output_feature_map_id_list.set
      (o + d.output_feature_map_count * (st.out_fm_in_fm_present_list.getD o []).length)
      (-1)).drop st.start_feature_map_index) st.start_feature_map_index with
  | none =>
    exfalso
    have ha := advance_start_none _ _ hadv
      (u + d.output_feature_map_count * (st.out_fm_in_fm_present_list.getD u []).length -
        st.start_feature_map_index)
      (by rw [List.length_drop, List.length_set]; omega)
    have hne : o + d.output_feature_map_count *
        (st.out_fm_in_fm_present_list.getD o []).length ≠
        u + d.output_feature_map_count *
          (st.out_fm_in_fm_present_list.getD u []).length := by
      intro heq
      have h1 := slot_index_mod o d.output_feature_map_count
        (st.out_fm_in_fm_present_list.getD o []).length ho
      have h2 := slot_index_mod u d.output_feature_map_count
        (st.out_fm_in_fm_present_list.getD u []).length hu
      rw [heq, h2] at h1
      exact huo h1
    rw [getD_drop, Nat.add_sub_cancel' hstartu, getD_set_ne _ _ _ _ hne, hvalu] at ha
    omega
  | some s => exact ⟨_, rfl, rfl, rfl, rfl⟩

/-- An iteration whose scan has to pass the position `INT_MAX`: the output
`o` is the one the scan of the specification stops at, and the one the greedy
rule names, but its first unconsumed slot lies beyond `INT_MAX`. -/
theorem place_connection_passes_int_max (d : sparse_convolution_layer)
    (generator : Nat → Nat) (st : connection_state) (i : Nat) (hd : validated d)
    (hinv : scan_invariant d st i)
    (o : Nat) (ho : o < d.output_feature_map_count)
    (hlt : o + d.output_feature_map_count * (st.out_fm_in_fm_present_list.getD o []).length <
      st.output_feature_map_id_list.length)
    (hmax : 2147483647 < o + d.output_feature_map_count *
      (st.out_fm_in_fm_present_list.getD o []).length)
    (hcand : set_difference (refilled_pool d st) (st.out_fm_in_fm_present_list.getD o []) ≠ [])
    (hskip : ∀ k, k < d.output_feature_map_count →
      k + d.output_feature_map_count * (st.out_fm_in_fm_present_list.getD k []).length <
        o + d.output_feature_map_count * (st.out_fm_in_fm_present_list.getD o []).length →
      set_difference (refilled_pool d st) (st.out_fm_in_fm_present_list.getD k []) = []) :
    place_connection d generator st = .error .subscript_out_of_range ∧
    scan_output d st = none ∧
    spec_greedy_output d st = some o := by
  have hscan := spec_scan_slots_of_first d st i hinv o ho hlt hcand hskip
  obtain ⟨hval, -⟩ := first_slot_unconsumed d st i hinv o ho hlt
  refine ⟨?_, ?_, ?_⟩
  · by_cases hs : 2147483648 ≤ st.start_feature_map_index
    · exact place_connection_of_large_start d generator st hs
    · exact place_connection_of_large_index d generator st _ (by omega) hscan hmax
  · rw [scan_output_spec, hscan, Option.some_bind, if_neg (by omega)]
  · rw [← spec_scan_eq_greedy d st i hd hinv, hscan, Option.map_some', hval, Int.toNat_ofNat]

/-- The content of a state, described by other functions with the same values. -/
theorem state_content_congr (d : sparse_convolution_layer) (st : connection_state) (n : Nat)
    (e e1 : Nat → Nat) (φ φ1 : Nat → Nat → Prop) (pool pool1 : List Nat)
    (h : state_content d st n e φ pool)
    (he : ∀ k, k < d.output_feature_map_count → e k = e1 k)
    (hφ : ∀ k, k < d.output_feature_map_count → ∀ x, (φ k x ↔ φ1 k x))
    (hpool : pool = pool1) :
    state_content d st n e1 φ1 pool1 :=
  ⟨h.invariant, fun k hk => (h.edges k hk).trans (he k hk),
    fun k hk x => (h.connected k hk x).trans (hφ k hk x), h.pool_eq.trans hpool⟩

/-- No candidate is left when every pool input is in the set. -/
theorem set_difference_eq_nil_of (pool : List Nat) (present : List Int)
    (h : ∀ y ∈ pool, (y : Int) ∈ present) : set_difference pool present = [] := by
  unfold set_difference
  rw [List.map_eq_nil_iff, List.filter_eq_nil_iff]
  intro y hy
  simp only [decide_eq_true_eq, not_not]
  exact h y hy

/-- Every pool input is a candidate when none is in the set. -/
theorem set_difference_of_all (pool : List Nat) (present : List Int)
    (h : ∀ y ∈ pool, (y : Int) ∉ present) : set_difference pool present = pool.map Int.ofNat := by
  unfold set_difference
  rw [List.filter_eq_self.2]
  intro y hy
  simp only [decide_eq_true_eq]
  exact h y hy

/-- The lowest candidate is the first pool input outside the set. -/
theorem set_difference_head (pre post : List Nat) (x : Nat) (present : List Int)
    (hpre : ∀ y ∈ pre, (y : Int) ∈ present) (hx : (x : Int) ∉ present) :
    (set_difference (pre ++ x :: post) present).getD 0 0 = (x : Int) := by
  unfold set_difference
  rw [List.filter_append, List.filter_eq_nil_iff.2, List.nil_append, List.filter_cons_of_pos]
  · rfl
  · simp only [decide_eq_true_eq]
    exact hx
  · intro y hy
    simp only [decide_eq_true_eq, not_not]
    exact hpre y hy

/-- Erasing an element that does not occur before its position. -/
theorem erase_middle (pre post : List Nat) (x : Nat) (hx : x ∉ pre) :
    (pre ++ x :: post).erase x = pre ++ post := by
  rw [List.erase_append_right _ hx, List.erase_cons_head]

/-- One iteration, by the content of the states: the output `o` is served
with the input `x`. -/
theorem state_content_step (d : sparse_convolution_layer) (generator : Nat → Nat)
    (st : connection_state) (n : Nat) (e : Nat → Nat) (φ : Nat → Nat → Prop)
    (pool : List Nat) (hd : validated d) (hS : state_content d st n e φ pool)
    (o : Nat) (ho : o < d.output_feature_map_count)
    (hlt : o + d.output_feature_map_count * e o <
      u32_add d.feature_map_connection_count d.output_feature_map_count)
    (hmax : o + d.output_feature_map_count * e o ≤ 2147483647)
    (hskip : ∀ k, k < d.output_feature_map_count →
      k + d.output_feature_map_count * e k < o + d.output_feature_map_count * e o →
      ∀ y ∈ pool, φ k y)
    (u : Nat) (hu : u < d.output_feature_map_count) (huo : u ≠ o)
    (hult : u + d.output_feature_map_count * e u <
      u32_add d.feature_map_connection_count d.output_feature_map_count)
    (x : Nat) (hxin : x ∈ pool) (hxnot : ¬ φ o x)
    (hsel : (set_difference pool (st.out_fm_in_fm_present_list.getD o [])).getD
      (if (set_difference pool (st.out_fm_in_fm_present_list.getD o [])).length > 1 then
        uniform_int_distribution 0
          ((set_difference pool (st.out_fm_in_fm_present_list.getD o [])).length - 1)
          (generator st.generator_position)
      else 0) 0 = (x : Int)) :
    ∃ st1, place_connection d generator st = .ok st1 ∧
      state_content d st1 (n + 1) (fun k => if k = o then e o + 1 else e k)
        (fun k y => φ k y ∨ (k = o ∧ y = x))
        (if (pool.erase x).isEmpty then List.range d.input_feature_map_count
          else pool.erase x) ∧
      st1.generator_position =
        (if (set_difference pool (st.out_fm_in_fm_present_list.getD o [])).length > 1 then
          st.generator_position + 1
        else st.generator_position) := by
  have hinv := hS.invariant
  have hp := hS.pool_eq
  subst hp
  have hxo : (x : Int) ∉ st.out_fm_in_fm_present_list.getD o [] :=
    fun h => hxnot ((hS.connected o ho x).1 h)
  obtain ⟨st1, hok, hp1, hpool1, hgp1⟩ := place_connection_serves d generator st n hinv o ho
    (by rw [hS.edges o ho, hinv.slots_length]; exact hlt)
    (by rw [hS.edges o ho]; exact hmax)
    ((set_difference_ne_nil_iff _ _).2 ⟨x, hxin, hxo⟩)
    (fun k hk hlt2 => set_difference_eq_nil_of _ _ (fun y hy =>
      (hS.connected k hk y).2 (hskip k hk (by
        rw [hS.edges k hk, hS.edges o ho] at hlt2
        exact hlt2) y hy)))
    u hu huo (by rw [hS.edges u hu, hinv.slots_length]; exact hult)
  rw [hsel] at hp1 hpool1
  rw [Int.toNat_ofNat] at hpool1
  have hol : o < st.out_fm_in_fm_present_list.length := by
    rw [hinv.present_length]
    exact ho
  refine ⟨st1, hok, ⟨place_connection_scan_invariant d generator st st1 n hd hinv hok,
    fun k hk => ?_, fun k hk y => ?_, ?_⟩, hgp1⟩
  · rw [hp1]
    by_cases hko : k = o
    · subst hko
      rw [getD_set_self _ _ _ hol, set_insert_length _ _ hxo, if_pos rfl, hS.edges k hk]
    · rw [getD_set_of_ne _ _ _ _ (fun h => hko h.symm), if_neg hko, hS.edges k hk]
  · rw [hp1]
    by_cases hko : k = o
    · subst hko
      rw [getD_set_self _ _ _ hol, mem_set_insert, hS.connected k hk y]
      constructor
      · rintro (h | h)
        · exact Or.inr ⟨rfl, by exact_mod_cast h⟩
        · exact Or.inl h
      · rintro (h | ⟨-, h⟩)
        · exact Or.inr h
        · exact Or.inl (by rw [h])
    · rw [getD_set_of_ne _ _ _ _ (fun h => hko h.symm), hS.connected k hk y]
      constructor
      · exact fun h => Or.inl h
      · rintro (h | ⟨h, -⟩)
        · exact h
        · exact absurd h hko
  · rw [refilled_pool_def d st1, hpool1]

/-- A generator output of 0 is mapped to the lower bound 0. -/
theorem uniform_int_distribution_zero (hi : Nat) : uniform_int_distribution 0 hi 0 = 0 := by
  unfold uniform_int_distribution
  simp

/-- One iteration that takes the lowest candidate: the generator output is 0
(or there is one candidate only). -/
theorem state_content_step_lowest (d : sparse_convolution_layer) (generator : Nat → Nat)
    (st : connection_state) (n : Nat) (e : Nat → Nat) (φ : Nat → Nat → Prop)
    (pool : List Nat) (hd : validated d) (hS : state_content d st n e φ pool)
    (o : Nat) (ho : o < d.output_feature_map_count)
    (hlt : o + d.output_feature_map_count * e o <
      u32_add d.feature_map_connection_count d.output_feature_map_count)
    (hmax : o + d.output_feature_map_count * e o ≤ 2147483647)
    (hskip : ∀ k, k < d.output_feature_map_count →
      k + d.output_feature_map_count * e k < o + d.output_feature_map_count * e o →
      ∀ y ∈ pool, φ k y)
    (u : Nat) (hu : u < d.output_feature_map_count) (huo : u ≠ o)
    (hult : u + d.output_feature_map_count * e u <
      u32_add d.feature_map_connection_count d.output_feature_map_count)
    (hdraw : generator st.generator_position = 0)
    (pre post : List Nat) (x : Nat) (hpool : pool = pre ++ x :: post)
    (hpre : ∀ y ∈ pre, φ o y) (hxnot : ¬ φ o x) :
    ∃ st1, place_connection d generator st = .ok st1 ∧
      state_content d st1 (n + 1) (fun k => if k = o then e o + 1 else e k)
        (fun k y => φ k y ∨ (k = o ∧ y = x))
        (if (pre ++ post).isEmpty then List.range d.input_feature_map_count
          else pre ++ post) ∧
      st.generator_position ≤ st1.generator_position := by
  have hxpre : x ∉ pre := fun h => hxnot (hpre x h)
  obtain ⟨st1, hok, hS1, hgp⟩ := state_content_step d generator st n e φ pool hd hS o ho hlt
    hmax hskip u hu huo hult x (by rw [hpool]; simp) hxnot (by
      rw [hdraw, uniform_int_distribution_zero, ite_self, hpool]
      exact set_difference_head pre post x _
        (fun y hy => (hS.connected o ho y).2 (hpre y hy))
        (fun h => hxnot ((hS.connected o ho x).1 h)))
  refine ⟨st1, hok, ?_, ?_⟩
  · rw [hpool, erase_middle pre post x hxpre] at hS1
    exact hS1
  · rw [hgp]
    split_ifs <;> omega

/-- One iteration in which every pool input is a candidate: the generator
output picks the input by its position in the pool. -/
theorem state_content_step_at (d : sparse_convolution_layer) (generator : Nat → Nat)
    (st : connection_state) (n : Nat) (e : Nat → Nat) (φ : Nat → Nat → Prop)
    (pool : List Nat) (hd : validated d) (hS : state_content d st n e φ pool)
    (o : Nat) (ho : o < d.output_feature_map_count)
    (hlt : o + d.output_feature_map_count * e o <
      u32_add d.feature_map_connection_count d.output_feature_map_count)
    (hmax : o + d.output_feature_map_count * e o ≤ 2147483647)
    (hskip : ∀ k, k < d.output_feature_map_count →
      k + d.output_feature_map_count * e k < o + d.output_feature_map_count * e o →
      ∀ y ∈ pool, φ k y)
    (u : Nat) (hu : u < d.output_feature_map_count) (huo : u ≠ o)
    (hult : u + d.output_feature_map_count * e u <
      u32_add d.feature_map_connection_count d.output_feature_map_count)
    (hall : ∀ y ∈ pool, ¬ φ o y) (x : Nat) (hxin : x ∈ pool)
    (hx : pool.getD (if pool.length > 1 then generator st.generator_position % pool.length
      else 0) 0 = x) :
    ∃ st1, place_connection d generator st = .ok st1 ∧
      state_content d st1 (n + 1) (fun k => if k = o then e o + 1 else e k)
        (fun k y => φ k y ∨ (k = o ∧ y = x))
        (if (pool.erase x).isEmpty then List.range d.input_feature_map_count
          else pool.erase x) ∧
      st1.generator_position =
        (if pool.length > 1 then st.generator_position + 1 else st.generator_position) := by
  have hv : set_difference pool (st.out_fm_in_fm_present_list.getD o []) =
      pool.map Int.ofNat :=
    set_difference_of_all _ _ (fun y hy h => hall y hy ((hS.connected o ho y).1 h))
  have hpos : 0 < pool.length := List.length_pos_of_mem hxin
  obtain ⟨st1, hok, hS1, hgp⟩ := state_content_step d generator st n e φ pool hd hS o ho hlt
    hmax hskip u hu huo hult x hxin (hall x hxin) (by
      rw [hv, List.length_map]
      have hu : uniform_int_distribution 0 (pool.length - 1)
          (generator st.generator_position) =
            generator st.generator_position % pool.length := by
        unfold uniform_int_distribution
        rw [Nat.zero_add, Nat.sub_zero, Nat.sub_add_cancel hpos]
      rw [hu, ← hx]
      generalize (if pool.length > 1 then generator st.generator_position % pool.length
        else 0) = k
      simp only [List.getD_eq_getElem?_getD, List.getElem?_map]
      cases pool[k]? <;> rfl)
  refine ⟨st1, hok, hS1, ?_⟩
  rw [hgp, hv, List.length_map]

/-- Erasing the first element of a range. -/
theorem range'_erase_head (a m : Nat) :
    (List.range' a (m + 1)).erase a = List.range' (a + 1) m := by
  rw [List.range'_succ, List.erase_cons_head]

/-- Erasing the last element of a range. -/
theorem range'_erase_last (a m : Nat) :
    (List.range' a (m + 1)).erase (a + m) = List.range' a m := by
  rw [List.range'_concat, Nat.one_mul,
    List.erase_append_right _ (by rw [List.mem_range'_1]; omega), List.erase_cons_head,
    List.append_nil]

/-- The last element of a range. -/
theorem range'_getD_last (a m : Nat) : (List.range' a (m + 1)).getD m 0 = a + m := by
  rw [List.getD_eq_getElem _ _ (by rw [List.length_range']; omega), List.getElem_range']
  omega

/-- The first element of a range. -/
theorem range'_getD_zero (a m : Nat) : (List.range' a (m + 1)).getD 0 0 = a := by
  rw [List.range'_succ]
  rfl

/-- A range of positive length is not empty. -/
theorem range'_isEmpty (a m : Nat) : (List.range' a (m + 1)).isEmpty = false := by
  rw [List.range'_succ]
  rfl

/-- One more iteration after `n` completed ones. -/
theorem place_connections_snoc (d : sparse_convolution_layer) (generator : Nat → Nat)
    (n : Nat) (st st1 st2 : connection_state)
    (h1 : place_connections d generator n st = .ok st1)
    (h2 : place_connection d generator st1 = .ok st2) :
    place_connections d generator (n + 1) st = .ok st2 := by
  induction n generalizing st with
  | zero =>
    simp only [place_connections, Except.ok.injEq] at h1
    subst h1
    unfold place_connections
    rw [h2]
    rfl
  | succ n ih =>
    unfold place_connections at h1 ⊢
    cases hpc : place_connection d generator st with
    | error e =>
      rw [hpc] at h1
      exact Except.noConfusion h1
    | ok st3 =>
      rw [hpc] at h1
      dsimp only at h1 ⊢
      exact ih st3 h1

/-- An iteration that throws after `n` completed ones ends every longer run. -/
theorem place_connections_error (d : sparse_convolution_layer) (generator : Nat → Nat)
    (n r : Nat) (st st1 : connection_state) (e : Exn)
    (h1 : place_connections d generator n st = .ok st1)
    (h2 : place_connection d generator st1 = .error e) :
    place_connections d generator (n + 1 + r) st = .error e := by
  induction n generalizing st with
  | zero =>
    simp only [place_connections, Except.ok.injEq] at h1
    subst h1
    rw [Nat.zero_add, Nat.add_comm]
    unfold place_connections
    rw [h2]
  | succ n ih =>
    unfold place_connections at h1
    cases hpc : place_connection d generator st with
    | error e =>
      rw [hpc] at h1
      exact Except.noConfusion h1
    | ok st3 =>
      rw [hpc] at h1
      dsimp only at h1
      have e1 : n + 1 + 1 + r = (n + 1 + r) + 1 := by omega
      rw [e1]
      unfold place_connections
      rw [hpc]
      exact ih st3 h1

/-- One iteration of a run with three output feature maps and 2147483650
slots that takes the lowest candidate. -/
theorem three_outputs_step_lowest (d : sparse_convolution_layer) (generator : Nat → Nat)
    (st : connection_state) (n : Nat) (e : Nat → Nat) (φ : Nat → Nat → Prop)
    (pool : List Nat) (hd : validated d) (hout : d.output_feature_map_count = 3)
    (hsize : u32_add d.feature_map_connection_count d.output_feature_map_count = 2147483650)
    (hS : state_content d st n e φ pool)
    (o : Nat) (ho : o < 3) (hmax : o + 3 * e o ≤ 2147483647)
    (hskip : ∀ k, k < 3 → k + 3 * e k < o + 3 * e o → ∀ y ∈ pool, φ k y)
    (u : Nat) (hu : u < 3) (huo : u ≠ o) (hult : u + 3 * e u < 2147483650)
    (hdraw : generator st.generator_position = 0)
    (pre post : List Nat) (x : Nat) (hpool : pool = pre ++ x :: post)
    (hpre : ∀ y ∈ pre, φ o y) (hxnot : ¬ φ o x)
    (e1 : Nat → Nat) (φ1 : Nat → Nat → Prop) (pool1 : List Nat)
    (he : ∀ k, k < 3 → (if k = o then e o + 1 else e k) = e1 k)
    (hφ : ∀ k, k < 3 → ∀ y, (φ k y ∨ (k = o ∧ y = x) ↔ φ1 k y))
    (hpool1 : (if (pre ++ post).isEmpty then List.range d.input_feature_map_count
      else pre ++ post) = pool1) :
    ∃ st1, place_connection d generator st = .ok st1 ∧
      state_content d st1 (n + 1) e1 φ1 pool1 ∧
      st.generator_position ≤ st1.generator_position := by
  obtain ⟨st1, hok, hS1, hgp⟩ := state_content_step_lowest d generator st n e φ pool hd hS o
    (by omega) (by rw [hsize, hout]; omega) (by rw [hout]; exact hmax)
    (fun k hk hlt => hskip k (by omega) (by rw [hout] at hlt; exact hlt))
    u (by omega) huo (by rw [hsize, hout]; exact hult) hdraw pre post x hpool hpre hxnot
  exact ⟨st1, hok, state_content_congr d st1 _ _ _ _ _ _ _ hS1
    (fun k hk => he k (by omega)) (fun k hk y => hφ k (by omega) y) hpool1, hgp⟩

/-- One iteration of a run with three output feature maps and 2147483650
slots in which every pool input is a candidate. -/
theorem three_outputs_step_at (d : sparse_convolution_layer) (generator : Nat → Nat)
    (st : connection_state) (n : Nat) (e : Nat → Nat) (φ : Nat → Nat → Prop)
    (pool : List Nat) (hd : validated d) (hout : d.output_feature_map_count = 3)
    (hsize : u32_add d.feature_map_connection_count d.output_feature_map_count = 2147483650)
    (hS : state_content d st n e φ pool)
    (o : Nat) (ho : o < 3) (hmax : o + 3 * e o ≤ 2147483647)
    (hskip : ∀ k, k < 3 → k + 3 * e k < o + 3 * e o → ∀ y ∈ pool, φ k y)
    (u : Nat) (hu : u < 3) (huo : u ≠ o) (hult : u + 3 * e u < 2147483650)
    (hall : ∀ y ∈ pool, ¬ φ o y) (x : Nat) (hxin : x ∈ pool)
    (hx : pool.getD (if pool.length > 1 then generator st.generator_position % pool.length
      else 0) 0 = x)
    (e1 : Nat → Nat) (φ1 : Nat → Nat → Prop) (pool1 : List Nat)
    (he : ∀ k, k < 3 → (if k = o then e o + 1 else e k) = e1 k)
    (hφ : ∀ k, k < 3 → ∀ y, (φ k y ∨ (k = o ∧ y = x) ↔ φ1 k y))
    (hpool1 : (if (pool.erase x).isEmpty then List.range d.input_feature_map_count
      else pool.erase x) = pool1) :
    ∃ st1, place_connection d generator st = .ok st1 ∧
      state_content d st1 (n + 1) e1 φ1 pool1 ∧
      st1.generator_position =
        (if pool.length > 1 then st.generator_position + 1 else st.generator_position) := by
  obtain ⟨st1, hok, hS1, hgp⟩ := state_content_step_at d generator st n e φ pool hd hS o
    (by omega) (by rw [hsize, hout]; omega) (by rw [hout]; exact hmax)
    (fun k hk hlt => hskip k (by omega) (by rw [hout] at hlt; exact hlt))
    u (by omega) huo (by rw [hsize, hout]; exact hult) hall x hxin hx
  exact ⟨st1, hok, state_content_congr d st1 _ _ _ _ _ _ _ hS1
    (fun k hk => he k (by omega)) (fun k hk y => hφ k (by omega) y) hpool1, hgp⟩

/-- From position 1079999999 on, `overflow_generator` outputs 0. -/
theorem overflow_generator_of_large (p : Nat) (hp : 1079999999 ≤ p) :
    overflow_generator p = 0 := by
  unfold overflow_generator
  split_ifs
  · omega
  · rfl

/-- The first round of the run of `overflow_generator` for 1080000000 inputs,
3 outputs and 2147483647 connections, three iterations at a time: output 0
takes the highest input of the pool, outputs 1 and 2 the lowest. -/
theorem overflow_run_first_round (d : sparse_convolution_layer) (hd : validated d)
    (hin : d.input_feature_map_count = 1080000000)
    (hout : d.output_feature_map_count = 3)
    (hconn : d.feature_map_connection_count = 2147483647)
    (k : Nat) (hk : k ≤ 360000000) :
    ∃ st, place_connections d overflow_generator (3 * k) (initial_connection_state d 0) =
        .ok st ∧
      state_content d st (3 * k) (overflow_edges k k k)
        (overflow_inputs (1080000000 - k) 0 (2 * k) 0 0 (2 * k) 0 0)
        (if k < 360000000 then List.range' (2 * k) (1080000000 - 3 * k)
          else List.range' 0 1080000000) ∧
      (k < 360000000 → st.generator_position = 3 * k) ∧
      1079999999 ≤ st.generator_position + (1080000000 - 3 * k) := by
  have hsize : u32_add d.feature_map_connection_count d.output_feature_map_count =
      2147483650 := by
    rw [hconn, hout]
    rfl
  induction k with
  | zero =>
    have h0 : ∀ o, o < d.output_feature_map_count →
        (initial_connection_state d 0).out_fm_in_fm_present_list.getD o [] = [] := by
      intro o ho
      show (List.replicate d.output_feature_map_count ([] : List Int)).getD o [] = []
      rw [List.getD_eq_getElem?_getD, List.getElem?_replicate, if_pos ho]
      rfl
    refine ⟨initial_connection_state d 0, rfl,
      ⟨initial_scan_invariant d 0 hd, fun o ho => ?_, fun o ho y => ?_, ?_⟩, fun _ => rfl,
      by omega⟩
    · rw [h0 o ho]
      rw [hout] at ho
      interval_cases o <;> rfl
    · rw [h0 o ho]
      rw [hout] at ho
      constructor
      · intro h
        exact absurd h (List.not_mem_nil _)
      · intro h
        interval_cases o <;> simp only [overflow_inputs] at h <;> omega
    · rw [if_pos (by omega), Nat.mul_zero, Nat.sub_zero, ← List.range_eq_range', ← hin]
      rfl
  | succ k ih =>
    obtain ⟨st, hrun, hS, hgp, -⟩ := ih (by omega)
    rw [if_pos (by omega)] at hS
    have hgp0 : st.generator_position = 3 * k := hgp (by omega)
    obtain ⟨len, hlen⟩ : ∃ len, 1080000000 - 3 * k = len + 3 := ⟨1080000000 - 3 * k - 3, by omega⟩
    rw [hlen] at hS
    -- output 0 takes the highest input
    obtain ⟨st1, hok1, hS1, hgp1⟩ := three_outputs_step_at d overflow_generator st (3 * k) _ _ _
      hd hout hsize hS 0 (by omega) (by simp only [overflow_edges]; omega)
      (fun o ho hlt => by
        exfalso
        interval_cases o <;> simp only [overflow_edges] at hlt <;> omega)
      1 (by omega) (by omega) (by simp only [overflow_edges]; omega)
      (fun y hy => by
        rw [List.mem_range'_1] at hy
        simp only [overflow_inputs]
        omega)
      (1080000000 - k - 1)
      (by rw [List.mem_range'_1]; omega)
      (by
        rw [List.length_range', if_pos (by omega), hgp0]
        have hg : overflow_generator (3 * k) % (len + 3) = len + 2 := by
          unfold overflow_generator
          rw [if_pos (by omega), Nat.mod_eq_of_lt (by omega)]
          omega
        rw [hg, range'_getD_last (2 * k) (len + 2)]
        omega)
      (overflow_edges (k + 1) k k)
      (overflow_inputs (1080000000 - (k + 1)) 0 (2 * k) 0 0 (2 * k) 0 0)
      (List.range' (2 * k) (len + 2))
      (fun o ho => by interval_cases o <;> rfl)
      (fun o ho y => by
        interval_cases o <;> simp only [overflow_inputs, true_and] <;> omega)
      (by
        have e1 : 1080000000 - k - 1 = 2 * k + (len + 2) := by omega
        rw [e1, range'_erase_last, range'_isEmpty]
        rfl)
    rw [List.length_range', if_pos (by omega), hgp0] at hgp1
    -- output 1 takes the lowest input
    obtain ⟨st2, hok2, hS2, hgp2⟩ := three_outputs_step_at d overflow_generator st1
      (3 * k + 1) _ _ _ hd hout hsize hS1 1 (by omega) (by simp only [overflow_edges]; omega)
      (fun o ho hlt => by
        exfalso
        interval_cases o <;> simp only [overflow_edges] at hlt <;> omega)
      2 (by omega) (by omega) (by simp only [overflow_edges]; omega)
      (fun y hy => by
        rw [List.mem_range'_1] at hy
        simp only [overflow_inputs]
        omega)
      (2 * k)
      (by rw [List.mem_range'_1]; omega)
      (by
        rw [List.length_range', if_pos (by omega), hgp1]
        have hg : overflow_generator (3 * k + 1) = 0 := by
          unfold overflow_generator
          rw [if_neg (by omega)]
        rw [hg, Nat.zero_mod, range'_getD_zero])
      (overflow_edges (k + 1) (k + 1) k)
      (overflow_inputs (1080000000 - (k + 1)) 0 (2 * (k + 1)) 0 0 (2 * k) 0 0)
      (List.range' (2 * k + 1) (len + 1))
      (fun o ho => by interval_cases o <;> rfl)
      (fun o ho y => by
        interval_cases o <;> simp only [overflow_inputs, true_and] <;> omega)
      (by
        rw [range'_erase_head, range'_isEmpty]
        rfl)
    rw [List.length_range', if_pos (by omega), hgp1] at hgp2
    -- output 2 takes the lowest input
    obtain ⟨st3, hok3, hS3, hgp3⟩ := three_outputs_step_at d overflow_generator st2
      (3 * k + 2) _ _ _ hd hout hsize hS2 2 (by omega) (by simp only [overflow_edges]; omega)
      (fun o ho hlt => by
        exfalso
        interval_cases o <;> simp only [overflow_edges] at hlt <;> omega)
      0 (by omega) (by omega) (by simp only [overflow_edges]; omega)
      (fun y hy => by
        rw [List.mem_range'_1] at hy
        simp only [overflow_inputs]
        omega)
      (2 * k + 1)
      (by rw [List.mem_range'_1]; omega)
      (by
        have hg : overflow_generator (3 * k + 2) = 0 := by
          unfold overflow_generator
          rw [if_neg (by omega)]
        rw [hgp2, hg, Nat.zero_mod, ite_self, range'_getD_zero])
      (overflow_edges (k + 1) (k + 1) (k + 1))
      (overflow_inputs (1080000000 - (k + 1)) 0 (2 * (k + 1)) 0 0 (2 * (k + 1)) 0 0)
      (if k + 1 < 360000000 then List.range' (2 * (k + 1)) (1080000000 - 3 * (k + 1))
        else List.range' 0 1080000000)
      (fun o ho => by interval_cases o <;> rfl)
      (fun o ho y => by
        interval_cases o <;> simp only [overflow_inputs, true_and] <;> omega)
      (by
        rw [range'_erase_head]
        cases len with
        | zero =>
          rw [List.range'_zero, List.isEmpty_nil, if_pos rfl,
            if_neg (by omega : ¬ k + 1 < 360000000), hin, List.range_eq_range']
        | succ len =>
          have e1 : 1080000000 - 3 * (k + 1) = len + 1 := by omega
          rw [range'_isEmpty, if_pos (by omega : k + 1 < 360000000), e1]
          rfl)
    rw [List.length_range', hgp2] at hgp3
    refine ⟨st3, ?_, hS3, fun hk1 => ?_, ?_⟩
    · exact place_connections_snoc d _ _ _ st2 st3
        (place_connections_snoc d _ _ _ st1 st2
          (place_connections_snoc d _ _ _ st st1 hrun hok1) hok2) hok3
    · rw [hgp3, if_pos (by omega : len + 1 > 1)]
      omega
    · rw [hgp3]
      by_cases hl : len + 1 > 1
      · rw [if_pos hl]
        omega
      · rw [if_neg hl]
        omega

set_option maxHeartbeats 1600000 in
/-- The second round of the run of `overflow_generator`, six iterations at a
time, as long as the pool holds inputs below 720000000: every output takes
the lowest candidate, and the inputs from 720000000 on, which output 0 is
connected to, stay in the pool. -/
theorem overflow_run_second_round (d : sparse_convolution_layer) (hd : validated d)
    (hin : d.input_feature_map_count = 1080000000)
    (hout : d.output_feature_map_count = 3)
    (hconn : d.feature_map_connection_count = 2147483647)
    (k : Nat) (hk : k ≤ 120000000) :
    ∃ st, place_connections d overflow_generator (1080000000 + 6 * k)
        (initial_connection_state d 0) = .ok st ∧
      state_content d st (1080000000 + 6 * k)
        (overflow_edges (360000000 + 2 * k) (360000000 + 2 * k) (360000000 + 2 * k))
        (overflow_inputs 720000000 (6 * k) 720000000 (6 * k) (6 * k) 720000000 (6 * k) (6 * k))
        (List.range' (6 * k) (1080000000 - 6 * k)) ∧
      1079999999 ≤ st.generator_position := by
  have hsize : u32_add d.feature_map_connection_count d.output_feature_map_count =
      2147483650 := by
    rw [hconn, hout]
    rfl
  induction k with
  | zero =>
    obtain ⟨st, hrun, hS, -, hgp⟩ := overflow_run_first_round d hd hin hout hconn 360000000
      (le_refl _)
    rw [if_neg (by omega)] at hS
    exact ⟨st, hrun, hS, by omega⟩
  | succ k ih =>
    obtain ⟨st, hrun, hS, hgp⟩ := ih (by omega)
    obtain ⟨len, hlen⟩ : ∃ len, 1080000000 - 6 * k = len + 7 :=
      ⟨1080000000 - 6 * k - 7, by omega⟩
    rw [hlen] at hS
    -- output 0 takes the input 6k
    obtain ⟨st1, hok1, hS1, hgp1⟩ := three_outputs_step_lowest d overflow_generator st
      (1080000000 + 6 * k) _ _ _ hd hout hsize hS 0 (by omega)
      (by simp only [overflow_edges]; omega)
      (fun o ho hlt => by
        exfalso
        interval_cases o <;> simp only [overflow_edges] at hlt <;> omega)
      1 (by omega) (by omega) (by simp only [overflow_edges]; omega)
      (overflow_generator_of_large _ (by omega))
      [] (List.range' (6 * k + 1) (len + 6)) (6 * k)
      (by rw [List.range'_succ]; rfl)
      (fun y hy => absurd hy (List.not_mem_nil _))
      (by simp only [overflow_inputs]; omega)
      (overflow_edges (360000000 + 2 * k + 1) (360000000 + 2 * k) (360000000 + 2 * k))
      (overflow_inputs 720000000 (6 * k + 3) 720000000 (6 * k) (6 * k) 720000000 (6 * k) (6 * k))
      (List.range' (6 * k + 1) (len + 6))
      (fun o ho => by interval_cases o <;> rfl)
      (fun o ho y => by
        interval_cases o <;> simp only [overflow_inputs, true_and] <;> omega)
      (by rw [List.nil_append, range'_isEmpty]; rfl)
    -- output 1 takes the input 6k + 1
    obtain ⟨st2, hok2, hS2, hgp2⟩ := three_outputs_step_lowest d overflow_generator st1
      (1080000000 + 6 * k + 1) _ _ _ hd hout hsize hS1 1 (by omega)
      (by simp only [overflow_edges]; omega)
      (fun o ho hlt => by
        exfalso
        interval_cases o <;> simp only [overflow_edges] at hlt <;> omega)
      2 (by omega) (by omega) (by simp only [overflow_edges]; omega)
      (overflow_generator_of_large _ (by omega))
      [] (List.range' (6 * k + 2) (len + 5)) (6 * k + 1)
      (by rw [List.range'_succ]; rfl)
      (fun y hy => absurd hy (List.not_mem_nil _))
      (by simp only [overflow_inputs]; omega)
      (overflow_edges (360000000 + 2 * k + 1) (360000000 + 2 * k + 1) (360000000 + 2 * k))
      (overflow_inputs 720000000 (6 * k + 3) 720000000 (6 * k + 6) (6 * k) 720000000 (6 * k) (6 * k))
      (List.range' (6 * k + 2) (len + 5))
      (fun o ho => by interval_cases o <;> rfl)
      (fun o ho y => by
        interval_cases o <;> simp only [overflow_inputs, true_and] <;> omega)
      (by rw [List.nil_append, range'_isEmpty]; rfl)
    -- output 2 takes the input 6k + 2
    obtain ⟨st3, hok3, hS3, hgp3⟩ := three_outputs_step_lowest d overflow_generator st2
      (1080000000 + 6 * k + 1 + 1) _ _ _ hd hout hsize hS2 2 (by omega)
      (by simp only [overflow_edges]; omega)
      (fun o ho hlt => by
        exfalso
        interval_cases o <;> simp only [overflow_edges] at hlt <;> omega)
      0 (by omega) (by omega) (by simp only [overflow_edges]; omega)
      (overflow_generator_of_large _ (by omega))
      [] (List.range' (6 * k + 3) (len + 4)) (6 * k + 2)
      (by rw [List.range'_succ]; rfl)
      (fun y hy => absurd hy (List.not_mem_nil _))
      (by simp only [overflow_inputs]; omega)
      (overflow_edges (360000000 + 2 * k + 1) (360000000 + 2 * k + 1) (360000000 + 2 * k + 1))
      (overflow_inputs 720000000 (6 * k + 3) 720000000 (6 * k + 6) (6 * k) 720000000 (6 * k + 6) (6 * k))
      (List.range' (6 * k + 3) (len + 4))
      (fun o ho => by interval_cases o <;> rfl)
      (fun o ho y => by
        interval_cases o <;> simp only [overflow_inputs, true_and] <;> omega)
      (by rw [List.nil_append, range'_isEmpty]; rfl)
    -- output 0 takes the input 6k + 3
    obtain ⟨st4, hok4, hS4, hgp4⟩ := three_outputs_step_lowest d overflow_generator st3
      (1080000000 + 6 * k + 1 + 1 + 1) _ _ _ hd hout hsize hS3 0 (by omega)
      (by simp only [overflow_edges]; omega)
      (fun o ho hlt => by
        exfalso
        interval_cases o <;> simp only [overflow_edges] at hlt <;> omega)
      1 (by omega) (by omega) (by simp only [overflow_edges]; omega)
      (overflow_generator_of_large _ (by omega))
      [] (List.range' (6 * k + 4) (len + 3)) (6 * k + 3)
      (by rw [List.range'_succ]; rfl)
      (fun y hy => absurd hy (List.not_mem_nil _))
      (by simp only [overflow_inputs]; omega)
      (overflow_edges (360000000 + 2 * k + 1 + 1) (360000000 + 2 * k + 1) (360000000 + 2 * k + 1))
      (overflow_inputs 720000000 (6 * k + 6) 720000000 (6 * k + 6) (6 * k) 720000000 (6 * k + 6) (6 * k))
      (List.range' (6 * k + 4) (len + 3))
      (fun o ho => by interval_cases o <;> rfl)
      (fun o ho y => by
        interval_cases o <;> simp only [overflow_inputs, true_and] <;> omega)
      (by rw [List.nil_append, range'_isEmpty]; rfl)
    -- output 1 is connected to the input 6k + 4 and takes 6k + 5
    obtain ⟨st5, hok5, hS5, hgp5⟩ := three_outputs_step_lowest d overflow_generator st4
      (1080000000 + 6 * k + 1 + 1 + 1 + 1) _ _ _ hd hout hsize hS4 1 (by omega)
      (by simp only [overflow_edges]; omega)
      (fun o ho hlt => by
        exfalso
        interval_cases o <;> simp only [overflow_edges] at hlt <;> omega)
      2 (by omega) (by omega) (by simp only [overflow_edges]; omega)
      (overflow_generator_of_large _ (by omega))
      [6 * k + 4] (List.range' (6 * k + 6) (len + 1)) (6 * k + 5)
      (by rw [List.range'_succ, List.range'_succ]; rfl)
      (fun y hy => by
        rw [List.mem_singleton] at hy
        simp only [overflow_inputs]
        omega)
      (by simp only [overflow_inputs]; omega)
      (overflow_edges (360000000 + 2 * k + 1 + 1) (360000000 + 2 * k + 1 + 1) (360000000 + 2 * k + 1))
      (overflow_inputs 720000000 (6 * k + 6) 720000000 (6 * k + 6) (6 * k + 6) 720000000 (6 * k + 6) (6 * k))
      ((6 * k + 4) :: List.range' (6 * k + 6) (len + 1))
      (fun o ho => by interval_cases o <;> rfl)
      (fun o ho y => by
        interval_cases o <;> simp only [overflow_inputs, true_and] <;> omega)
      (rfl)
    -- output 2 takes the input 6k + 4
    obtain ⟨st6, hok6, hS6, hgp6⟩ := three_outputs_step_lowest d overflow_generator st5
      (1080000000 + 6 * k + 1 + 1 + 1 + 1 + 1) _ _ _ hd hout hsize hS5 2 (by omega)
      (by simp only [overflow_edges]; omega)
      (fun o ho hlt => by
        exfalso
        interval_cases o <;> simp only [overflow_edges] at hlt <;> omega)
      0 (by omega) (by omega) (by simp only [overflow_edges]; omega)
      (overflow_generator_of_large _ (by omega))
      [] (List.range' (6 * k + 6) (len + 1)) (6 * k + 4)
      (rfl)
      (fun y hy => absurd hy (List.not_mem_nil _))
      (by simp only [overflow_inputs]; omega)
      (overflow_edges (360000000 + 2 * (k + 1)) (360000000 + 2 * (k + 1)) (360000000 + 2 * (k + 1)))
      (overflow_inputs 720000000 (6 * (k + 1)) 720000000 (6 * (k + 1)) (6 * (k + 1)) 720000000
        (6 * (k + 1)) (6 * (k + 1)))
      (List.range' (6 * (k + 1)) (1080000000 - 6 * (k + 1)))
      (fun o ho => by interval_cases o <;> rfl)
      (fun o ho y => by
        interval_cases o <;> simp only [overflow_inputs, true_and] <;> omega)
      (by
        have e1 : 1080000000 - 6 * (k + 1) = len + 1 := by omega
        rw [List.nil_append, range'_isEmpty, e1]
        rfl)
    refine ⟨st6, ?_, hS6, by omega⟩
    exact place_connections_snoc d _ _ _ st5 st6
      (place_connections_snoc d _ _ _ st4 st5
        (place_connections_snoc d _ _ _ st3 st4
          (place_connections_snoc d _ _ _ st2 st3
            (place_connections_snoc d _ _ _ st1 st2
              (place_connections_snoc d _ _ _ st st1 hrun hok1) hok2) hok3) hok4) hok5) hok6

/-- An iteration whose scan has to pass the position `INT_MAX`, by the
content of the state. -/
theorem state_content_passes_int_max (d : sparse_convolution_layer) (generator : Nat → Nat)
    (st : connection_state) (n : Nat) (e : Nat → Nat) (φ : Nat → Nat → Prop)
    (pool : List Nat) (hd : validated d) (hS : state_content d st n e φ pool)
    (o : Nat) (ho : o < d.output_feature_map_count)
    (hlt : o + d.output_feature_map_count * e o <
      u32_add d.feature_map_connection_count d.output_feature_map_count)
    (hmax : 2147483647 < o + d.output_feature_map_count * e o)
    (hskip : ∀ k, k < d.output_feature_map_count →
      k + d.output_feature_map_count * e k < o + d.output_feature_map_count * e o →
      ∀ y ∈ pool, φ k y)
    (x : Nat) (hxin : x ∈ pool) (hxnot : ¬ φ o x) :
    place_connection d generator st = .error .subscript_out_of_range ∧
    scan_output d st = none ∧
    spec_greedy_output d st = some o := by
  have hinv := hS.invariant
  have hp := hS.pool_eq
  subst hp
  exact place_connection_passes_int_max d generator st n hd hinv o ho
    (by rw [hS.edges o ho, hinv.slots_length]; exact hlt)
    (by rw [hS.edges o ho]; exact hmax)
    ((set_difference_ne_nil_iff _ _).2 ⟨x, hxin, fun h => hxnot ((hS.connected o ho x).1 h)⟩)
    (fun k hk hlt2 => set_difference_eq_nil_of _ _ (fun y hy =>
      (hS.connected k hk y).2 (hskip k hk (by
        rw [hS.edges k hk, hS.edges o ho] at hlt2
        exact hlt2) y hy)))

set_option maxHeartbeats 1600000 in
/-- The end of the second round of the run of `overflow_generator`, two
iterations at a time: the pool holds inputs from 720000000 on only, output 0
is connected to all of them, and outputs 1 and 2 take the lowest input in
turn, each at its next slot, two positions beyond the slot of output 0 that
the scan has to pass. -/
theorem overflow_run_blocked_output (d : sparse_convolution_layer) (hd : validated d)
    (hin : d.input_feature_map_count = 1080000000)
    (hout : d.output_feature_map_count = 3)
    (hconn : d.feature_map_connection_count = 2147483647)
    (u : Nat) (hu : u ≤ 115827882) :
    ∃ st, place_connections d overflow_generator (1800000000 + 2 * u)
        (initial_connection_state d 0) = .ok st ∧
      state_content d st (1800000000 + 2 * u)
        (overflow_edges 600000000 (600000000 + u) (600000000 + u))
        (overflow_inputs 720000000 720000000 (720000000 + 2 * u) 720000000 720000000
          (720000000 + 2 * u) 720000000 720000000)
        (List.range' (720000000 + 2 * u) (360000000 - 2 * u)) ∧
      1079999999 ≤ st.generator_position := by
  have hsize : u32_add d.feature_map_connection_count d.output_feature_map_count =
      2147483650 := by
    rw [hconn, hout]
    rfl
  induction u with
  | zero =>
    obtain ⟨st, hrun, hS, hgp⟩ := overflow_run_second_round d hd hin hout hconn 120000000
      (le_refl _)
    exact ⟨st, hrun, hS, hgp⟩
  | succ u ih =>
    obtain ⟨st, hrun, hS, hgp⟩ := ih (by omega)
    obtain ⟨len, hlen⟩ : ∃ len, 360000000 - 2 * u = len + 3 :=
      ⟨360000000 - 2 * u - 3, by omega⟩
    rw [hlen] at hS
    -- output 1 takes the input 720000000 + 2u
    obtain ⟨st1, hok1, hS1, hgp1⟩ := three_outputs_step_lowest d overflow_generator st
      (1800000000 + 2 * u) _ _ _ hd hout hsize hS 1 (by omega)
      (by simp only [overflow_edges]; omega)
      (fun o ho hlt y hy => by
        rw [List.mem_range'_1] at hy
        interval_cases o
        · simp only [overflow_inputs]
          omega
        · simp only [overflow_edges] at hlt
          omega
        · simp only [overflow_edges] at hlt
          omega)
      2 (by omega) (by omega) (by simp only [overflow_edges]; omega)
      (overflow_generator_of_large _ (by omega))
      [] (List.range' (720000000 + 2 * u + 1) (len + 2)) (720000000 + 2 * u)
      (by rw [List.range'_succ]; rfl)
      (fun y hy => absurd hy (List.not_mem_nil _))
      (by simp only [overflow_inputs]; omega)
      (overflow_edges 600000000 (600000000 + u + 1) (600000000 + u))
      (overflow_inputs 720000000 720000000 (720000000 + 2 * u + 2) 720000000 720000000
        (720000000 + 2 * u) 720000000 720000000)
      (List.range' (720000000 + 2 * u + 1) (len + 2))
      (fun o ho => by interval_cases o <;> rfl)
      (fun o ho y => by
        interval_cases o <;> simp only [overflow_inputs, true_and] <;> omega)
      (by rw [List.nil_append, range'_isEmpty]; rfl)
    -- output 2 takes the input 720000000 + 2u + 1
    obtain ⟨st2, hok2, hS2, hgp2⟩ := three_outputs_step_lowest d overflow_generator st1
      (1800000000 + 2 * u + 1) _ _ _ hd hout hsize hS1 2 (by omega)
      (by simp only [overflow_edges]; omega)
      (fun o ho hlt y hy => by
        rw [List.mem_range'_1] at hy
        interval_cases o
        · simp only [overflow_inputs]
          omega
        · simp only [overflow_edges] at hlt
          omega
        · simp only [overflow_edges] at hlt
          omega)
      1 (by omega) (by omega) (by simp only [overflow_edges]; omega)
      (overflow_generator_of_large _ (by omega))
      [] (List.range' (720000000 + 2 * u + 2) (len + 1)) (720000000 + 2 * u + 1)
      (by rw [List.range'_succ]; rfl)
      (fun y hy => absurd hy (List.not_mem_nil _))
      (by simp only [overflow_inputs]; omega)
      (overflow_edges 600000000 (600000000 + (u + 1)) (600000000 + (u + 1)))
      (overflow_inputs 720000000 720000000 (720000000 + 2 * (u + 1)) 720000000 720000000
        (720000000 + 2 * (u + 1)) 720000000 720000000)
      (List.range' (720000000 + 2 * (u + 1)) (360000000 - 2 * (u + 1)))
      (fun o ho => by interval_cases o <;> rfl)
      (fun o ho y => by
        interval_cases o <;> simp only [overflow_inputs, true_and] <;> omega)
      (by
        have e1 : 360000000 - 2 * (u + 1) = len + 1 := by omega
        rw [List.nil_append, range'_isEmpty, e1]
        rfl)
    refine ⟨st2, ?_, hS2, by omega⟩
    exact place_connections_snoc d _ _ _ st1 st2
      (place_connections_snoc d _ _ _ st st1 hrun hok1) hok2

set_option maxHeartbeats 1600000 in
/-- The run of `overflow_generator` for 1080000000 inputs, 3 outputs and
2147483647 connections: 2031655765 iterations complete, the last one at the
slot of position 2147483647, and the next one has to pass that position to
reach the first unconsumed slot of output 2, at position 2147483648. -/
theorem overflow_run_passes_int_max (d : sparse_convolution_layer) (hd : validated d)
    (hin : d.input_feature_map_count = 1080000000)
    (hout : d.output_feature_map_count = 3)
    (hconn : d.feature_map_connection_count = 2147483647) :
    ∃ st, place_connections d overflow_generator 2031655765
        (initial_connection_state d 0) = .ok st ∧
      place_connection d overflow_generator st = .error .subscript_out_of_range ∧
      scan_output d st = none ∧
      spec_greedy_output d st = some 2 := by
  have hsize : u32_add d.feature_map_connection_count d.output_feature_map_count =
      2147483650 := by
    rw [hconn, hout]
    rfl
  obtain ⟨st, hrun, hS, hgp⟩ := overflow_run_blocked_output d hd hin hout hconn 115827882
    (le_refl _)
  have hlen : 360000000 - 2 * 115827882 = 128344235 + 1 := by omega
  rw [hlen] at hS
  -- output 1 takes the input 951655764 at the slot of position 2147483647
  obtain ⟨st1, hok1, hS1, hgp1⟩ := three_outputs_step_lowest d overflow_generator st
    (1800000000 + 2 * 115827882) _ _ _ hd hout hsize hS 1 (by omega)
    (by simp only [overflow_edges]; omega)
    (fun o ho hlt y hy => by
      rw [List.mem_range'_1] at hy
      interval_cases o
      · simp only [overflow_inputs]
        omega
      · simp only [overflow_edges] at hlt
        omega
      · simp only [overflow_edges] at hlt
        omega)
    2 (by omega) (by omega) (by simp only [overflow_edges]; omega)
    (overflow_generator_of_large _ (by omega))
    [] (List.range' 951655765 128344235) 951655764
    (by rw [List.range'_succ]; rfl)
    (fun y hy => absurd hy (List.not_mem_nil _))
    (by simp only [overflow_inputs]; omega)
    (overflow_edges 600000000 715827883 715827882)
    (overflow_inputs 720000000 720000000 951655766 720000000 720000000
      951655764 720000000 720000000)
    (List.range' 951655765 128344235)
    (fun o ho => by interval_cases o <;> rfl)
    (fun o ho y => by
      interval_cases o <;> simp only [overflow_inputs, true_and] <;> omega)
    (by
      rw [List.nil_append, show (128344235 : Nat) = 128344234 + 1 from rfl, range'_isEmpty]
      rfl)
  refine ⟨st1, place_connections_snoc d _ _ _ st st1 hrun hok1, ?_⟩
  exact state_content_passes_int_max d overflow_generator st1 _ _ _ _ hd hS1 2
    (by omega)
    (by rw [hsize, hout]; simp only [overflow_edges]; omega)
    (by rw [hout]; simp only [overflow_edges]; omega)
    (fun o ho hlt y hy => by
      rw [hout] at ho hlt
      rw [List.mem_range'_1] at hy
      interval_cases o
      · simp only [overflow_inputs]
        omega
      · simp only [overflow_edges] at hlt
        omega
      · simp only [overflow_edges] at hlt
        omega)
    951655765
    (by rw [List.mem_range'_1]; omega)
    (by simp only [overflow_inputs]; omega)

/-- A run whose placement loop throws ends in that exception. -/
theorem randomize_custom_data_error (d : sparse_convolution_layer)
    (data_custom : layer_data_custom) (generator : Nat → Nat) (pos n : Nat) (e : Exn)
    (hn : int_loop_iterations d.feature_map_connection_count = n)
    (h : place_connections d generator n (initial_connection_state d pos) = .error e) :
    randomize_custom_data d data_custom generator pos = .error e := by
  unfold randomize_custom_data
  rw [hn, h]

/-! ## Theorems: the scan index beyond `INT_MAX` (C20, C23) -/

/-- C20, as stated, fails: at 1080000000 inputs, 3 outputs and 2147483647
connections (2147483650 slots), a validated descriptor, with the generator
outputs of `overflow_generator`.  The placement loop completes 2031655765
iterations.  In the state it has reached then, output 0 has 600000000 edges
and is connected to every input of the pool, output 1 has 715827883 edges and
output 2 has 715827882 edges, an unconsumed slot left (at position 2147483648)
and a candidate in the pool: the greedy rule names output 2.  The scan of the
source does not get there: its `int` index starts at slot 1800000000 of output
0, passes the consumed slots, is incremented at 2147483647, and the iteration
ends with a subscript out of range instead of an edge for output 2. -/
theorem scan_leaves_the_greedy_rule_beyond_int_max :
    validated ⟨[1], 1080000000, 3, 2147483647, [0], [0]⟩ ∧
    ∃ st, place_connections ⟨[1], 1080000000, 3, 2147483647, [0], [0]⟩ overflow_generator
        2031655765 (initial_connection_state ⟨[1], 1080000000, 3, 2147483647, [0], [0]⟩ 0) =
        .ok st ∧
      spec_greedy_output ⟨[1], 1080000000, 3, 2147483647, [0], [0]⟩ st = some 2 ∧
      scan_output ⟨[1], 1080000000, 3, 2147483647, [0], [0]⟩ st = none ∧
      place_connection ⟨[1], 1080000000, 3, 2147483647, [0], [0]⟩ overflow_generator st =
        .error .subscript_out_of_range := by
  have hd : validated ⟨[1], 1080000000, 3, 2147483647, [0], [0]⟩ := by decide
  obtain ⟨st, hrun, herr, hscan, hgreedy⟩ :=
    overflow_run_passes_int_max ⟨[1], 1080000000, 3, 2147483647, [0], [0]⟩ hd rfl rfl rfl
  exact ⟨hd, st, hrun, hgreedy, hscan, herr⟩

/-- C23, as stated, fails: at 1080000000 inputs, 3 outputs and 2147483647
connections (2147483650 slots), a validated descriptor of `unsigned int`
members, with the generator outputs of `overflow_generator`, the call of
`randomize_custom_data` ends with `output_feature_map_id_list` subscripted out
of range.  After 2031655765 completed iterations the first slot that can be
served is at position 2147483648; the `int` scan index is incremented at
2147483647, and `output_feature_map_id_list[current_feature_map_index] = -1`
is reached with an index outside the sequence. -/
theorem cursor_leaves_the_sequence_beyond_int_max :
    validated ⟨[1], 1080000000, 3, 2147483647, [0], [0]⟩ ∧
    layer_is_u32 ⟨[1], 1080000000, 3, 2147483647, [0], [0]⟩ ∧
    randomize_custom_data ⟨[1], 1080000000, 3, 2147483647, [0], [0]⟩
      ⟨List.replicate 2147483647 0, List.replicate 4 0⟩ overflow_generator 0 =
        .error .subscript_out_of_range := by
  have hd : validated ⟨[1], 1080000000, 3, 2147483647, [0], [0]⟩ := by decide
  obtain ⟨st, hrun, herr, -, -⟩ :=
    overflow_run_passes_int_max ⟨[1], 1080000000, 3, 2147483647, [0], [0]⟩ hd rfl rfl rfl
  exact ⟨hd, by decide, randomize_custom_data_error _ _ _ _ (2031655765 + 1 + 115827881) _
    (by decide) (place_connections_error _ _ _ 115827881 _ st _ hrun herr)⟩

end nnforge
